import Mathlib

/-!
# Birthday cake cutting animation (`cake-cutting.js`)

A shallow embedding of the script: the elements it looks up, the two particle
generators, the cutting sequence, the reset function and the timers they
register.

Modelling conventions.
* A JavaScript number is the rational it denotes.  Every arithmetic operation
  of the script and every decimal literal is rounded to the nearest double,
  ties to even (`fl`); infinities and NaN do not arise for the magnitudes the
  script computes and are not modelled.
* Every `document.getElementById` result may be `null` (`none`); using a
  `null` reference raises a `TypeError`, which ends the running function and
  keeps the mutations made before it.
* `setTimeout(cb, d)` converts `d` to a `long` as the host does (truncation to
  whole milliseconds, negative values raised to zero) and registers a timer due
  that many milliseconds after `now`; the event loop `advance` fires due timers
  one at a time (run to completion), earliest first, ties in registration
  order, each at its nominal due time.  The callbacks are the constructors of
  `Action`.
* `Math.random`, `Math.cos`, `Math.sin` and `getBoundingClientRect` are the
  host's: they are the fields of `Env`.
* A particle count is a natural number.
-/

namespace CakeCutting

/-! ## Data model -/

/-- Errors raised by a statement of the script. -/
inductive JsError where
  | typeError
  deriving DecidableEq, Repr

/-- An element of which the script only touches the class list. -/
structure Element where
  classList : List String
  deriving DecidableEq, Repr

/-- A candle flame: class list and the two inline style properties written by the script. -/
structure Flame where
  classList : List String
  transition : String
  opacity : String
  deriving DecidableEq, Repr

/-- The trigger button. -/
structure Button where
  disabled : Bool
  content : String
  deriving DecidableEq, Repr

/-- Unit of a CSS length written by the script. -/
inductive LengthUnit where
  | percent
  | px
  deriving DecidableEq, Repr

/-- A `div` created by one of the generators.  `id` is the identity of the node;
`top` is in pixels. -/
structure Particle where
  id : Nat
  classList : List String
  left : ℚ
  leftUnit : LengthUnit
  top : ℚ
  backgroundColor : Option String
  animationDelay : ℚ
  animationDuration : ℚ
  deriving DecidableEq

/-- Result of `getBoundingClientRect`. -/
structure DOMRect where
  left : ℚ
  top : ℚ
  width : ℚ
  height : ℚ
  deriving DecidableEq

/-- The callbacks handed to `setTimeout`, one constructor per arrow function of the script. -/
inductive Action where
  | knifeShow
  | knifeMove
  | sliceLine
  | cakeSplit
  | confettiBatch
  | sparkleBatch
  | message
  | removeConfetti (el : Nat)
  | removeSparkle (el : Nat)
  deriving DecidableEq, Repr

/-- A registered timer. -/
structure Timer where
  due : ℚ
  action : Action
  deriving DecidableEq

/-- Host functions used by the script. -/
structure Env where
  random : Nat → ℚ
  cos : ℚ → ℚ
  sin : ℚ → ℚ
  getBoundingClientRect : Element → DOMRect

/-- The page as the script sees it, with the pending timers, the clock, the next
fresh node identity and the number of `Math.random()` calls made so far. -/
structure Scene where
  cutButton : Option Button
  cakeOriginal : Option Element
  cakeLeft : Option Element
  cakeRight : Option Element
  cuttingLine : Option Element
  knife : Option Element
  confettiContainer : Option (List Particle)
  sparkleContainer : Option (List Particle)
  birthdayMessage : Option Element
  flames : List Flame
  timers : List Timer
  now : ℚ
  nextId : Nat
  randomCalls : Nat
  uncaught : List JsError

/-- What a function call leaves behind: the scene, and the error it raised, if any. -/
structure Outcome where
  scene : Scene
  error : Option JsError

/-- Normal completion. -/
def Outcome.ok (s : Scene) : Outcome := ⟨s, none⟩

/-- Dereferencing `null`. -/
def Outcome.throw (s : Scene) : Outcome := ⟨s, some JsError.typeError⟩

/-- Sequencing of statements: the rest runs only if no error was raised. -/
def Outcome.andThen (o : Outcome) (f : Scene → Outcome) : Outcome :=
  match o.error with
  | none => f o.scene
  | some _ => o

/-! ## Constants -/

/-- `CONFETTI_COLORS`. -/
def CONFETTI_COLORS : List String :=
  ["#ff8fab", "#ffb3c6", "#ffd3b6", "#ffe082", "#c5e1a5", "#b39ddb", "#f48fb1"]

namespace TIMING

/-! The fields of `TIMING`, in milliseconds. -/

def KNIFE_SHOW : ℚ := 300
def KNIFE_MOVE : ℚ := 600
def SLICE_LINE : ℚ := 1500
def CAKE_SPLIT : ℚ := 1900
def CONFETTI : ℚ := 2200
def SPARKLES : ℚ := 2500
def MESSAGE : ℚ := 3100

end TIMING

namespace Math

/-- `Math.PI`, the double nearest to pi. -/
def PI : ℚ := 884279719003555 / 281474976710656

end Math

/-! ## Numbers -/

/-- Rounding of a rational to the nearest integer, ties to the even one. -/
def rne (q : ℚ) : ℤ :=
  if q - ⌊q⌋ < 1 / 2 then ⌊q⌋
  else if 1 / 2 < q - ⌊q⌋ then ⌊q⌋ + 1
  else if ⌊q⌋ % 2 = 0 then ⌊q⌋ else ⌊q⌋ + 1

/-- The exponent of the binade of `x` in the binary64 format (subnormals share the lowest). -/
def expo (x : ℚ) : ℤ := max (Int.log 2 |x|) (-1022)

/-- The spacing of the doubles in the binade of `x`. -/
def ulp (x : ℚ) : ℚ := (2 : ℚ) ^ (expo x - 52)

/-- The double nearest to `x`, ties to even: the value of a JavaScript operation whose exact
result is `x`. -/
def fl (x : ℚ) : ℚ := rne (x / ulp x) * ulp x

/-- The host's conversion of a number to a WebIDL `long`: truncation, then reduction modulo
`2 ^ 32` into the signed range. -/
def toLong (x : ℚ) : ℤ :=
  let n := if 0 ≤ x then ⌊x⌋ else -⌊-x⌋
  let m := n % 2 ^ 32
  if 2 ^ 31 ≤ m then m - 2 ^ 32 else m

/-- The delay the host gives a timer for the `timeout` argument `delay`: a `long`, raised to
zero when negative. -/
def timerDelay (delay : ℚ) : ℚ := ((max (toLong delay) 0 : ℤ) : ℚ)

/-! ## DOM helpers -/

/-- `classList.add(c)`. -/
def classAdd (c : String) (l : List String) : List String :=
  if c ∈ l then l else l ++ [c]

/-- `classList.remove(c)`. -/
def classRemove (c : String) (l : List String) : List String :=
  l.filter (fun x => x != c)

/-- `el.classList.add(c)` on an element. -/
def Element.add (e : Element) (c : String) : Element :=
  { e with classList := classAdd c e.classList }

/-- `el.classList.remove(c)` on an element. -/
def Element.remove (e : Element) (c : String) : Element :=
  { e with classList := classRemove c e.classList }

/-- `setTimeout(cb, delay)`. -/
def setTimeout (a : Action) (delay : ℚ) (s : Scene) : Scene :=
  { s with timers := s.timers ++ [⟨s.now + timerDelay delay, a⟩] }

/-! ## The script -/

/-- `initFlames`. -/
def initFlames (s : Scene) : Scene :=
  { s with flames := s.flames.map (fun flame =>
      { flame with classList := classAdd "visible" flame.classList }) }

/-- The confetti `div` built by one iteration, from the node identity `id` and the
index `r` of the first `Math.random()` call of the iteration. -/
def newConfetti (env : Env) (id r : Nat) : Particle :=
  let color :=
    CONFETTI_COLORS.get? (Rat.floor (fl (env.random r * CONFETTI_COLORS.length))).toNat
  let left := fl (env.random (r + 1) * 100)
  let delay := fl (env.random (r + 2) * (1 / 2))
  let duration := fl (2 + fl (env.random (r + 3) * (3 / 2)))
  { id := id
    classList := if env.random (r + 4) > 1 / 2 then classAdd "round" ["confetti"] else ["confetti"]
    left := left
    leftUnit := LengthUnit.percent
    top := -20
    backgroundColor := color
    animationDelay := delay
    animationDuration := duration }

/-- One iteration of the loop of `createConfetti`. -/
def confettiStep (env : Env) (s : Scene) : Scene :=
  let el := newConfetti env s.nextId s.randomCalls
  setTimeout (Action.removeConfetti el.id)
    (fl (fl (el.animationDuration + el.animationDelay) * 1000))
    { s with
      confettiContainer := s.confettiContainer.map (fun children => children ++ [el])
      nextId := s.nextId + 1
      randomCalls := s.randomCalls + 5 }

/-- `createConfetti(count)`, `count` being a number of particles (60 at the call site). -/
def createConfetti (env : Env) (count : Nat) (s : Scene) : Outcome :=
  match s.confettiContainer with
  | none => Outcome.throw s
  | some _ =>
    Outcome.ok ((List.range count).foldl (fun acc _ => confettiStep env acc)
      { s with confettiContainer := some [] })

/-- The angle of the `i`-th sparkle: `(Math.PI * 2 * i) / count`, each operation rounded. -/
def sparkleAngle (count i : Nat) : ℚ :=
  fl (fl (fl (Math.PI * 2) * i) / count)

/-- The sparkle `div` built by iteration `i`, from the node identity `id` and the
index `r` of the first `Math.random()` call of the iteration. -/
def newSparkle (env : Env) (centerX centerY : ℚ) (count i id r : Nat) : Particle :=
  let angle := sparkleAngle count i
  let radius := fl (80 + fl (env.random r * 100))
  let x := fl (centerX + fl (env.cos angle * radius))
  let y := fl (centerY + fl (env.sin angle * radius))
  let delay := fl (env.random (r + 1) * fl (3 / 10))
  let duration := fl (1 + fl (env.random (r + 2) * fl (7 / 10)))
  { id := id
    classList := ["sparkle"]
    left := x
    leftUnit := LengthUnit.px
    top := y
    backgroundColor := none
    animationDelay := delay
    animationDuration := duration }

/-- One iteration of the loop of `createSparkles`. -/
def sparkleStep (env : Env) (centerX centerY : ℚ) (count i : Nat) (s : Scene) : Scene :=
  let sparkle := newSparkle env centerX centerY count i s.nextId s.randomCalls
  setTimeout (Action.removeSparkle sparkle.id)
    (fl (fl (sparkle.animationDuration + sparkle.animationDelay) * 1000))
    { s with
      sparkleContainer := s.sparkleContainer.map (fun children => children ++ [sparkle])
      nextId := s.nextId + 1
      randomCalls := s.randomCalls + 3 }

/-- `createSparkles(count)`, `count` being a number of particles (40 at the call site). -/
def createSparkles (env : Env) (count : Nat) (s : Scene) : Outcome :=
  match s.sparkleContainer with
  | none => Outcome.throw s
  | some _ =>
    let s1 := { s with sparkleContainer := some [] }
    match s1.cakeOriginal with
    | none => Outcome.throw s1
    | some cake =>
      let rect := env.getBoundingClientRect cake
      let centerX := fl (rect.left + fl (rect.width / 2))
      let centerY := fl (rect.top + fl (rect.height / 2))
      Outcome.ok ((List.range count).foldl
        (fun acc i => sparkleStep env centerX centerY count i acc) s1)

/-- `runCakeCuttingSequence()`. -/
def runCakeCuttingSequence (s : Scene) : Outcome :=
  match s.cutButton with
  | none => Outcome.throw s
  | some button =>
    let s1 := { s with cutButton := some { button with disabled := true, content := "Cutting..." } }
    Outcome.ok
      (setTimeout Action.message TIMING.MESSAGE
      (setTimeout Action.sparkleBatch TIMING.SPARKLES
      (setTimeout Action.confettiBatch TIMING.CONFETTI
      (setTimeout Action.cakeSplit TIMING.CAKE_SPLIT
      (setTimeout Action.sliceLine TIMING.SLICE_LINE
      (setTimeout Action.knifeMove TIMING.KNIFE_MOVE
      (setTimeout Action.knifeShow TIMING.KNIFE_SHOW s1)))))))

/-- The flame fade of the cake split callback. -/
def Flame.fade (flame : Flame) : Flame :=
  { flame with transition := "opacity 0.5s ease", opacity := "0" }

/-- The flame restore of `resetCakeScene`. -/
def Flame.restore (flame : Flame) : Flame :=
  { flame with transition := "", opacity := "1", classList := classAdd "visible" flame.classList }

/-- Callback 4 of the sequence: split the cake and fade the flames. -/
def cakeSplitCallback (s : Scene) : Outcome :=
  match s.cakeOriginal with
  | none => Outcome.throw s
  | some original =>
    let s1 := { s with cakeOriginal := some (original.add "hidden") }
    match s1.cakeLeft with
    | none => Outcome.throw s1
    | some left =>
      let s2 := { s1 with cakeLeft := some (left.add "split") }
      match s2.cakeRight with
      | none => Outcome.throw s2
      | some right =>
        Outcome.ok { s2 with
          cakeRight := some (right.add "split")
          flames := s2.flames.map Flame.fade }

/-- The removal callback of a confetti node: `if (el.parentNode) el.parentNode.removeChild(el)`.
The node has a parent exactly when it is a child of the confetti container. -/
def removeConfettiCallback (el : Nat) (s : Scene) : Outcome :=
  match s.confettiContainer with
  | none => Outcome.ok s
  | some children =>
    if children.any (fun p => p.id == el) then
      Outcome.ok { s with confettiContainer := some (children.filter (fun p => p.id != el)) }
    else Outcome.ok s

/-- The removal callback of a sparkle node. -/
def removeSparkleCallback (el : Nat) (s : Scene) : Outcome :=
  match s.sparkleContainer with
  | none => Outcome.ok s
  | some children =>
    if children.any (fun p => p.id == el) then
      Outcome.ok { s with sparkleContainer := some (children.filter (fun p => p.id != el)) }
    else Outcome.ok s

/-- Running a timer callback. -/
def fire (env : Env) (a : Action) (s : Scene) : Outcome :=
  match a with
  | Action.knifeShow =>
    match s.knife with
    | none => Outcome.throw s
    | some k => Outcome.ok { s with knife := some (k.add "visible") }
  | Action.knifeMove =>
    match s.knife with
    | none => Outcome.throw s
    | some k => Outcome.ok { s with knife := some (k.add "moving") }
  | Action.sliceLine =>
    match s.cuttingLine with
    | none => Outcome.throw s
    | some line => Outcome.ok { s with cuttingLine := some (line.add "visible") }
  | Action.cakeSplit => cakeSplitCallback s
  | Action.confettiBatch => createConfetti env 60 s
  | Action.sparkleBatch => createSparkles env 40 s
  | Action.message =>
    match s.birthdayMessage with
    | none => Outcome.throw s
    | some m => Outcome.ok { s with birthdayMessage := some (m.add "visible") }
  | Action.removeConfetti el => removeConfettiCallback el s
  | Action.removeSparkle el => removeSparkleCallback el s

/-- The label written by `resetCakeScene`. -/
def cutButtonMarkup : String :=
  "<span class=\"button-icon\">🎂</span><span class=\"button-text\">Cut the Cake</span>"

/-- `resetCakeScene()`. -/
def resetCakeScene (s : Scene) : Outcome :=
  (((((((((match s.cakeOriginal with
    | none => Outcome.throw s
    | some e => Outcome.ok { s with cakeOriginal := some (e.remove "hidden") }).andThen
  (fun s => match s.cakeLeft with
    | none => Outcome.throw s
    | some e => Outcome.ok { s with cakeLeft := some (e.remove "split") })).andThen
  (fun s => match s.cakeRight with
    | none => Outcome.throw s
    | some e => Outcome.ok { s with cakeRight := some (e.remove "split") })).andThen
  (fun s => match s.cuttingLine with
    | none => Outcome.throw s
    | some e => Outcome.ok { s with cuttingLine := some (e.remove "visible") })).andThen
  (fun s => match s.knife with
    | none => Outcome.throw s
    | some e => Outcome.ok { s with knife := some ((e.remove "visible").remove "moving") })).andThen
  (fun s => match s.birthdayMessage with
    | none => Outcome.throw s
    | some e => Outcome.ok { s with birthdayMessage := some (e.remove "visible") })).andThen
  (fun s => match s.confettiContainer with
    | none => Outcome.throw s
    | some _ => Outcome.ok { s with confettiContainer := some [] })).andThen
  (fun s => match s.sparkleContainer with
    | none => Outcome.throw s
    | some _ => Outcome.ok { s with sparkleContainer := some [] })).andThen
  (fun s => Outcome.ok { s with flames := s.flames.map Flame.restore })).andThen
  (fun s => match s.cutButton with
    | none => Outcome.throw s
    | some b => Outcome.ok { s with cutButton := some { b with disabled := false, content := cutButtonMarkup } })

/-- A click on the trigger.  The listener is registered only when the button exists, and
the browser dispatches no click event to a disabled button. -/
def clickCutButton (s : Scene) : Outcome :=
  match s.cutButton with
  | none => Outcome.ok s
  | some button => if button.disabled then Outcome.ok s else runCakeCuttingSequence s

/-! ## The event loop -/

/-- The next timer to fire and the timers left: the earliest due, the first registered among
equals. -/
def popEarliest : List Timer → Option (Timer × List Timer)
  | [] => none
  | x :: xs =>
    match popEarliest xs with
    | none => some (x, [])
    | some (y, rest) => if y.due < x.due then some (y, x :: rest) else some (x, xs)

/-- An upper bound on the number of callbacks a pending timer gives rise to. -/
def Action.weight : Action → Nat
  | Action.confettiBatch => 61
  | Action.sparkleBatch => 41
  | _ => 1

/-- Total weight of the pending timers. -/
def timersWeight (l : List Timer) : Nat :=
  (l.map (fun tm => tm.action.weight)).sum

/-- One turn of the event loop for the timer `tm`, `rest` being the other pending timers:
the clock reaches the due time, the callback runs, an error it raises is reported. -/
def turn (env : Env) (tm : Timer) (rest : List Timer) (s : Scene) : Scene :=
  let o := fire env tm.action { s with timers := rest, now := max s.now tm.due }
  match o.error with
  | none => o.scene
  | some e => { o.scene with uncaught := o.scene.uncaught ++ [e] }

/-- The event loop up to time `t`, at most `fuel` turns. -/
def advanceFuel (env : Env) (t : ℚ) : Nat → Scene → Scene
  | 0, s => s
  | fuel + 1, s =>
    match popEarliest s.timers with
    | none => s
    | some (tm, rest) =>
      if tm.due ≤ t then advanceFuel env t fuel (turn env tm rest s) else s

/-- The scene at time `t`: every timer due by `t` has fired. -/
def advance (env : Env) (t : ℚ) (s : Scene) : Scene :=
  let s1 := advanceFuel env t (timersWeight s.timers) s
  { s1 with now := max s1.now t }

/-! ## The flags of the scene state -/

/-- Whether an element that may be absent carries a class. -/
def hasClass (c : String) (e : Option Element) : Bool :=
  match e with
  | none => false
  | some el => el.classList.contains c

/-- The knife carries the class `visible`. -/
def knifeVisible (s : Scene) : Bool := hasClass "visible" s.knife

/-- The knife carries the class `moving`. -/
def knifeMoving (s : Scene) : Bool := hasClass "moving" s.knife

/-- The slice line carries the class `visible`. -/
def lineVisible (s : Scene) : Bool := hasClass "visible" s.cuttingLine

/-- The whole cake is hidden and both halves carry the class `split`. -/
def cakeSplit (s : Scene) : Bool :=
  hasClass "hidden" s.cakeOriginal && hasClass "split" s.cakeLeft && hasClass "split" s.cakeRight

/-- The message carries the class `visible`. -/
def messageVisible (s : Scene) : Bool := hasClass "visible" s.birthdayMessage

/-- A flame is lit when it carries the class `visible` (added by `initFlames` and by
`resetCakeScene`) and its inline opacity is not the `'0'` written by the fade of the cake
split callback. -/
def Flame.lit (flame : Flame) : Bool :=
  flame.classList.contains "visible" && flame.opacity != "0"

/-- Every flame is lit. -/
def flamesLit (s : Scene) : Bool := s.flames.all Flame.lit

/-- Whether the trigger is disabled. -/
def triggerDisabled (s : Scene) : Bool :=
  match s.cutButton with
  | none => false
  | some b => b.disabled

/-- The children of the confetti container (none if there is no container). -/
def confettiChildren (s : Scene) : List Particle := s.confettiContainer.getD []

/-- The children of the sparkle container (none if there is no container). -/
def sparkleChildren (s : Scene) : List Particle := s.sparkleContainer.getD []

/-- A page right after load: every element present, one flame, nothing pending. -/
def loadedScene : Scene :=
  initFlames
    { cutButton := some ⟨false, "Cut the Cake"⟩
      cakeOriginal := some ⟨["cake"]⟩
      cakeLeft := some ⟨["cake-half"]⟩
      cakeRight := some ⟨["cake-half"]⟩
      cuttingLine := some ⟨[]⟩
      knife := some ⟨["knife"]⟩
      confettiContainer := some []
      sparkleContainer := some []
      birthdayMessage := some ⟨[]⟩
      flames := [⟨["flame"], "", ""⟩]
      timers := []
      now := 0
      nextId := 0
      randomCalls := 0
      uncaught := [] }

/-- A host whose random source always returns one half. -/
def sampleEnv : Env :=
  { random := fun _ => 1 / 2
    cos := fun _ => 1
    sin := fun _ => 0
    getBoundingClientRect := fun _ => ⟨100, 100, 200, 200⟩ }

/-- A host whose random source always returns the largest double below one, whose reference
element sits at the origin with no extent, and whose cosine and sine are those of angle 0. -/
def edgeEnv : Env :=
  { random := fun _ => 1 - 1 / 2 ^ 53
    cos := fun _ => 1
    sin := fun _ => 0
    getBoundingClientRect := fun _ => ⟨0, 0, 0, 0⟩ }

/-- A host whose random source returns 0, 1/8, 2/8, ..., 7/8 in turn. -/
def eighthsEnv : Env :=
  { random := fun k => ((k % 8 : ℕ) : ℚ) / 8
    cos := fun _ => 1
    sin := fun _ => 0
    getBoundingClientRect := fun _ => ⟨100, 100, 200, 200⟩ }

/-! ## Auxiliary definitions for the statements -/

/-- The `timeout` argument of the removal timer of a particle: `(duration + delay) * 1000`. -/
def removalArgument (p : Particle) : ℚ :=
  fl (fl (p.animationDuration + p.animationDelay) * 1000)

/-- The removal timer registered for a particle created at time `now`. -/
def removalTimer (now : ℚ) (cb : Nat → Action) (p : Particle) : Timer :=
  ⟨now + timerDelay (removalArgument p), cb p.id⟩

/-- The confetti created by `n` iterations starting at node identity `id0` and random call `r0`. -/
def confettiOf (env : Env) (id0 r0 n : Nat) : List Particle :=
  (List.range n).map (fun i => newConfetti env (id0 + i) (r0 + 5 * i))

/-- The sparkles created by the first `n` iterations of a call with argument `count`. -/
def sparklesOf (env : Env) (cx cy : ℚ) (count id0 r0 n : Nat) : List Particle :=
  (List.range n).map (fun i => newSparkle env cx cy count i (id0 + i) (r0 + 3 * i))

/-- The centre of the reference element, as `createSparkles` computes it. -/
def centerX (env : Env) (cake : Element) : ℚ :=
  fl ((env.getBoundingClientRect cake).left + fl ((env.getBoundingClientRect cake).width / 2))

/-- The centre of the reference element, as `createSparkles` computes it. -/
def centerY (env : Env) (cake : Element) : ℚ :=
  fl ((env.getBoundingClientRect cake).top + fl ((env.getBoundingClientRect cake).height / 2))

/-- The timers a callback registers when it runs in scene `s`. -/
def spawned (env : Env) (a : Action) (s : Scene) : List Timer :=
  match a with
  | Action.confettiBatch =>
    match s.confettiContainer with
    | none => []
    | some _ => (confettiOf env s.nextId s.randomCalls 60).map
        (removalTimer s.now Action.removeConfetti)
  | Action.sparkleBatch =>
    match s.sparkleContainer, s.cakeOriginal with
    | some _, some cake =>
      (sparklesOf env (centerX env cake) (centerY env cake) 40 s.nextId s.randomCalls 40).map
        (removalTimer s.now Action.removeSparkle)
    | _, _ => []
  | _ => []

/-- A page whose two particle containers are missing. -/
def sceneWithoutContainers : Scene :=
  { loadedScene with confettiContainer := none, sparkleContainer := none }

/-- The five class flags that are true in `s` are true in `t`. -/
def flagsKept (s t : Scene) : Prop :=
  (knifeVisible s = true → knifeVisible t = true) ∧
  (knifeMoving s = true → knifeMoving t = true) ∧
  (lineVisible s = true → lineVisible t = true) ∧
  (cakeSplit s = true → cakeSplit t = true) ∧
  (messageVisible s = true → messageVisible t = true)

instance (s t : Scene) : Decidable (flagsKept s t) := by
  unfold flagsKept
  infer_instance

/-- The seven timers registered by `runCakeCuttingSequence` called at time `t0`. -/
def sequenceTimers (t0 : ℚ) : List Timer :=
  [⟨t0 + 300, Action.knifeShow⟩, ⟨t0 + 600, Action.knifeMove⟩, ⟨t0 + 1500, Action.sliceLine⟩,
   ⟨t0 + 1900, Action.cakeSplit⟩, ⟨t0 + 2200, Action.confettiBatch⟩,
   ⟨t0 + 2500, Action.sparkleBatch⟩, ⟨t0 + 3100, Action.message⟩]

/-- Both containers and the reference element exist, and no node has been created and no
random number drawn since `s0`. -/
def Prepared (s0 u : Scene) : Prop :=
  u.confettiContainer.isSome = true ∧ u.sparkleContainer.isSome = true ∧
  u.cakeOriginal.isSome = true ∧ u.nextId = s0.nextId ∧ u.randomCalls = s0.randomCalls

instance (s0 u : Scene) : Decidable (Prepared s0 u) := by
  unfold Prepared
  infer_instance

/-! ## Rounding -/

theorem two_zpow_pos (z : ℤ) : (0 : ℚ) < 2 ^ z := zpow_pos (by norm_num) z

theorem ulp_pos (x : ℚ) : 0 < ulp x := two_zpow_pos _

theorem floor_le_rne (q : ℚ) : ⌊q⌋ ≤ rne q := by
  unfold rne
  split
  · exact le_refl _
  · split
    · omega
    · split <;> omega

theorem rne_le_floor_succ (q : ℚ) : rne q ≤ ⌊q⌋ + 1 := by
  unfold rne
  split
  · omega
  · split
    · omega
    · split <;> omega

theorem rne_intCast (n : ℤ) : rne (n : ℚ) = n := by
  simp [rne]

theorem rne_eval (q : ℚ) (f : ℤ) (h1 : (f : ℚ) ≤ q) (h2 : q < f + 1) :
    rne q = if q - f < 1 / 2 then f
      else if 1 / 2 < q - f then f + 1
      else if f % 2 = 0 then f else f + 1 := by
  have hf : ⌊q⌋ = f := Int.floor_eq_iff.2 ⟨h1, h2⟩
  simp only [rne, hf]

theorem rne_mono {p q : ℚ} (h : p ≤ q) : rne p ≤ rne q := by
  have hfl : ⌊p⌋ ≤ ⌊q⌋ := Int.floor_mono h
  rcases lt_or_eq_of_le hfl with hlt | heq
  · have h1 := rne_le_floor_succ p
    have h2 := floor_le_rne q
    omega
  · have hp := rne_eval p ⌊p⌋ (Int.floor_le p) (Int.lt_floor_add_one p)
    have hq := rne_eval q ⌊p⌋ (heq ▸ Int.floor_le q) (heq ▸ Int.lt_floor_add_one q)
    rw [hp, hq]
    by_cases c1 : p - ⌊p⌋ < 1 / 2
    · rw [if_pos c1]
      split
      · exact le_refl _
      · split
        · omega
        · split <;> omega
    · rw [if_neg c1]
      by_cases c2 : 1 / 2 < p - ⌊p⌋
      · have c3 : 1 / 2 < q - ⌊p⌋ := by linarith
        have c4 : ¬ q - ⌊p⌋ < 1 / 2 := by linarith
        rw [if_pos c2, if_neg c4, if_pos c3]
      · rw [if_neg c2]
        have hpe : p - ⌊p⌋ = 1 / 2 := le_antisymm (not_lt.1 c2) (not_lt.1 c1)
        have c4 : ¬ q - ⌊p⌋ < 1 / 2 := by linarith
        rw [if_neg c4]
        by_cases c5 : 1 / 2 < q - ⌊p⌋
        · rw [if_pos c5]
          split <;> omega
        · rw [if_neg c5]

theorem fl_zero : fl 0 = 0 := by
  simp [fl, rne]

theorem fl_nonneg {x : ℚ} (hx : 0 ≤ x) : 0 ≤ fl x := by
  unfold fl
  have h1 : (0 : ℚ) ≤ x / ulp x := div_nonneg hx (le_of_lt (ulp_pos x))
  have h2 : rne 0 ≤ rne (x / ulp x) := rne_mono h1
  have h3 : rne (0 : ℚ) = 0 := by simpa using rne_intCast 0
  rw [h3] at h2
  exact mul_nonneg (by exact_mod_cast h2) (le_of_lt (ulp_pos x))

theorem expo_mono {x y : ℚ} (hx : 0 < x) (h : x ≤ y) : expo x ≤ expo y := by
  unfold expo
  rw [abs_of_pos hx, abs_of_pos (lt_of_lt_of_le hx h)]
  exact max_le_max (Int.log_mono_right hx h) (le_refl _)

theorem lt_zpow_expo_succ {x : ℚ} (hx : 0 < x) : x < 2 ^ (expo x + 1) := by
  have h1 : x < ((2 : ℕ) : ℚ) ^ (Int.log 2 x + 1) := Int.lt_zpow_succ_log_self (by norm_num : 1 < 2) x
  have h2 : Int.log 2 x + 1 ≤ expo x + 1 := by
    unfold expo
    rw [abs_of_pos hx]
    have := le_max_left (Int.log 2 x) (-1022)
    omega
  have h3 : ((2 : ℕ) : ℚ) ^ (Int.log 2 x + 1) ≤ (2 : ℚ) ^ (expo x + 1) := by
    rw [Nat.cast_ofNat]
    exact zpow_le_zpow_right₀ (by norm_num) h2
  exact lt_of_lt_of_le h1 h3

theorem zpow_expo_le {x : ℚ} (hx : 0 < x) (h : -1022 < expo x) : (2 : ℚ) ^ expo x ≤ x := by
  have he : expo x = Int.log 2 x := by
    unfold expo at h ⊢
    rw [abs_of_pos hx] at h ⊢
    rcases max_cases (Int.log 2 x) (-1022) with ⟨h1, _⟩ | ⟨h1, _⟩
    · exact h1
    · rw [h1] at h
      exact absurd h (lt_irrefl _)
  rw [he]
  have := Int.zpow_log_le_self (by norm_num : 1 < 2) hx
  rwa [Nat.cast_ofNat] at this

theorem zpow_div_ulp (x : ℚ) (j : ℤ) : (2 : ℚ) ^ (expo x + j) / ulp x = 2 ^ (52 + j) := by
  unfold ulp
  rw [← zpow_sub₀ (by norm_num : (2 : ℚ) ≠ 0)]
  congr 1
  ring

theorem fl_le_top {x : ℚ} (hx : 0 < x) : fl x ≤ 2 ^ (expo x + 1) := by
  have h1 := lt_zpow_expo_succ hx
  have h2 : x / ulp x ≤ ((2 ^ 53 : ℤ) : ℚ) := by
    have := div_le_div_of_nonneg_right (le_of_lt h1) (le_of_lt (ulp_pos x))
    rw [zpow_div_ulp] at this
    have e : (2 : ℚ) ^ ((52 : ℤ) + 1) = ((2 ^ 53 : ℤ) : ℚ) := by norm_num
    rwa [e] at this
  have h3 := rne_mono h2
  rw [rne_intCast] at h3
  have h4 : fl x ≤ ((2 ^ 53 : ℤ) : ℚ) * ulp x := by
    unfold fl
    exact mul_le_mul_of_nonneg_right (by exact_mod_cast h3) (le_of_lt (ulp_pos x))
  have h5 : ((2 ^ 53 : ℤ) : ℚ) * ulp x = 2 ^ (expo x + 1) := by
    have := zpow_div_ulp x 1
    rw [div_eq_iff (ne_of_gt (ulp_pos x))] at this
    rw [this]
    norm_num
  rwa [h5] at h4

theorem zpow_expo_le_fl {x : ℚ} (hx : 0 < x) (h : -1022 < expo x) : (2 : ℚ) ^ expo x ≤ fl x := by
  have h1 := zpow_expo_le hx h
  have h2 : ((2 ^ 52 : ℤ) : ℚ) ≤ x / ulp x := by
    have := div_le_div_of_nonneg_right h1 (le_of_lt (ulp_pos x))
    have e0 := zpow_div_ulp x 0
    rw [add_zero] at e0
    rw [e0] at this
    have e : (2 : ℚ) ^ ((52 : ℤ) + 0) = ((2 ^ 52 : ℤ) : ℚ) := by norm_num
    rwa [e] at this
  have h3 := rne_mono h2
  rw [rne_intCast] at h3
  have h4 : ((2 ^ 52 : ℤ) : ℚ) * ulp x ≤ fl x := by
    unfold fl
    exact mul_le_mul_of_nonneg_right (by exact_mod_cast h3) (le_of_lt (ulp_pos x))
  have h5 : ((2 ^ 52 : ℤ) : ℚ) * ulp x = 2 ^ expo x := by
    have := zpow_div_ulp x 0
    rw [add_zero, div_eq_iff (ne_of_gt (ulp_pos x))] at this
    rw [this]
    norm_num
  rwa [h5] at h4

/-- Rounding is monotone on the non-negative numbers. -/
theorem fl_mono {x y : ℚ} (hx : 0 ≤ x) (h : x ≤ y) : fl x ≤ fl y := by
  rcases eq_or_lt_of_le hx with rfl | hpos
  · rw [fl_zero]
    exact fl_nonneg h
  · have hy : 0 < y := lt_of_lt_of_le hpos h
    rcases eq_or_lt_of_le (expo_mono hpos h) with heq | hlt
    · have hu : ulp x = ulp y := by unfold ulp; rw [heq]
      unfold fl
      rw [hu]
      have := rne_mono (div_le_div_of_nonneg_right h (le_of_lt (ulp_pos y)))
      exact mul_le_mul_of_nonneg_right (by exact_mod_cast this) (le_of_lt (ulp_pos y))
    · have h1 := fl_le_top hpos
      have hlow : -1022 ≤ expo x := le_max_right _ _
      have h2 := zpow_expo_le_fl hy (by omega)
      have h3 : (2 : ℚ) ^ (expo x + 1) ≤ 2 ^ expo y :=
        zpow_le_zpow_right₀ (by norm_num) (by omega)
      linarith

theorem expo_eq {x : ℚ} (hx : 0 < x) (e : ℤ) (he : -1022 ≤ e) (h1 : (2 : ℚ) ^ e ≤ x)
    (h2 : x < 2 ^ (e + 1)) : expo x = e := by
  have hl : Int.log 2 x = e := by
    apply le_antisymm
    · have h3 : x < ((2 : ℕ) : ℚ) ^ (e + 1) := by rw [Nat.cast_ofNat]; exact h2
      have := (Int.lt_zpow_iff_log_lt (by norm_num : 1 < 2) hx).1 h3
      omega
    · have h3 : ((2 : ℕ) : ℚ) ^ e ≤ x := by rw [Nat.cast_ofNat]; exact h1
      exact (Int.zpow_le_iff_le_log (by norm_num : 1 < 2) hx).1 h3
  unfold expo
  rw [abs_of_pos hx, hl]
  exact max_eq_left he

/-- Rounding of a number in the binade of exponent `e`. -/
theorem fl_eval {x : ℚ} (hx : 0 < x) (e : ℤ) (he : -1022 ≤ e) (h1 : (2 : ℚ) ^ e ≤ x)
    (h2 : x < 2 ^ (e + 1)) : fl x = rne (x / 2 ^ (e - 52)) * 2 ^ (e - 52) := by
  unfold fl ulp
  rw [expo_eq hx e he h1 h2]

/-- A dyadic number with a significand below `2 ^ 53` is a double. -/
theorem fl_dyadic (m : ℕ) (k : ℤ) (hm : m < 2 ^ 53) (hk : -1074 ≤ k) :
    fl ((m : ℚ) * 2 ^ k) = (m : ℚ) * 2 ^ k := by
  rcases Nat.eq_zero_or_pos m with rfl | hpos
  · simp [fl_zero]
  · have hx : (0 : ℚ) < (m : ℚ) * 2 ^ k := mul_pos (by exact_mod_cast hpos) (two_zpow_pos k)
    have hlt : (m : ℚ) * 2 ^ k < ((2 : ℕ) : ℚ) ^ (k + 53) := by
      rw [Nat.cast_ofNat, zpow_add₀ (by norm_num : (2 : ℚ) ≠ 0), mul_comm]
      have h53 : (m : ℚ) < 2 ^ (53 : ℤ) := by
        rw [show (2 : ℚ) ^ (53 : ℤ) = ((2 ^ 53 : ℕ) : ℚ) by norm_num]
        exact_mod_cast hm
      exact mul_lt_mul_of_pos_left h53 (two_zpow_pos k)
    have hlog := (Int.lt_zpow_iff_log_lt (by norm_num : 1 < 2) hx).1 hlt
    have he : expo ((m : ℚ) * 2 ^ k) ≤ k + 52 := by
      unfold expo
      rw [abs_of_pos hx]
      exact max_le (by omega) (by omega)
    obtain ⟨j, hj⟩ := Int.eq_ofNat_of_zero_le (show 0 ≤ k + 52 - expo ((m : ℚ) * 2 ^ k) by omega)
    have hq : (m : ℚ) * 2 ^ k / ulp ((m : ℚ) * 2 ^ k) = (((m * 2 ^ j : ℕ) : ℤ) : ℚ) := by
      unfold ulp
      rw [mul_div_assoc, ← zpow_sub₀ (by norm_num : (2 : ℚ) ≠ 0)]
      have : k - (expo ((m : ℚ) * 2 ^ k) - 52) = (j : ℤ) := by omega
      rw [this, zpow_natCast]
      push_cast
      ring
    unfold fl
    rw [hq, rne_intCast, ← hq]
    exact div_mul_cancel₀ _ (ne_of_gt (ulp_pos _))

/-- A double below one is at most `1 - 2 ^ (-53)`. -/
theorem double_lt_one {r : ℚ} (hd : fl r = r) (h1 : r < 1) : r ≤ 1 - 1 / 2 ^ 53 := by
  by_contra hc
  have hc2 : 1 - 1 / 2 ^ 53 < r := not_le.1 hc
  have hpos : 0 < r := lt_trans (by norm_num) hc2
  have he := fl_eval hpos (-1) (by norm_num) (by norm_num; linarith) (by norm_num; exact h1)
  rw [hd] at he
  have h4 : (2 : ℚ) ^ ((-1 : ℤ) - 52) = 1 / 2 ^ 53 := by norm_num
  rw [h4] at he
  generalize rne (r / (1 / 2 ^ 53)) = N at he
  have hN : (N : ℚ) < ((2 ^ 53 : ℤ) : ℚ) := by
    have h3 : (N : ℚ) * (1 / 2 ^ 53) < 1 := by rw [← he]; exact h1
    have h6 : (0 : ℚ) < 2 ^ 53 := by norm_num
    rw [mul_one_div, div_lt_one h6] at h3
    push_cast
    exact h3
  have hN2 : N ≤ 2 ^ 53 - 1 := by
    have : N < 2 ^ 53 := by exact_mod_cast hN
    omega
  have hN3 : (N : ℚ) ≤ 2 ^ 53 - 1 := by exact_mod_cast hN2
  have : r ≤ (2 ^ 53 - 1) * (1 / 2 ^ 53) := by
    rw [he]
    exact mul_le_mul_of_nonneg_right hN3 (by norm_num)
  have h7 : ((2 : ℚ) ^ 53 - 1) * (1 / 2 ^ 53) = 1 - 1 / 2 ^ 53 := by norm_num
  rw [h7] at this
  exact hc this

theorem toLong_of_range {x : ℚ} (h0 : 0 ≤ x) (h1 : x < 2 ^ 31) : toLong x = ⌊x⌋ := by
  have hf0 : 0 ≤ ⌊x⌋ := Int.floor_nonneg.2 h0
  have hf1 : ⌊x⌋ < 2 ^ 31 := by
    have : ⌊x⌋ < ((2 ^ 31 : ℤ)) := Int.floor_lt.2 (by push_cast; exact h1)
    exact this
  simp only [toLong, if_pos h0]
  have hm : ⌊x⌋ % 2 ^ 32 = ⌊x⌋ := Int.emod_eq_of_lt hf0 (by omega)
  rw [hm, if_neg (by omega)]

theorem timerDelay_of_range {x : ℚ} (h0 : 0 ≤ x) (h1 : x < 2 ^ 31) :
    timerDelay x = (⌊x⌋ : ℚ) := by
  unfold timerDelay
  rw [toLong_of_range h0 h1, max_eq_left (Int.floor_nonneg.2 h0)]

theorem timerDelay_natCast (n : ℕ) (h : n < 2 ^ 31) : timerDelay (n : ℚ) = n := by
  rw [timerDelay_of_range (by positivity) (by exact_mod_cast h)]
  simp

theorem rne_sub_abs (q : ℚ) : |(rne q : ℚ) - q| ≤ 1 / 2 := by
  have h1 := Int.floor_le q
  have h2 := Int.lt_floor_add_one q
  unfold rne
  split
  · rw [abs_le]; constructor <;> linarith
  · split
    · push_cast
      rw [abs_le]; constructor <;> linarith
    · rename_i c1 c2
      have : q - ⌊q⌋ = 1 / 2 := le_antisymm (not_lt.1 c2) (not_lt.1 c1)
      split
      · rw [abs_le]; constructor <;> linarith
      · push_cast
        rw [abs_le]; constructor <;> linarith

theorem zpow_expo_le_of_normal {x : ℚ} (h : (2 : ℚ) ^ (-1022 : ℤ) ≤ x) :
    (2 : ℚ) ^ expo x ≤ x := by
  have hx : 0 < x := lt_of_lt_of_le (two_zpow_pos _) h
  have hlow : -1022 ≤ expo x := le_max_right _ _
  rcases eq_or_lt_of_le hlow with heq | hlt
  · rw [← heq]; exact h
  · exact zpow_expo_le hx hlt

/-- The relative error of rounding a number of the normal range. -/
theorem fl_error {x : ℚ} (h : (2 : ℚ) ^ (-1022 : ℤ) ≤ x) : |fl x - x| ≤ x / 2 ^ 53 := by
  have hu := ulp_pos x
  have he := zpow_expo_le_of_normal h
  have h1 : fl x - x = ((rne (x / ulp x) : ℚ) - x / ulp x) * ulp x := by
    unfold fl
    rw [sub_mul, div_mul_cancel₀ _ (ne_of_gt hu)]
  have h2 : ulp x = 2 ^ expo x / 2 ^ 52 := by
    unfold ulp
    rw [zpow_sub₀ (by norm_num : (2 : ℚ) ≠ 0)]
    norm_num
  rw [h1, abs_mul, abs_of_pos hu]
  have h3 := rne_sub_abs (x / ulp x)
  calc |(rne (x / ulp x) : ℚ) - x / ulp x| * ulp x ≤ 1 / 2 * ulp x :=
        mul_le_mul_of_nonneg_right h3 (le_of_lt hu)
    _ = 2 ^ expo x / 2 ^ 53 := by rw [h2]; ring
    _ ≤ x / 2 ^ 53 := div_le_div_of_nonneg_right he (by norm_num)

theorem fl_two_pi : fl (Math.PI * 2) = Math.PI * 2 := by
  have := fl_dyadic 884279719003555 (-47) (by norm_num) (by norm_num)
  norm_num [Math.PI] at this ⊢
  exact this

/-- The angle of a sparkle is `i * 2 * Math.PI / count` up to a relative error of `2 ^ (-51)`. -/
theorem sparkleAngle_error (count i : ℕ) (hi : i < count) (hc : count < 2 ^ 53) :
    |sparkleAngle count i - (i : ℚ) * 2 * Math.PI / count|
      ≤ (i : ℚ) * 2 * Math.PI / count / 2 ^ 51 := by
  unfold sparkleAngle
  rw [fl_two_pi]
  rcases Nat.eq_zero_or_pos i with rfl | hpos
  · simp [fl_zero]
  · have hc0 : (0 : ℚ) < count := by exact_mod_cast lt_trans hpos hi
    have hcb : (count : ℚ) < 2 ^ 53 := by exact_mod_cast hc
    have hi1 : (1 : ℚ) ≤ i := by exact_mod_cast hpos
    have hpi : (3 : ℚ) ≤ Math.PI := by norm_num [Math.PI]
    have hx2 : (6 : ℚ) ≤ Math.PI * 2 * i := by nlinarith
    have hsmall : (2 : ℚ) ^ (-1022 : ℤ) ≤ 1 / 2 ^ 53 := by
      rw [show (1 : ℚ) / 2 ^ 53 = 2 ^ (-53 : ℤ) by norm_num]
      exact zpow_le_zpow_right₀ (by norm_num) (by norm_num)
    have e2 := @fl_error (Math.PI * 2 * i) (le_trans hsmall (by
      have : (1 : ℚ) / 2 ^ 53 ≤ 6 := by norm_num
      linarith))
    rw [abs_le] at e2
    have ha2lo : 5 ≤ fl (Math.PI * 2 * i) := by
      have : Math.PI * 2 * i / 2 ^ 53 ≤ Math.PI * 2 * i / 6 := by
        apply div_le_div_of_nonneg_left (by linarith) (by norm_num) (by norm_num)
      linarith [e2.1]
    have hx3 : (1 : ℚ) / 2 ^ 53 ≤ fl (Math.PI * 2 * i) / count := by
      rw [div_le_div_iff₀ (by norm_num) hc0]
      linarith
    have e3 := fl_error (le_trans hsmall hx3)
    have hsplit := abs_sub_le (fl (fl (Math.PI * 2 * i) / count)) (fl (Math.PI * 2 * i) / count)
      ((i : ℚ) * 2 * Math.PI / count)
    have hmid : |fl (Math.PI * 2 * i) / count - (i : ℚ) * 2 * Math.PI / count|
        ≤ Math.PI * 2 * i / 2 ^ 53 / count := by
      rw [← sub_div, abs_div, abs_of_pos hc0]
      apply div_le_div_of_nonneg_right _ (le_of_lt hc0)
      rw [abs_le]
      constructor <;> linarith [e2.1, e2.2]
    have hup : fl (Math.PI * 2 * i) / count / 2 ^ 53
        ≤ (Math.PI * 2 * i + Math.PI * 2 * i / 2 ^ 53) / count / 2 ^ 53 := by
      apply div_le_div_of_nonneg_right _ (by norm_num)
      apply div_le_div_of_nonneg_right _ (le_of_lt hc0)
      linarith [e2.2]
    have hE : (0 : ℚ) ≤ Math.PI * 2 * i / count := div_nonneg (by linarith) (le_of_lt hc0)
    have hfin : (Math.PI * 2 * i + Math.PI * 2 * i / 2 ^ 53) / count / 2 ^ 53
        + Math.PI * 2 * i / 2 ^ 53 / count ≤ (i : ℚ) * 2 * Math.PI / count / 2 ^ 51 := by
      have e : (Math.PI * 2 * i + Math.PI * 2 * i / 2 ^ 53) / count / 2 ^ 53
          + Math.PI * 2 * i / 2 ^ 53 / count
          = Math.PI * 2 * i / count * ((1 + 1 / 2 ^ 53) / 2 ^ 53 + 1 / 2 ^ 53) := by
        field_simp
        ring
      have e' : (i : ℚ) * 2 * Math.PI / count / 2 ^ 51
          = Math.PI * 2 * i / count * (1 / 2 ^ 51) := by
        field_simp
        ring
      rw [e, e']
      exact mul_le_mul_of_nonneg_left (by norm_num) hE
    linarith

/-! ## Closed forms of the two generators -/

theorem confettiOf_succ (env : Env) (id0 r0 n : Nat) :
    confettiOf env id0 r0 (n + 1)
      = confettiOf env id0 r0 n ++ [newConfetti env (id0 + n) (r0 + 5 * n)] := by
  simp [confettiOf, List.range_succ]

theorem sparklesOf_succ (env : Env) (cx cy : ℚ) (count id0 r0 n : Nat) :
    sparklesOf env cx cy count id0 r0 (n + 1)
      = sparklesOf env cx cy count id0 r0 n
        ++ [newSparkle env cx cy count n (id0 + n) (r0 + 3 * n)] := by
  simp [sparklesOf, List.range_succ]

theorem confetti_loop (env : Env) (n : Nat) (s : Scene) :
    (List.range n).foldl (fun acc _ => confettiStep env acc) s
      = { s with
          confettiContainer := s.confettiContainer.map
            (fun children => children ++ confettiOf env s.nextId s.randomCalls n)
          timers := s.timers ++ (confettiOf env s.nextId s.randomCalls n).map
            (removalTimer s.now Action.removeConfetti)
          nextId := s.nextId + n
          randomCalls := s.randomCalls + 5 * n } := by
  induction n with
  | zero => cases s; simp [confettiOf]
  | succ n ih =>
    rw [List.range_succ, List.foldl_append, ih]
    cases s
    simp [confettiStep, setTimeout, confettiOf_succ, removalTimer, removalArgument, newConfetti,
      Nat.add_assoc, Nat.mul_add, Option.map_map, Function.comp_def]

theorem sparkle_loop (env : Env) (cx cy : ℚ) (count n : Nat) (s : Scene) :
    (List.range n).foldl (fun acc i => sparkleStep env cx cy count i acc) s
      = { s with
          sparkleContainer := s.sparkleContainer.map
            (fun children => children ++ sparklesOf env cx cy count s.nextId s.randomCalls n)
          timers := s.timers ++ (sparklesOf env cx cy count s.nextId s.randomCalls n).map
            (removalTimer s.now Action.removeSparkle)
          nextId := s.nextId + n
          randomCalls := s.randomCalls + 3 * n } := by
  induction n with
  | zero => cases s; simp [sparklesOf]
  | succ n ih =>
    rw [List.range_succ, List.foldl_append, ih]
    cases s
    simp [sparkleStep, setTimeout, sparklesOf_succ, removalTimer, removalArgument, newSparkle,
      Nat.add_assoc, Nat.mul_add, Option.map_map, Function.comp_def]

theorem createConfetti_none (env : Env) (count : Nat) (s : Scene)
    (h : s.confettiContainer = none) : createConfetti env count s = Outcome.throw s := by
  simp [createConfetti, h]

theorem createConfetti_some (env : Env) (count : Nat) (s : Scene) (c : List Particle)
    (h : s.confettiContainer = some c) :
    createConfetti env count s = Outcome.ok { s with
      confettiContainer := some (confettiOf env s.nextId s.randomCalls count)
      timers := s.timers ++ (confettiOf env s.nextId s.randomCalls count).map
        (removalTimer s.now Action.removeConfetti)
      nextId := s.nextId + count
      randomCalls := s.randomCalls + 5 * count } := by
  simp [createConfetti, h, confetti_loop]

theorem createSparkles_none (env : Env) (count : Nat) (s : Scene)
    (h : s.sparkleContainer = none) : createSparkles env count s = Outcome.throw s := by
  simp [createSparkles, h]

theorem createSparkles_noCake (env : Env) (count : Nat) (s : Scene) (c : List Particle)
    (h : s.sparkleContainer = some c) (hk : s.cakeOriginal = none) :
    createSparkles env count s = Outcome.throw { s with sparkleContainer := some [] } := by
  simp [createSparkles, h, hk]

theorem createSparkles_some (env : Env) (count : Nat) (s : Scene) (c : List Particle)
    (cake : Element) (h : s.sparkleContainer = some c) (hk : s.cakeOriginal = some cake) :
    createSparkles env count s = Outcome.ok { s with
      sparkleContainer := some (sparklesOf env (centerX env cake) (centerY env cake) count
        s.nextId s.randomCalls count)
      timers := s.timers ++ (sparklesOf env (centerX env cake) (centerY env cake) count
        s.nextId s.randomCalls count).map (removalTimer s.now Action.removeSparkle)
      nextId := s.nextId + count
      randomCalls := s.randomCalls + 3 * count } := by
  simp [createSparkles, h, hk, sparkle_loop, centerX, centerY]

theorem mem_confettiOf {env : Env} {id0 r0 n : Nat} {p : Particle} :
    p ∈ confettiOf env id0 r0 n ↔ ∃ i, i < n ∧ newConfetti env (id0 + i) (r0 + 5 * i) = p := by
  simp [confettiOf]

theorem mem_sparklesOf {env : Env} {cx cy : ℚ} {count id0 r0 n : Nat} {p : Particle} :
    p ∈ sparklesOf env cx cy count id0 r0 n
      ↔ ∃ i, i < n ∧ newSparkle env cx cy count i (id0 + i) (r0 + 3 * i) = p := by
  simp [sparklesOf]

theorem length_confettiOf (env : Env) (id0 r0 n : Nat) :
    (confettiOf env id0 r0 n).length = n := by
  simp [confettiOf]

theorem length_sparklesOf (env : Env) (cx cy : ℚ) (count id0 r0 n : Nat) :
    (sparklesOf env cx cy count id0 r0 n).length = n := by
  simp [sparklesOf]

theorem newConfetti_id (env : Env) (id r : Nat) : (newConfetti env id r).id = id := rfl

theorem newSparkle_id (env : Env) (cx cy : ℚ) (count i id r : Nat) :
    (newSparkle env cx cy count i id r).id = id := rfl

theorem confettiOf_id_range {env : Env} {id0 r0 n : Nat} {p : Particle}
    (h : p ∈ confettiOf env id0 r0 n) : id0 ≤ p.id ∧ p.id < id0 + n := by
  obtain ⟨i, hi, rfl⟩ := mem_confettiOf.1 h
  simp [newConfetti_id, hi]

theorem sparklesOf_id_range {env : Env} {cx cy : ℚ} {count id0 r0 n : Nat} {p : Particle}
    (h : p ∈ sparklesOf env cx cy count id0 r0 n) : id0 ≤ p.id ∧ p.id < id0 + n := by
  obtain ⟨i, hi, rfl⟩ := mem_sparklesOf.1 h
  simp [newSparkle_id, hi]

theorem confettiOf_ids (env : Env) (id0 r0 n : Nat) :
    (confettiOf env id0 r0 n).map (fun p => p.id) = (List.range n).map (fun i => id0 + i) := by
  simp [confettiOf, Function.comp_def, newConfetti_id]

theorem sparklesOf_ids (env : Env) (cx cy : ℚ) (count id0 r0 n : Nat) :
    (sparklesOf env cx cy count id0 r0 n).map (fun p => p.id)
      = (List.range n).map (fun i => id0 + i) := by
  simp [sparklesOf, Function.comp_def, newSparkle_id]

theorem nodup_range_shift (id0 n : Nat) : ((List.range n).map (fun i => id0 + i)).Nodup := by
  refine (List.nodup_range n).map ?_
  intro a b h
  simpa using h

theorem fl_natCast (n : ℕ) (h : n < 2 ^ 53) : fl (n : ℚ) = n := by
  have := fl_dyadic n 0 h (by norm_num)
  simpa using this

theorem fl_half (n : ℕ) (h : n < 2 ^ 53) : fl ((n : ℚ) / 2) = (n : ℚ) / 2 := by
  have := fl_dyadic n (-1) h (by norm_num)
  have e : (n : ℚ) * 2 ^ (-1 : ℤ) = (n : ℚ) / 2 := by
    rw [zpow_neg_one, div_eq_mul_inv]
  rwa [e] at this

/-- Rounding does not cross a double from below. -/
theorem fl_le_of_le {x d : ℚ} (hx : 0 ≤ x) (h : x ≤ d) (hd : fl d = d) : fl x ≤ d := by
  have := fl_mono hx h
  rwa [hd] at this

/-- Rounding does not cross a double from above. -/
theorem le_fl_of_le {x d : ℚ} (hd0 : 0 ≤ d) (h : d ≤ x) (hd : fl d = d) : d ≤ fl x := by
  have := fl_mono hd0 h
  rwa [hd] at this

theorem fl_two : fl 2 = 2 := by
  have := fl_natCast 2 (by norm_num)
  simpa using this

theorem fl_one : fl 1 = 1 := by
  have := fl_natCast 1 (by norm_num)
  simpa using this

theorem fl_eighty : fl 80 = 80 := by
  have := fl_natCast 80 (by norm_num)
  simpa using this

theorem fl_hundred : fl 100 = 100 := by
  have := fl_natCast 100 (by norm_num)
  simpa using this

theorem fl_hundred_eighty : fl 180 = 180 := by
  have := fl_natCast 180 (by norm_num)
  simpa using this

theorem fl_one_half : fl (1 / 2) = 1 / 2 := by
  have := fl_half 1 (by norm_num)
  simpa using this

theorem fl_three_halves : fl (3 / 2) = 3 / 2 := by
  have := fl_half 3 (by norm_num)
  simpa using this

theorem fl_seven_halves : fl (7 / 2) = 7 / 2 := by
  have := fl_half 7 (by norm_num)
  simpa using this

/-- The literal `0.3` denotes a double in `[0,1]`. -/
theorem literal_three_tenths : 0 ≤ fl (3 / 10) ∧ fl (3 / 10) ≤ 1 :=
  ⟨fl_nonneg (by norm_num), fl_le_of_le (by norm_num) (by norm_num) fl_one⟩

/-- The literal `0.7` denotes a double in `[0,1]`. -/
theorem literal_seven_tenths : 0 ≤ fl (7 / 10) ∧ fl (7 / 10) ≤ 1 :=
  ⟨fl_nonneg (by norm_num), fl_le_of_le (by norm_num) (by norm_num) fl_one⟩

/-- Bounds of one confetti particle under draws in `[0,1)`. -/
theorem newConfetti_bounds (env : Env) (id r : Nat)
    (hr : ∀ k, 0 ≤ env.random k ∧ env.random k < 1) :
    (0 ≤ (newConfetti env id r).left ∧ (newConfetti env id r).left ≤ 100)
    ∧ (0 ≤ (newConfetti env id r).animationDelay
        ∧ (newConfetti env id r).animationDelay ≤ 1 / 2)
    ∧ (2 ≤ (newConfetti env id r).animationDuration
        ∧ (newConfetti env id r).animationDuration ≤ 7 / 2) := by
  have h1 := hr (r + 1)
  have h2 := hr (r + 2)
  have h3 := hr (r + 3)
  have ha0 : 0 ≤ fl (env.random (r + 3) * (3 / 2)) := fl_nonneg (by linarith [h3.1])
  have ha1 : fl (env.random (r + 3) * (3 / 2)) ≤ 3 / 2 :=
    fl_le_of_le (by linarith [h3.1]) (by linarith [h3.2]) fl_three_halves
  simp only [newConfetti]
  refine ⟨⟨?_, ?_⟩, ⟨?_, ?_⟩, ⟨?_, ?_⟩⟩
  · exact fl_nonneg (by linarith [h1.1])
  · exact fl_le_of_le (by linarith [h1.1]) (by linarith [h1.2]) fl_hundred
  · exact fl_nonneg (by linarith [h2.1])
  · exact fl_le_of_le (by linarith [h2.1]) (by linarith [h2.2]) fl_one_half
  · exact le_fl_of_le (by norm_num) (by linarith) fl_two
  · exact fl_le_of_le (by linarith) (by linarith) fl_seven_halves

/-- For draws that are doubles, `left` and the delay of a confetti particle stay below their
upper bounds. -/
theorem newConfetti_strict (env : Env) (id r : Nat)
    (hr : ∀ k, 0 ≤ env.random k ∧ env.random k < 1)
    (hd : ∀ k, fl (env.random k) = env.random k) :
    (newConfetti env id r).left < 100 ∧ (newConfetti env id r).animationDelay < 1 / 2 := by
  have h1 := hr (r + 1)
  have h2 := hr (r + 2)
  have m1 := double_lt_one (hd (r + 1)) h1.2
  have m2 := double_lt_one (hd (r + 2)) h2.2
  have e1 : fl ((1 - 1 / 2 ^ 53) * 100) = 7036874417766399 / 2 ^ 46 := by
    rw [fl_eval (by norm_num) 6 (by norm_num) (by norm_num) (by norm_num)]
    rw [rne_eval _ 7036874417766399 (by norm_num) (by norm_num)]
    norm_num
  have e2 : fl ((1 - 1 / 2 ^ 53) * (1 / 2)) = (1 - 1 / 2 ^ 53) * (1 / 2) := by
    have := fl_dyadic (2 ^ 53 - 1) (-54) (by norm_num) (by norm_num)
    norm_num at this ⊢
    exact this
  simp only [newConfetti]
  constructor
  · have := fl_mono (show 0 ≤ env.random (r + 1) * 100 by linarith [h1.1])
      (show env.random (r + 1) * 100 ≤ (1 - 1 / 2 ^ 53) * 100 by linarith)
    rw [e1] at this
    exact lt_of_le_of_lt this (by norm_num)
  · have := fl_mono (show 0 ≤ env.random (r + 2) * (1 / 2) by linarith [h2.1])
      (show env.random (r + 2) * (1 / 2) ≤ (1 - 1 / 2 ^ 53) * (1 / 2) by linarith)
    rw [e2] at this
    exact lt_of_le_of_lt this (by norm_num)

/-- Bounds of one sparkle under draws in `[0,1)`. -/
theorem newSparkle_bounds (env : Env) (cx cy : ℚ) (count i id r : Nat)
    (hr : ∀ k, 0 ≤ env.random k ∧ env.random k < 1) :
    (0 ≤ (newSparkle env cx cy count i id r).animationDelay
      ∧ (newSparkle env cx cy count i id r).animationDelay ≤ 1)
    ∧ (1 ≤ (newSparkle env cx cy count i id r).animationDuration
      ∧ (newSparkle env cx cy count i id r).animationDuration ≤ 2) := by
  have h1 := hr (r + 1)
  have h2 := hr (r + 2)
  obtain ⟨a0, a1⟩ := literal_three_tenths
  obtain ⟨b0, b1⟩ := literal_seven_tenths
  have hb0 : 0 ≤ env.random (r + 2) * fl (7 / 10) := mul_nonneg h2.1 b0
  have hb1 : env.random (r + 2) * fl (7 / 10) ≤ 1 := by nlinarith [h2.1, h2.2]
  have hc0 : 0 ≤ fl (env.random (r + 2) * fl (7 / 10)) := fl_nonneg hb0
  have hc1 : fl (env.random (r + 2) * fl (7 / 10)) ≤ 1 := fl_le_of_le hb0 hb1 fl_one
  simp only [newSparkle]
  refine ⟨⟨?_, ?_⟩, ⟨?_, ?_⟩⟩
  · exact fl_nonneg (mul_nonneg h1.1 a0)
  · exact fl_le_of_le (mul_nonneg h1.1 a0) (by nlinarith [h1.1, h1.2]) fl_one
  · exact le_fl_of_le (by norm_num) (by linarith) fl_one
  · exact fl_le_of_le (by linarith) (by linarith) fl_two

/-- The radius of a sparkle under a draw in `[0,1)`. -/
theorem radius_bounds {r : ℚ} (h0 : 0 ≤ r) (h1 : r < 1) :
    80 ≤ fl (80 + fl (r * 100)) ∧ fl (80 + fl (r * 100)) ≤ 180 := by
  have ha0 : 0 ≤ fl (r * 100) := fl_nonneg (by linarith)
  have ha1 : fl (r * 100) ≤ 100 := fl_le_of_le (by linarith) (by linarith) fl_hundred
  exact ⟨le_fl_of_le (by norm_num) (by linarith) fl_eighty,
    fl_le_of_le (by linarith) (by linarith) fl_hundred_eighty⟩

theorem timerDelay_bounds {x : ℚ} (lo hi : ℕ) (hhi : hi < 2 ^ 31) (h0 : (lo : ℚ) ≤ x)
    (h1 : x ≤ hi) :
    timerDelay x = (⌊x⌋ : ℚ) ∧ (lo : ℚ) ≤ timerDelay x ∧ timerDelay x ≤ hi ∧
      timerDelay x ≤ x ∧ x - 1 < timerDelay x := by
  have hx0 : 0 ≤ x := le_trans (by positivity) h0
  have hx1 : x < 2 ^ 31 := lt_of_le_of_lt h1 (by exact_mod_cast hhi)
  have e := timerDelay_of_range hx0 hx1
  rw [e]
  refine ⟨rfl, ?_, ?_, Int.floor_le x, Int.sub_one_lt_floor x⟩
  · have : (lo : ℤ) ≤ ⌊x⌋ := Int.le_floor.2 (by exact_mod_cast h0)
    exact_mod_cast this
  · exact le_trans (Int.floor_le x) h1

/-- The `timeout` argument of the removal of a particle whose duration and delay are bounded. -/
theorem removalArgument_bounds (p : Particle) (lo hi : ℕ) (hhi : hi < 2 ^ 40)
    (h0 : (lo : ℚ) ≤ p.animationDuration + p.animationDelay)
    (h1 : p.animationDuration + p.animationDelay ≤ hi) :
    ((lo * 1000 : ℕ) : ℚ) ≤ removalArgument p ∧ removalArgument p ≤ ((hi * 1000 : ℕ) : ℚ) := by
  have hlo : fl (lo : ℚ) = lo := fl_natCast lo (by
    have : (lo : ℚ) ≤ hi := le_trans h0 h1
    have : lo ≤ hi := by exact_mod_cast this
    have : (2 : ℕ) ^ 40 < 2 ^ 53 := by norm_num
    omega)
  have hhi2 : fl (hi : ℚ) = hi := fl_natCast hi (by
    have : (2 : ℕ) ^ 40 < 2 ^ 53 := by norm_num
    omega)
  have hlo3 : fl (((lo * 1000 : ℕ) : ℚ)) = ((lo * 1000 : ℕ) : ℚ) := fl_natCast _ (by
    have : (lo : ℚ) ≤ hi := le_trans h0 h1
    have : lo ≤ hi := by exact_mod_cast this
    have : (2 : ℕ) ^ 40 * 1000 < 2 ^ 53 := by norm_num
    omega)
  have hhi3 : fl (((hi * 1000 : ℕ) : ℚ)) = ((hi * 1000 : ℕ) : ℚ) := fl_natCast _ (by
    have : (2 : ℕ) ^ 40 * 1000 < 2 ^ 53 := by norm_num
    omega)
  have hl0 : (0 : ℚ) ≤ lo := by positivity
  have a0 : (lo : ℚ) ≤ fl (p.animationDuration + p.animationDelay) := le_fl_of_le hl0 h0 hlo
  have a1 : fl (p.animationDuration + p.animationDelay) ≤ hi :=
    fl_le_of_le (le_trans hl0 h0) h1 hhi2
  unfold removalArgument
  constructor
  · refine le_fl_of_le (Nat.cast_nonneg _) ?_ hlo3
    push_cast
    linarith
  · refine fl_le_of_le (by linarith) ?_ hhi3
    push_cast
    linarith

/-- The removal timer of a confetti particle is due between two and four seconds after its
creation, a whole number of milliseconds obtained by truncating the `timeout` argument. -/
theorem confetti_timer (env : Env) (id r : Nat)
    (hr : ∀ k, 0 ≤ env.random k ∧ env.random k < 1) :
    timerDelay (removalArgument (newConfetti env id r))
        = (⌊removalArgument (newConfetti env id r)⌋ : ℚ) ∧
    2000 ≤ timerDelay (removalArgument (newConfetti env id r)) ∧
    timerDelay (removalArgument (newConfetti env id r)) ≤ 4000 ∧
    timerDelay (removalArgument (newConfetti env id r))
      ≤ removalArgument (newConfetti env id r) ∧
    removalArgument (newConfetti env id r) - 1
      < timerDelay (removalArgument (newConfetti env id r)) := by
  have hb := newConfetti_bounds env id r hr
  have ha := removalArgument_bounds (newConfetti env id r) 2 4 (by norm_num)
    (by push_cast; linarith [hb.2.1.1, hb.2.2.1]) (by push_cast; linarith [hb.2.1.2, hb.2.2.2])
  have := timerDelay_bounds (2 * 1000) (4 * 1000) (by norm_num) ha.1 ha.2
  norm_num at this ⊢
  exact this

/-- The removal timer of a sparkle is due between one and three seconds after its creation, a
whole number of milliseconds obtained by truncating the `timeout` argument. -/
theorem sparkle_timer (env : Env) (cx cy : ℚ) (count i id r : Nat)
    (hr : ∀ k, 0 ≤ env.random k ∧ env.random k < 1) :
    timerDelay (removalArgument (newSparkle env cx cy count i id r))
        = (⌊removalArgument (newSparkle env cx cy count i id r)⌋ : ℚ) ∧
    1000 ≤ timerDelay (removalArgument (newSparkle env cx cy count i id r)) ∧
    timerDelay (removalArgument (newSparkle env cx cy count i id r)) ≤ 3000 ∧
    timerDelay (removalArgument (newSparkle env cx cy count i id r))
      ≤ removalArgument (newSparkle env cx cy count i id r) ∧
    removalArgument (newSparkle env cx cy count i id r) - 1
      < timerDelay (removalArgument (newSparkle env cx cy count i id r)) := by
  have hb := newSparkle_bounds env cx cy count i id r hr
  have ha := removalArgument_bounds (newSparkle env cx cy count i id r) 1 3 (by norm_num)
    (by push_cast; linarith [hb.1.1, hb.2.1]) (by push_cast; linarith [hb.1.2, hb.2.2])
  have := timerDelay_bounds (1 * 1000) (3 * 1000) (by norm_num) ha.1 ha.2
  norm_num at this ⊢
  exact this

/-! ## The event loop: basic facts -/

theorem popEarliest_eq_none {l : List Timer} : popEarliest l = none ↔ l = [] := by
  cases l with
  | nil => simp [popEarliest]
  | cons x xs =>
    simp only [popEarliest]
    split
    · simp
    · split <;> simp

theorem popEarliest_some {l : List Timer} {tm : Timer} {rest : List Timer}
    (h : popEarliest l = some (tm, rest)) :
    List.Perm l (tm :: rest) ∧ ∀ x ∈ l, tm.due ≤ x.due := by
  induction l generalizing tm rest with
  | nil => simp [popEarliest] at h
  | cons x xs ih =>
    simp only [popEarliest] at h
    split at h
    · rename_i hn
      rw [popEarliest_eq_none] at hn
      simp only [Option.some.injEq, Prod.mk.injEq] at h
      obtain ⟨rfl, rfl⟩ := h
      subst hn
      simp
    · rename_i y r hy
      obtain ⟨hperm, hmin⟩ := ih hy
      split at h
      · rename_i hlt
        simp only [Option.some.injEq, Prod.mk.injEq] at h
        obtain ⟨rfl, rfl⟩ := h
        refine ⟨?_, ?_⟩
        · exact (List.Perm.cons x hperm).trans (List.Perm.swap _ _ _)
        · intro z hz
          rcases List.mem_cons.1 hz with rfl | hz
          · exact le_of_lt hlt
          · exact hmin z hz
      · rename_i hge
        simp only [Option.some.injEq, Prod.mk.injEq] at h
        obtain ⟨rfl, rfl⟩ := h
        refine ⟨List.Perm.refl _, ?_⟩
        intro z hz
        rcases List.mem_cons.1 hz with rfl | hz
        · exact le_refl _
        · exact le_trans (not_lt.1 hge) (hmin z hz)

theorem popEarliest_mem {l : List Timer} {tm : Timer} {rest : List Timer}
    (h : popEarliest l = some (tm, rest)) : tm ∈ l :=
  (popEarliest_some h).1.symm.subset (List.mem_cons_self _ _)

theorem popEarliest_rest_subset {l : List Timer} {tm : Timer} {rest : List Timer}
    (h : popEarliest l = some (tm, rest)) : ∀ x ∈ rest, x ∈ l := fun _ hx =>
  (popEarliest_some h).1.symm.subset (List.mem_cons_of_mem _ hx)

theorem popEarliest_mem_cases {l : List Timer} {tm : Timer} {rest : List Timer}
    (h : popEarliest l = some (tm, rest)) {x : Timer} (hx : x ∈ l) : x = tm ∨ x ∈ rest :=
  List.mem_cons.1 ((popEarliest_some h).1.subset hx)

theorem timersWeight_append (l₁ l₂ : List Timer) :
    timersWeight (l₁ ++ l₂) = timersWeight l₁ + timersWeight l₂ := by
  simp [timersWeight]

theorem timersWeight_pop {l : List Timer} {tm : Timer} {rest : List Timer}
    (h : popEarliest l = some (tm, rest)) :
    timersWeight l = tm.action.weight + timersWeight rest := by
  have hp := (popEarliest_some h).1
  have := (hp.map (fun tm => tm.action.weight)).sum_eq
  simpa [timersWeight] using this

theorem timersWeight_removals (now : ℚ) (cb : Nat → Action) (hcb : ∀ i, (cb i).weight = 1)
    (ps : List Particle) : timersWeight (ps.map (removalTimer now cb)) = ps.length := by
  induction ps with
  | nil => simp [timersWeight]
  | cons p ps ih =>
    simp only [timersWeight, List.map_cons, List.sum_cons, List.length_cons] at ih ⊢
    rw [ih]
    simp [removalTimer, hcb]
    omega

theorem fire_timers (env : Env) (a : Action) (s : Scene) :
    (fire env a s).scene.timers = s.timers ++ spawned env a s := by
  cases a with
  | confettiBatch =>
    cases h : s.confettiContainer with
    | none => simp [fire, spawned, h, createConfetti_none, Outcome.throw]
    | some c => simp [fire, spawned, h, createConfetti_some env 60 s c h, Outcome.ok]
  | sparkleBatch =>
    cases h : s.sparkleContainer with
    | none => simp [fire, spawned, h, createSparkles_none, Outcome.throw]
    | some c =>
      cases hk : s.cakeOriginal with
      | none => simp [fire, spawned, h, hk, createSparkles_noCake env 40 s c h hk, Outcome.throw]
      | some cake =>
        simp [fire, spawned, h, hk, createSparkles_some env 40 s c cake h hk, Outcome.ok]
  | removeConfetti el =>
    simp only [fire, removeConfettiCallback, spawned]
    split
    · simp [Outcome.ok]
    · split <;> simp [Outcome.ok]
  | removeSparkle el =>
    simp only [fire, removeSparkleCallback, spawned]
    split
    · simp [Outcome.ok]
    · split <;> simp [Outcome.ok]
  | cakeSplit =>
    simp only [fire, cakeSplitCallback, spawned]
    repeat (first | simp [Outcome.ok, Outcome.throw] | split)
  | _ =>
    simp only [fire, spawned]
    split <;> simp [Outcome.ok, Outcome.throw]

theorem spawned_weight (env : Env) (a : Action) (s : Scene) :
    timersWeight (spawned env a s) < a.weight := by
  cases a with
  | confettiBatch =>
    simp only [spawned]
    split
    · simp [timersWeight, Action.weight]
    · rw [timersWeight_removals _ Action.removeConfetti (fun _ => rfl), length_confettiOf]
      simp [Action.weight]
  | sparkleBatch =>
    simp only [spawned]
    split
    · rw [timersWeight_removals _ Action.removeSparkle (fun _ => rfl), length_sparklesOf]
      simp [Action.weight]
    · simp [timersWeight, Action.weight]
  | _ => simp [spawned, timersWeight, Action.weight]

theorem turn_timers (env : Env) (tm : Timer) (rest : List Timer) (s : Scene) :
    (turn env tm rest s).timers
      = rest ++ spawned env tm.action { s with timers := rest, now := max s.now tm.due } := by
  simp only [turn]
  split <;> simp [fire_timers]

theorem weight_pos (a : Action) : 0 < a.weight := by
  cases a <;> simp [Action.weight]

theorem timersWeight_eq_zero {l : List Timer} (h : timersWeight l = 0) : l = [] := by
  cases l with
  | nil => rfl
  | cons x xs =>
    have := weight_pos x.action
    simp [timersWeight] at h
    omega

/-- With fuel at least the weight of the pending timers, the loop stops only when no pending
timer is due. -/
theorem advanceFuel_noDue (env : Env) (t : ℚ) :
    ∀ (fuel : Nat) (s : Scene), timersWeight s.timers ≤ fuel →
      ∀ x ∈ (advanceFuel env t fuel s).timers, t < x.due := by
  intro fuel
  induction fuel with
  | zero =>
    intro s hs x hx
    have : s.timers = [] := timersWeight_eq_zero (Nat.le_zero.1 hs)
    simp [advanceFuel, this] at hx
  | succ fuel ih =>
    intro s hs x hx
    simp only [advanceFuel] at hx
    split at hx
    · rename_i hn
      rw [popEarliest_eq_none] at hn
      simp [hn] at hx
    · rename_i tm rest hp
      split at hx
      · refine ih (turn env tm rest s) ?_ x hx
        rw [turn_timers, timersWeight_append]
        have h1 := timersWeight_pop hp
        have h2 := spawned_weight env tm.action { s with timers := rest, now := max s.now tm.due }
        omega
      · rename_i hgt
        exact lt_of_lt_of_le (not_le.1 hgt) ((popEarliest_some hp).2 x hx)

theorem advance_noDue (env : Env) (t : ℚ) (s : Scene) :
    ∀ x ∈ (advance env t s).timers, t < x.due := by
  intro x hx
  exact advanceFuel_noDue env t _ s (le_refl _) x hx

/-- Invariants of the turns of due timers hold at every time. -/
theorem advanceFuel_invariant (env : Env) (t : ℚ) (P : Scene → Prop)
    (hturn : ∀ (s : Scene) (tm : Timer) (rest : List Timer), P s →
      popEarliest s.timers = some (tm, rest) → tm.due ≤ t → P (turn env tm rest s)) :
    ∀ (fuel : Nat) (s : Scene), P s → P (advanceFuel env t fuel s) := by
  intro fuel
  induction fuel with
  | zero => intro s hs; simpa [advanceFuel] using hs
  | succ fuel ih =>
    intro s hs
    simp only [advanceFuel]
    split
    · exact hs
    · rename_i tm rest hp
      split
      · rename_i hle
        exact ih _ (hturn s tm rest hs hp hle)
      · exact hs

/-! ## Effect of a callback on the flags -/

theorem contains_classAdd (c d : String) (l : List String) :
    (classAdd c l).contains d = (l.contains d || decide (d = c)) := by
  unfold classAdd
  split
  · rename_i h
    by_cases hd : d = c
    · subst hd; simp [h]
    · simp [hd]
  · simp

theorem contains_classRemove (c d : String) (l : List String) :
    (classRemove c l).contains d = (l.contains d && !decide (d = c)) := by
  unfold classRemove
  by_cases hd : d = c
  · subst hd; simp
  · by_cases hl : d ∈ l <;> simp [hd, hl, List.mem_filter]

theorem hasClass_add (c d : String) (e : Element) :
    hasClass d (some (e.add c)) = (hasClass d (some e) || decide (d = c)) := by
  simp only [hasClass, Element.add, contains_classAdd]

theorem hasClass_remove (c d : String) (e : Element) :
    hasClass d (some (e.remove c)) = (hasClass d (some e) && !decide (d = c)) := by
  simp only [hasClass, Element.remove, contains_classRemove]

theorem fire_cutButton (env : Env) (a : Action) (s : Scene) :
    (fire env a s).scene.cutButton = s.cutButton := by
  cases a <;>
    simp only [fire, cakeSplitCallback, removeConfettiCallback, removeSparkleCallback,
      createConfetti, createSparkles, confetti_loop, sparkle_loop] <;>
    repeat (first | rfl | split)

theorem fire_knife (env : Env) (a : Action) (s : Scene) :
    (fire env a s).scene.knife =
      match a with
      | Action.knifeShow => s.knife.map (fun k => k.add "visible")
      | Action.knifeMove => s.knife.map (fun k => k.add "moving")
      | _ => s.knife := by
  cases a <;>
    simp only [fire, cakeSplitCallback, removeConfettiCallback, removeSparkleCallback,
      createConfetti, createSparkles, confetti_loop, sparkle_loop] <;>
    repeat (first | rfl | split | simp_all [Outcome.ok, Outcome.throw])

theorem fire_cuttingLine (env : Env) (a : Action) (s : Scene) :
    (fire env a s).scene.cuttingLine =
      match a with
      | Action.sliceLine => s.cuttingLine.map (fun k => k.add "visible")
      | _ => s.cuttingLine := by
  cases a <;>
    simp only [fire, cakeSplitCallback, removeConfettiCallback, removeSparkleCallback,
      createConfetti, createSparkles, confetti_loop, sparkle_loop] <;>
    repeat (first | rfl | split | simp_all [Outcome.ok, Outcome.throw])

theorem fire_birthdayMessage (env : Env) (a : Action) (s : Scene) :
    (fire env a s).scene.birthdayMessage =
      match a with
      | Action.message => s.birthdayMessage.map (fun k => k.add "visible")
      | _ => s.birthdayMessage := by
  cases a <;>
    simp only [fire, cakeSplitCallback, removeConfettiCallback, removeSparkleCallback,
      createConfetti, createSparkles, confetti_loop, sparkle_loop] <;>
    repeat (first | rfl | split | simp_all [Outcome.ok, Outcome.throw])

theorem fire_cakeOriginal (env : Env) (a : Action) (s : Scene) :
    (fire env a s).scene.cakeOriginal =
      match a with
      | Action.cakeSplit => s.cakeOriginal.map (fun k => k.add "hidden")
      | _ => s.cakeOriginal := by
  cases a <;>
    simp only [fire, cakeSplitCallback, removeConfettiCallback, removeSparkleCallback,
      createConfetti, createSparkles, confetti_loop, sparkle_loop] <;>
    repeat (first | rfl | split | simp_all [Outcome.ok, Outcome.throw])

theorem fire_cakeLeft (env : Env) (a : Action) (s : Scene) :
    (fire env a s).scene.cakeLeft =
      match a with
      | Action.cakeSplit =>
        if s.cakeOriginal.isSome then s.cakeLeft.map (fun k => k.add "split") else s.cakeLeft
      | _ => s.cakeLeft := by
  cases a <;>
    simp only [fire, cakeSplitCallback, removeConfettiCallback, removeSparkleCallback,
      createConfetti, createSparkles, confetti_loop, sparkle_loop] <;>
    repeat (first | rfl | split | simp_all [Outcome.ok, Outcome.throw])

theorem fire_cakeRight (env : Env) (a : Action) (s : Scene) :
    (fire env a s).scene.cakeRight =
      match a with
      | Action.cakeSplit =>
        if s.cakeOriginal.isSome ∧ s.cakeLeft.isSome then
          s.cakeRight.map (fun k => k.add "split") else s.cakeRight
      | _ => s.cakeRight := by
  cases a <;>
    simp only [fire, cakeSplitCallback, removeConfettiCallback, removeSparkleCallback,
      createConfetti, createSparkles, confetti_loop, sparkle_loop] <;>
    repeat (first | rfl | split | simp_all [Outcome.ok, Outcome.throw])

theorem fire_flames (env : Env) (a : Action) (s : Scene) :
    (fire env a s).scene.flames =
      match a with
      | Action.cakeSplit =>
        if s.cakeOriginal.isSome ∧ s.cakeLeft.isSome ∧ s.cakeRight.isSome then
          s.flames.map Flame.fade else s.flames
      | _ => s.flames := by
  cases a <;>
    simp only [fire, cakeSplitCallback, removeConfettiCallback, removeSparkleCallback,
      createConfetti, createSparkles, confetti_loop, sparkle_loop] <;>
    repeat (first | rfl | split | simp_all [Outcome.ok, Outcome.throw])

theorem fire_nextId (env : Env) (a : Action) (s : Scene) :
    (fire env a s).scene.nextId =
      match a with
      | Action.confettiBatch => if s.confettiContainer.isSome then s.nextId + 60 else s.nextId
      | Action.sparkleBatch =>
        if s.sparkleContainer.isSome ∧ s.cakeOriginal.isSome then s.nextId + 40 else s.nextId
      | _ => s.nextId := by
  cases a <;>
    simp only [fire, cakeSplitCallback, removeConfettiCallback, removeSparkleCallback,
      createConfetti, createSparkles, confetti_loop, sparkle_loop] <;>
    repeat (first | rfl | split | simp_all [Outcome.ok, Outcome.throw])

theorem fire_now (env : Env) (a : Action) (s : Scene) :
    (fire env a s).scene.now = s.now := by
  cases a <;>
    simp only [fire, cakeSplitCallback, removeConfettiCallback, removeSparkleCallback,
      createConfetti, createSparkles, confetti_loop, sparkle_loop] <;>
    repeat (first | rfl | split | simp_all [Outcome.ok, Outcome.throw])

/-! ## The particle generators -/

/-- The duration of a confetti particle when the draw is the largest double below one. -/
theorem duration_at_largest_draw : fl (2 + fl ((1 - 1 / 2 ^ 53) * (3 / 2))) = 7 / 2 := by
  have h1 : fl ((1 - 1 / 2 ^ 53) * (3 / 2)) = 6755399441055743 / 2 ^ 52 := by
    rw [fl_eval (by norm_num) 0 (by norm_num) (by norm_num) (by norm_num)]
    rw [rne_eval _ 6755399441055743 (by norm_num) (by norm_num)]
    norm_num
  rw [h1]
  rw [fl_eval (by norm_num) 1 (by norm_num) (by norm_num) (by norm_num)]
  rw [rne_eval _ 7881299347898367 (by norm_num) (by norm_num)]
  norm_num

/-- C2 as stated fails: when every draw is `1 - 2 ^ (-53)`, the largest double in `[0,1)`,
`createConfetti(1)` on a loaded page creates a particle whose `animationDuration` is exactly
3.5, outside `[2,3.5)`. -/
theorem confetti_duration_reaches_limit :
    (∀ k, 0 ≤ edgeEnv.random k ∧ edgeEnv.random k < 1) ∧
    (createConfetti edgeEnv 1 loadedScene).error = none ∧
    ∃ p ∈ confettiChildren (createConfetti edgeEnv 1 loadedScene).scene,
      p.animationDuration = 7 / 2 ∧ ¬ p.animationDuration < 7 / 2 := by
  refine ⟨fun _ => by norm_num [edgeEnv], ?_, ?_⟩
  · rw [createConfetti_some edgeEnv 1 loadedScene [] rfl]
    rfl
  · have hd : (newConfetti edgeEnv 0 0).animationDuration = 7 / 2 := by
      simp only [newConfetti, edgeEnv]
      exact duration_at_largest_draw
    refine ⟨newConfetti edgeEnv 0 0, ?_, hd, by rw [hd]; exact lt_irrefl _⟩
    rw [createConfetti_some edgeEnv 1 loadedScene [] rfl]
    simp only [Outcome.ok, confettiChildren, Option.getD_some]
    exact mem_confettiOf.2 ⟨0, by norm_num, rfl⟩

/-- C2 amended: for every count and every sequence of random draws that are doubles in
`[0,1)`, `createConfetti(count)` completes without error and leaves exactly `count` particles
(pairwise distinct nodes) in the confetti container, each with `left` in `[0,100)` percent,
`animationDelay` in `[0,0.5)` and `animationDuration` in `[2,3.5]` seconds, the upper end
included. -/
theorem createConfetti_count_and_bounds (env : Env) (count : Nat) (s : Scene)
    (c : List Particle) (hc : s.confettiContainer = some c)
    (hr : ∀ k, 0 ≤ env.random k ∧ env.random k < 1)
    (hd : ∀ k, fl (env.random k) = env.random k) :
    (createConfetti env count s).error = none ∧
    ∃ ps, (createConfetti env count s).scene.confettiContainer = some ps ∧
      ps.length = count ∧ (ps.map (fun p => p.id)).Nodup ∧
      ∀ p ∈ ps, (0 ≤ p.left ∧ p.left < 100 ∧ p.leftUnit = LengthUnit.percent) ∧
        (0 ≤ p.animationDelay ∧ p.animationDelay < 1 / 2) ∧
        (2 ≤ p.animationDuration ∧ p.animationDuration ≤ 7 / 2) := by
  rw [createConfetti_some env count s c hc]
  refine ⟨rfl, _, rfl, length_confettiOf _ _ _ _, ?_, ?_⟩
  · rw [confettiOf_ids]
    exact nodup_range_shift _ _
  · intro p hp
    obtain ⟨i, _, rfl⟩ := mem_confettiOf.1 hp
    have h := newConfetti_bounds env (s.nextId + i) (s.randomCalls + 5 * i) hr
    have h2 := newConfetti_strict env (s.nextId + i) (s.randomCalls + 5 * i) hr hd
    exact ⟨⟨h.1.1, h2.1, rfl⟩, ⟨h.2.1.1, h2.2⟩, h.2.2⟩

theorem createConfetti_count_and_bounds_witness :
    loadedScene.confettiContainer = some [] ∧
    (∀ k, 0 ≤ sampleEnv.random k ∧ sampleEnv.random k < 1) ∧
    (∀ k, fl (sampleEnv.random k) = sampleEnv.random k) ∧
    ((createConfetti sampleEnv 60 loadedScene).error = none ∧
    ∃ ps, (createConfetti sampleEnv 60 loadedScene).scene.confettiContainer = some ps ∧
      ps.length = 60 ∧ (ps.map (fun p => p.id)).Nodup ∧
      ∀ p ∈ ps, (0 ≤ p.left ∧ p.left < 100 ∧ p.leftUnit = LengthUnit.percent) ∧
        (0 ≤ p.animationDelay ∧ p.animationDelay < 1 / 2) ∧
        (2 ≤ p.animationDuration ∧ p.animationDuration ≤ 7 / 2)) :=
  ⟨rfl, fun _ => by norm_num [sampleEnv], fun _ => fl_one_half,
    createConfetti_count_and_bounds sampleEnv 60 loadedScene [] rfl
      (fun _ => by norm_num [sampleEnv]) (fun _ => fl_one_half)⟩

/-- The radius of a sparkle when the draw is the largest double below one. -/
theorem radius_at_largest_draw : fl (80 + fl ((1 - 1 / 2 ^ 53) * 100)) = 180 := by
  have h1 : fl ((1 - 1 / 2 ^ 53) * 100) = 7036874417766399 / 2 ^ 46 := by
    rw [fl_eval (by norm_num) 6 (by norm_num) (by norm_num) (by norm_num)]
    rw [rne_eval _ 7036874417766399 (by norm_num) (by norm_num)]
    norm_num
  rw [h1]
  rw [fl_eval (by norm_num) 7 (by norm_num) (by norm_num) (by norm_num)]
  rw [rne_eval _ 6333186975989759 (by norm_num) (by norm_num)]
  norm_num

/-- The angle the code passes to `Math.cos` for the twelfth of forty sparkles. -/
theorem angle_eleven_of_forty : sparkleAngle 40 11 = 7781661527231283 / 2 ^ 52 := by
  unfold sparkleAngle
  rw [fl_two_pi]
  have h1 : fl (Math.PI * 2 * ((11 : ℕ) : ℚ)) = 4863538454519552 / 2 ^ 46 := by
    rw [fl_eval (by norm_num [Math.PI]) 6 (by norm_num) (by norm_num [Math.PI])
      (by norm_num [Math.PI])]
    rw [rne_eval _ 4863538454519552 (by norm_num [Math.PI]) (by norm_num [Math.PI])]
    norm_num [Math.PI]
  rw [h1]
  rw [fl_eval (by norm_num) 0 (by norm_num) (by norm_num) (by norm_num)]
  rw [rne_eval _ 7781661527231283 (by norm_num) (by norm_num)]
  norm_num

/-- C3 as stated fails.  When every draw is `1 - 2 ^ (-53)`, the largest double in `[0,1)`,
the sparkle created by `createSparkles(1)` around a reference element centred at the origin
lies exactly 180 pixels from the centre, so its radius is not in `[80,180)`.  And the angle the
code computes for `i = 11` of `count = 40` is not `11 * 2 * Math.PI / 40` but the double next
to it. -/
theorem sparkle_radius_and_angle_rounded :
    (∀ k, 0 ≤ edgeEnv.random k ∧ edgeEnv.random k < 1) ∧
    (createSparkles edgeEnv 1 loadedScene).error = none ∧
    centerX edgeEnv ⟨["cake"]⟩ = 0 ∧ centerY edgeEnv ⟨["cake"]⟩ = 0 ∧
    (∃ p ∈ sparkleChildren (createSparkles edgeEnv 1 loadedScene).scene,
      p.left = 180 ∧ p.top = 0 ∧
      ¬ ∃ radius : ℚ, 80 ≤ radius ∧ radius < 180 ∧
        p.left = centerX edgeEnv ⟨["cake"]⟩
          + edgeEnv.cos ((0 : ℚ) * 2 * Math.PI / ((1 : ℕ) : ℚ)) * radius) ∧
    sparkleAngle 40 11 ≠ (11 : ℚ) * 2 * Math.PI / 40 := by
  have hcx : centerX edgeEnv ⟨["cake"]⟩ = 0 := by
    simp [centerX, edgeEnv, fl_zero]
  have hcy : centerY edgeEnv ⟨["cake"]⟩ = 0 := by
    simp [centerY, edgeEnv, fl_zero]
  have hleft : (newSparkle edgeEnv 0 0 1 0 0 0).left = 180 := by
    simp only [newSparkle, edgeEnv, radius_at_largest_draw, one_mul, zero_add,
      fl_hundred_eighty]
  have htop : (newSparkle edgeEnv 0 0 1 0 0 0).top = 0 := by
    simp only [newSparkle, edgeEnv, zero_mul, fl_zero, zero_add]
  have hsome := createSparkles_some edgeEnv 1 loadedScene [] ⟨["cake"]⟩ rfl rfl
  refine ⟨fun _ => by norm_num [edgeEnv], by rw [hsome]; rfl, hcx, hcy, ?_, ?_⟩
  · refine ⟨newSparkle edgeEnv 0 0 1 0 0 0, ?_, hleft, htop, ?_⟩
    · rw [hsome, hcx, hcy]
      simp only [Outcome.ok, sparkleChildren, Option.getD_some]
      exact mem_sparklesOf.2 ⟨0, by norm_num, rfl⟩
    · rintro ⟨radius, _, h2, h3⟩
      rw [hleft, hcx] at h3
      simp only [edgeEnv, one_mul, zero_add] at h3
      rw [← h3] at h2
      exact lt_irrefl _ h2
  · rw [angle_eleven_of_forty]
    norm_num [Math.PI]

/-- C3 amended: for every count (zero included: the loop body, and with it the division, is
not evaluated) and every sequence of random draws in `[0,1)`, `createSparkles(count)` completes
without error and leaves exactly `count` particles in the sparkle container.  The `i`-th one is
placed around the centre of the reference element at the angle that
`(Math.PI * 2 * i) / count` evaluates to in double arithmetic, which is
`i * 2 * Math.PI / count` up to a relative error of `2 ^ (-51)` for counts below `2 ^ 53`, at a
radius in `[80,180]` pixels, the upper end included. -/
theorem createSparkles_ring (env : Env) (count : Nat) (s : Scene)
    (c : List Particle) (cake : Element)
    (hc : s.sparkleContainer = some c) (hk : s.cakeOriginal = some cake)
    (hr : ∀ k, 0 ≤ env.random k ∧ env.random k < 1) :
    (createSparkles env count s).error = none ∧
    ∃ ps, (createSparkles env count s).scene.sparkleContainer = some ps ∧
      ps.length = count ∧ (ps.map (fun p => p.id)).Nodup ∧
      ∀ i : Nat, i < count → ∃ p radius, ps[i]? = some p ∧ 80 ≤ radius ∧ radius ≤ 180 ∧
        p.left = fl (centerX env cake
          + fl (env.cos (fl (fl (fl (Math.PI * 2) * (i : ℚ)) / (count : ℚ))) * radius)) ∧
        p.top = fl (centerY env cake
          + fl (env.sin (fl (fl (fl (Math.PI * 2) * (i : ℚ)) / (count : ℚ))) * radius)) ∧
        p.leftUnit = LengthUnit.px ∧
        (count < 2 ^ 53 →
          |fl (fl (fl (Math.PI * 2) * (i : ℚ)) / (count : ℚ))
              - (i : ℚ) * 2 * Math.PI / (count : ℚ)|
            ≤ (i : ℚ) * 2 * Math.PI / (count : ℚ) / 2 ^ 51) := by
  rw [createSparkles_some env count s c cake hc hk]
  refine ⟨rfl, _, rfl, length_sparklesOf _ _ _ _ _ _ _, ?_, ?_⟩
  · rw [sparklesOf_ids]
    exact nodup_range_shift _ _
  · intro i hi
    have h0 := hr (s.randomCalls + 3 * i)
    have hrad := radius_bounds h0.1 h0.2
    refine ⟨newSparkle env (centerX env cake) (centerY env cake) count i (s.nextId + i)
      (s.randomCalls + 3 * i), fl (80 + fl (env.random (s.randomCalls + 3 * i) * 100)),
      ?_, hrad.1, hrad.2, rfl, rfl, rfl, ?_⟩
    · simp [sparklesOf, hi]
    · intro hcount
      exact sparkleAngle_error count i hi hcount

theorem createSparkles_ring_witness :
    loadedScene.sparkleContainer = some [] ∧ loadedScene.cakeOriginal = some ⟨["cake"]⟩ ∧
    (∀ k, 0 ≤ sampleEnv.random k ∧ sampleEnv.random k < 1) ∧
    ((createSparkles sampleEnv 40 loadedScene).error = none ∧
    ∃ ps, (createSparkles sampleEnv 40 loadedScene).scene.sparkleContainer = some ps ∧
      ps.length = 40 ∧ (ps.map (fun p => p.id)).Nodup ∧
      ∀ i : Nat, i < 40 → ∃ p radius, ps[i]? = some p ∧ 80 ≤ radius ∧ radius ≤ 180 ∧
        p.left = fl (centerX sampleEnv ⟨["cake"]⟩
          + fl (sampleEnv.cos (fl (fl (fl (Math.PI * 2) * (i : ℚ)) / ((40 : ℕ) : ℚ)))
              * radius)) ∧
        p.top = fl (centerY sampleEnv ⟨["cake"]⟩
          + fl (sampleEnv.sin (fl (fl (fl (Math.PI * 2) * (i : ℚ)) / ((40 : ℕ) : ℚ)))
              * radius)) ∧
        p.leftUnit = LengthUnit.px ∧
        (40 < 2 ^ 53 →
          |fl (fl (fl (Math.PI * 2) * (i : ℚ)) / ((40 : ℕ) : ℚ))
              - (i : ℚ) * 2 * Math.PI / ((40 : ℕ) : ℚ)|
            ≤ (i : ℚ) * 2 * Math.PI / ((40 : ℕ) : ℚ) / 2 ^ 51)) :=
  ⟨rfl, rfl, fun _ => by norm_num [sampleEnv],
    createSparkles_ring sampleEnv 40 loadedScene [] ⟨["cake"]⟩ rfl rfl
      (fun _ => by norm_num [sampleEnv])⟩

theorem confetti_twice (env : Env) (m n : Nat) (s : Scene) (c : List Particle)
    (hc : s.confettiContainer = some c) :
    (confettiChildren (createConfetti env m s).scene).length = m ∧
    (createConfetti env n (createConfetti env m s).scene).error = none ∧
    confettiChildren (createConfetti env n (createConfetti env m s).scene).scene
      = confettiOf env (createConfetti env m s).scene.nextId
          (createConfetti env m s).scene.randomCalls n ∧
    (confettiChildren (createConfetti env n (createConfetti env m s).scene).scene).length = n ∧
    ∀ p ∈ confettiChildren (createConfetti env m s).scene,
      p ∉ confettiChildren (createConfetti env n (createConfetti env m s).scene).scene ∧
      ∀ q ∈ confettiChildren (createConfetti env n (createConfetti env m s).scene).scene,
        q.id ≠ p.id := by
  rw [createConfetti_some env m s c hc]
  simp only [Outcome.ok]
  rw [createConfetti_some env n _ _ rfl]
  simp only [Outcome.ok, confettiChildren, Option.getD_some, length_confettiOf, true_and]
  intro p hp
  have hdiff : ∀ q ∈ confettiOf env (s.nextId + m) (s.randomCalls + 5 * m) n, q.id ≠ p.id := by
    intro q hq
    have h1 := confettiOf_id_range hp
    have h2 := confettiOf_id_range hq
    omega
  exact ⟨fun hmem => hdiff p hmem rfl, hdiff⟩

theorem sparkles_twice (env : Env) (m n : Nat) (s : Scene) (c : List Particle)
    (cake : Element) (hc : s.sparkleContainer = some c) (hk : s.cakeOriginal = some cake) :
    (sparkleChildren (createSparkles env m s).scene).length = m ∧
    (createSparkles env n (createSparkles env m s).scene).error = none ∧
    sparkleChildren (createSparkles env n (createSparkles env m s).scene).scene
      = sparklesOf env (centerX env cake) (centerY env cake) n
          (createSparkles env m s).scene.nextId
          (createSparkles env m s).scene.randomCalls n ∧
    (sparkleChildren (createSparkles env n (createSparkles env m s).scene).scene).length = n ∧
    ∀ p ∈ sparkleChildren (createSparkles env m s).scene,
      p ∉ sparkleChildren (createSparkles env n (createSparkles env m s).scene).scene ∧
      ∀ q ∈ sparkleChildren (createSparkles env n (createSparkles env m s).scene).scene,
        q.id ≠ p.id := by
  have e1 := createSparkles_some env m s c cake hc hk
  have hcont : (createSparkles env m s).scene.sparkleContainer
      = some (sparklesOf env (centerX env cake) (centerY env cake) m s.nextId
          s.randomCalls m) := by rw [e1]; rfl
  have hcake : (createSparkles env m s).scene.cakeOriginal = some cake := by rw [e1]; exact hk
  have hid : (createSparkles env m s).scene.nextId = s.nextId + m := by rw [e1]; rfl
  have hrc : (createSparkles env m s).scene.randomCalls = s.randomCalls + 3 * m := by
    rw [e1]; rfl
  rw [createSparkles_some env n _ _ cake hcont hcake]
  simp only [Outcome.ok, sparkleChildren, hcont, hid, hrc, Option.getD_some,
    length_sparklesOf, true_and]
  intro p hp
  have hdiff : ∀ q ∈ sparklesOf env (centerX env cake) (centerY env cake) n (s.nextId + m)
      (s.randomCalls + 3 * m) n, q.id ≠ p.id := by
    intro q hq
    have h1 := sparklesOf_id_range hp
    have h2 := sparklesOf_id_range hq
    omega
  exact ⟨fun hmem => hdiff p hmem rfl, hdiff⟩

/-- C4: for each kind, generating `m` particles and then `n` particles (no timer firing in
between) leaves in the container exactly the `n` particles created by the second call; no
particle of the first batch, and no node identity of the first batch, remains. -/
theorem generate_twice_replaces (env : Env) (m n : Nat) (s : Scene) :
    (∀ c, s.confettiContainer = some c →
      (confettiChildren (createConfetti env m s).scene).length = m ∧
      (createConfetti env n (createConfetti env m s).scene).error = none ∧
      confettiChildren (createConfetti env n (createConfetti env m s).scene).scene
        = confettiOf env (createConfetti env m s).scene.nextId
            (createConfetti env m s).scene.randomCalls n ∧
      (confettiChildren (createConfetti env n (createConfetti env m s).scene).scene).length = n ∧
      ∀ p ∈ confettiChildren (createConfetti env m s).scene,
        p ∉ confettiChildren (createConfetti env n (createConfetti env m s).scene).scene ∧
        ∀ q ∈ confettiChildren (createConfetti env n (createConfetti env m s).scene).scene,
          q.id ≠ p.id) ∧
    (∀ c cake, s.sparkleContainer = some c → s.cakeOriginal = some cake →
      (sparkleChildren (createSparkles env m s).scene).length = m ∧
      (createSparkles env n (createSparkles env m s).scene).error = none ∧
      sparkleChildren (createSparkles env n (createSparkles env m s).scene).scene
        = sparklesOf env (centerX env cake) (centerY env cake) n
            (createSparkles env m s).scene.nextId
            (createSparkles env m s).scene.randomCalls n ∧
      (sparkleChildren (createSparkles env n (createSparkles env m s).scene).scene).length = n ∧
      ∀ p ∈ sparkleChildren (createSparkles env m s).scene,
        p ∉ sparkleChildren (createSparkles env n (createSparkles env m s).scene).scene ∧
        ∀ q ∈ sparkleChildren (createSparkles env n (createSparkles env m s).scene).scene,
          q.id ≠ p.id) :=
  ⟨fun c hc => confetti_twice env m n s c hc,
    fun c cake hc hk => sparkles_twice env m n s c cake hc hk⟩

theorem generate_twice_replaces_witness :
    loadedScene.confettiContainer = some [] ∧
    (confettiChildren (createConfetti sampleEnv 5 loadedScene).scene).length = 5 ∧
    (confettiChildren
      (createConfetti sampleEnv 3 (createConfetti sampleEnv 5 loadedScene).scene).scene).length
      = 3 :=
  ⟨rfl, ((generate_twice_replaces sampleEnv 5 3 loadedScene).1 [] rfl).1,
    ((generate_twice_replaces sampleEnv 5 3 loadedScene).1 [] rfl).2.2.2.1⟩

/-- C7 as stated fails: without its container each generator raises a `TypeError`. -/
theorem generators_throw_without_container :
    sceneWithoutContainers.confettiContainer = none ∧
    sceneWithoutContainers.sparkleContainer = none ∧
    (createConfetti sampleEnv 3 sceneWithoutContainers).error = some JsError.typeError ∧
    (createSparkles sampleEnv 3 sceneWithoutContainers).error = some JsError.typeError :=
  ⟨rfl, rfl, rfl, rfl⟩

/-- C7 amended: when its container is absent, a generator raises a `TypeError` at its first
statement, for every count; the scene is left as it was (no particle, no timer). -/
theorem generators_without_container (env : Env) (count : Nat) (s : Scene) :
    (s.confettiContainer = none →
      (createConfetti env count s).error = some JsError.typeError ∧
      (createConfetti env count s).scene = s) ∧
    (s.sparkleContainer = none →
      (createSparkles env count s).error = some JsError.typeError ∧
      (createSparkles env count s).scene = s) := by
  constructor
  · intro h
    rw [createConfetti_none env count s h]
    exact ⟨rfl, rfl⟩
  · intro h
    rw [createSparkles_none env count s h]
    exact ⟨rfl, rfl⟩

theorem generators_without_container_witness :
    sceneWithoutContainers.confettiContainer = none ∧
    sceneWithoutContainers.sparkleContainer = none ∧
    (createConfetti sampleEnv 60 sceneWithoutContainers).scene = sceneWithoutContainers ∧
    (createSparkles sampleEnv 40 sceneWithoutContainers).scene = sceneWithoutContainers :=
  ⟨rfl, rfl,
    ((generators_without_container sampleEnv 60 sceneWithoutContainers).1 rfl).2,
    ((generators_without_container sampleEnv 40 sceneWithoutContainers).2 rfl).2⟩

theorem filter_id_ne_of_absent (el : Nat) (l : List Particle) (h : ∀ p ∈ l, p.id ≠ el) :
    l.filter (fun p => p.id != el) = l := by
  rw [List.filter_eq_self]
  intro p hp
  simpa using h p hp

/-! ## Reset -/

theorem resetCakeScene_some (s : Scene) (co cl cr line k msg : Element) (cc sc : List Particle)
    (b : Button) (h1 : s.cakeOriginal = some co) (h2 : s.cakeLeft = some cl)
    (h3 : s.cakeRight = some cr) (h4 : s.cuttingLine = some line) (h5 : s.knife = some k)
    (h6 : s.birthdayMessage = some msg) (h7 : s.confettiContainer = some cc)
    (h8 : s.sparkleContainer = some sc) (h9 : s.cutButton = some b) :
    resetCakeScene s = Outcome.ok { s with
      cakeOriginal := some (co.remove "hidden")
      cakeLeft := some (cl.remove "split")
      cakeRight := some (cr.remove "split")
      cuttingLine := some (line.remove "visible")
      knife := some ((k.remove "visible").remove "moving")
      birthdayMessage := some (msg.remove "visible")
      confettiContainer := some []
      sparkleContainer := some []
      flames := s.flames.map Flame.restore
      cutButton := some { b with disabled := false, content := cutButtonMarkup } } := by
  simp [resetCakeScene, Outcome.andThen, Outcome.ok, h1, h2, h3, h4, h5, h6, h7, h8, h9]

theorem resetCakeScene_present (s : Scene) (h : (resetCakeScene s).error = none) :
    s.cakeOriginal.isSome ∧ s.cakeLeft.isSome ∧ s.cakeRight.isSome ∧ s.cuttingLine.isSome ∧
    s.knife.isSome ∧ s.birthdayMessage.isSome ∧ s.confettiContainer.isSome ∧
    s.sparkleContainer.isSome ∧ s.cutButton.isSome := by
  cases h1 : s.cakeOriginal <;> cases h2 : s.cakeLeft <;> cases h3 : s.cakeRight <;>
  cases h4 : s.cuttingLine <;> cases h5 : s.knife <;> cases h6 : s.birthdayMessage <;>
  cases h7 : s.confettiContainer <;> cases h8 : s.sparkleContainer <;>
  cases h9 : s.cutButton <;>
  simp [resetCakeScene, Outcome.andThen, Outcome.ok, Outcome.throw, h1, h2, h3, h4, h5, h6, h7,
    h8, h9] at h ⊢

/-! ## Flags under the callbacks -/

theorem mem_add_classList (c d : String) (e : Element) :
    d ∈ (e.add c).classList ↔ d ∈ e.classList ∨ d = c := by
  have := contains_classAdd c d e.classList
  simp only [Element.add]
  by_cases h1 : d ∈ e.classList <;> by_cases h2 : d = c <;> simp_all

theorem mem_remove_classList (c d : String) (e : Element) :
    d ∈ (e.remove c).classList ↔ d ∈ e.classList ∧ d ≠ c := by
  have := contains_classRemove c d e.classList
  simp only [Element.remove]
  by_cases h1 : d ∈ e.classList <;> by_cases h2 : d = c <;> simp_all

theorem fire_knifeVisible (env : Env) (a : Action) (s : Scene) :
    knifeVisible (fire env a s).scene
      = (knifeVisible s || (decide (a = Action.knifeShow) && s.knife.isSome)) := by
  simp only [knifeVisible, fire_knife]
  cases a <;> cases s.knife <;> simp [hasClass, mem_add_classList]

theorem fire_knifeMoving (env : Env) (a : Action) (s : Scene) :
    knifeMoving (fire env a s).scene
      = (knifeMoving s || (decide (a = Action.knifeMove) && s.knife.isSome)) := by
  simp only [knifeMoving, fire_knife]
  cases a <;> cases s.knife <;> simp [hasClass, mem_add_classList]

theorem fire_lineVisible (env : Env) (a : Action) (s : Scene) :
    lineVisible (fire env a s).scene
      = (lineVisible s || (decide (a = Action.sliceLine) && s.cuttingLine.isSome)) := by
  simp only [lineVisible, fire_cuttingLine]
  cases a <;> cases s.cuttingLine <;> simp [hasClass, mem_add_classList]

theorem fire_messageVisible (env : Env) (a : Action) (s : Scene) :
    messageVisible (fire env a s).scene
      = (messageVisible s || (decide (a = Action.message) && s.birthdayMessage.isSome)) := by
  simp only [messageVisible, fire_birthdayMessage]
  cases a <;> cases s.birthdayMessage <;> simp [hasClass, mem_add_classList]

theorem fire_cakeSplit (env : Env) (a : Action) (s : Scene) :
    cakeSplit (fire env a s).scene
      = (cakeSplit s || (decide (a = Action.cakeSplit) && s.cakeOriginal.isSome
          && s.cakeLeft.isSome && s.cakeRight.isSome)) := by
  simp only [cakeSplit, fire_cakeOriginal, fire_cakeLeft, fire_cakeRight]
  cases a <;> cases s.cakeOriginal <;> cases s.cakeLeft <;> cases s.cakeRight <;>
    simp [hasClass, mem_add_classList]

theorem fire_flagsKept (env : Env) (a : Action) (s : Scene) :
    flagsKept s (fire env a s).scene := by
  refine ⟨?_, ?_, ?_, ?_, ?_⟩ <;> intro h
  · simp [fire_knifeVisible, h]
  · simp [fire_knifeMoving, h]
  · simp [fire_lineVisible, h]
  · simp [fire_cakeSplit, h]
  · simp [fire_messageVisible, h]

theorem lit_fade (flame : Flame) : (Flame.fade flame).lit = false := by
  simp [Flame.lit, Flame.fade]

theorem lit_restore (flame : Flame) : (Flame.restore flame).lit = true := by
  have h := contains_classAdd "visible" "visible" flame.classList
  simp only [decide_True, Bool.or_true] at h
  simp only [Flame.lit, Flame.restore, h]
  decide

theorem createConfetti_flagsKept (env : Env) (count : Nat) (s : Scene) :
    flagsKept s (createConfetti env count s).scene := by
  cases h : s.confettiContainer with
  | none =>
    rw [createConfetti_none env count s h]
    simp [flagsKept, Outcome.throw]
  | some c =>
    rw [createConfetti_some env count s c h]
    simp [flagsKept, Outcome.ok, knifeVisible, knifeMoving, lineVisible, cakeSplit,
      messageVisible]

theorem createSparkles_flagsKept (env : Env) (count : Nat) (s : Scene) :
    flagsKept s (createSparkles env count s).scene := by
  cases h : s.sparkleContainer with
  | none =>
    rw [createSparkles_none env count s h]
    simp [flagsKept, Outcome.throw]
  | some c =>
    cases hk : s.cakeOriginal with
    | none =>
      rw [createSparkles_noCake env count s c h hk]
      simp [flagsKept, Outcome.throw, knifeVisible, knifeMoving, lineVisible, cakeSplit,
        messageVisible]
    | some cake =>
      rw [createSparkles_some env count s c cake h hk]
      simp [flagsKept, Outcome.ok, knifeVisible, knifeMoving, lineVisible, cakeSplit,
        messageVisible]

theorem runCakeCuttingSequence_flagsKept (s : Scene) :
    flagsKept s (runCakeCuttingSequence s).scene := by
  cases h : s.cutButton <;>
    simp [flagsKept, runCakeCuttingSequence, h, Outcome.throw, Outcome.ok, setTimeout,
      knifeVisible, knifeMoving, lineVisible, cakeSplit, messageVisible]

/-- C8 as stated fails on `flamesLit`: the cake split callback, run on a freshly loaded page
whose flame is lit, completes and leaves the flame faded out. -/
theorem cakeSplit_fades_flames :
    flamesLit loadedScene = true ∧
    (fire sampleEnv Action.cakeSplit loadedScene).error = none ∧
    flamesLit (fire sampleEnv Action.cakeSplit loadedScene).scene = false := by
  decide

/-- C8 amended: every timer callback (the seven actions of the sequence and the particle
removals), both generators, `initFlames` and the synchronous part of `runCakeCuttingSequence`
keep true each of `knifeVisible`, `knifeMoving`, `lineVisible`, `cakeSplit` and
`messageVisible`; a completed `resetCakeScene` leaves all five false.  `flamesLit` is
unchanged by every callback but the cake split, which turns it false when the three cake
elements exist and there is a flame; a completed `resetCakeScene` leaves it true. -/
theorem flags_monotone_except_flames (env : Env) (s : Scene) :
    (∀ a, flagsKept s (fire env a s).scene) ∧
    (∀ count, flagsKept s (createConfetti env count s).scene) ∧
    (∀ count, flagsKept s (createSparkles env count s).scene) ∧
    flagsKept s (initFlames s) ∧
    flagsKept s (runCakeCuttingSequence s).scene ∧
    (∀ a, a ≠ Action.cakeSplit → flamesLit (fire env a s).scene = flamesLit s) ∧
    (s.cakeOriginal.isSome → s.cakeLeft.isSome → s.cakeRight.isSome → s.flames ≠ [] →
      flamesLit (fire env Action.cakeSplit s).scene = false) ∧
    ((resetCakeScene s).error = none →
      knifeVisible (resetCakeScene s).scene = false ∧
      knifeMoving (resetCakeScene s).scene = false ∧
      lineVisible (resetCakeScene s).scene = false ∧
      cakeSplit (resetCakeScene s).scene = false ∧
      messageVisible (resetCakeScene s).scene = false ∧
      flamesLit (resetCakeScene s).scene = true) := by
  refine ⟨fun a => fire_flagsKept env a s, fun n => createConfetti_flagsKept env n s,
    fun n => createSparkles_flagsKept env n s, ?_, runCakeCuttingSequence_flagsKept s,
    ?_, ?_, ?_⟩
  · simp [flagsKept, initFlames, knifeVisible, knifeMoving, lineVisible, cakeSplit,
      messageVisible]
  · intro a ha
    rw [flamesLit, fire_flames]
    cases a <;> first | rfl | exact absurd rfl ha
  · intro h1 h2 h3 hf
    simp only [flamesLit, fire_flames, h1, h2, h3, and_self, if_true]
    cases hfl : s.flames with
    | nil => exact absurd hfl hf
    | cons f fs => simp [lit_fade]
  · intro h
    obtain ⟨h1, h2, h3, h4, h5, h6, h7, h8, h9⟩ := resetCakeScene_present s h
    obtain ⟨co, h1⟩ := Option.isSome_iff_exists.1 h1
    obtain ⟨cl, h2⟩ := Option.isSome_iff_exists.1 h2
    obtain ⟨cr, h3⟩ := Option.isSome_iff_exists.1 h3
    obtain ⟨line, h4⟩ := Option.isSome_iff_exists.1 h4
    obtain ⟨k, h5⟩ := Option.isSome_iff_exists.1 h5
    obtain ⟨msg, h6⟩ := Option.isSome_iff_exists.1 h6
    obtain ⟨cc, h7⟩ := Option.isSome_iff_exists.1 h7
    obtain ⟨sc, h8⟩ := Option.isSome_iff_exists.1 h8
    obtain ⟨b, h9⟩ := Option.isSome_iff_exists.1 h9
    rw [resetCakeScene_some s co cl cr line k msg cc sc b h1 h2 h3 h4 h5 h6 h7 h8 h9]
    simp [Outcome.ok, knifeVisible, knifeMoving, lineVisible, cakeSplit, messageVisible,
      flamesLit, hasClass, mem_remove_classList, lit_restore]

theorem flags_monotone_except_flames_witness :
    flagsKept loadedScene (fire sampleEnv Action.knifeShow loadedScene).scene ∧
    (resetCakeScene loadedScene).error = none ∧
    knifeVisible (resetCakeScene loadedScene).scene = false ∧
    flamesLit (fire sampleEnv Action.cakeSplit loadedScene).scene = false :=
  ⟨(flags_monotone_except_flames sampleEnv loadedScene).1 Action.knifeShow,
    by decide,
    ((flags_monotone_except_flames sampleEnv loadedScene).2.2.2.2.2.2.2 (by decide)).1,
    (flags_monotone_except_flames sampleEnv loadedScene).2.2.2.2.2.2.1 (by decide) (by decide)
      (by decide) (by decide)⟩

/-! ## Flags over time -/

theorem spawned_action (env : Env) (a : Action) (s : Scene) (x : Timer)
    (hx : x ∈ spawned env a s) :
    (a = Action.confettiBatch ∧ ∃ el, x.action = Action.removeConfetti el) ∨
    (a = Action.sparkleBatch ∧ ∃ el, x.action = Action.removeSparkle el) := by
  cases a with
  | confettiBatch =>
    simp only [spawned] at hx
    split at hx
    · simp at hx
    · obtain ⟨p, _, rfl⟩ := List.mem_map.1 hx
      exact Or.inl ⟨rfl, p.id, rfl⟩
  | sparkleBatch =>
    simp only [spawned] at hx
    split at hx
    · obtain ⟨p, _, rfl⟩ := List.mem_map.1 hx
      exact Or.inr ⟨rfl, p.id, rfl⟩
    · simp at hx
  | _ => simp [spawned] at hx

theorem turn_cutButton (env : Env) (tm : Timer) (rest : List Timer) (s : Scene) :
    (turn env tm rest s).cutButton = s.cutButton := by
  simp only [turn]
  split <;> simp [fire_cutButton]

theorem advance_cutButton (env : Env) (t : ℚ) (s : Scene) :
    (advance env t s).cutButton = s.cutButton := by
  have h := advanceFuel_invariant env t (fun u => u.cutButton = s.cutButton)
    (fun u tm rest hu _ _ => by simp only [turn_cutButton]; exact hu)
    (timersWeight s.timers) s rfl
  simpa [advance] using h

/-- A flag that only the callback `A` raises, and raises whenever `ready` holds, is false
before the due time of `A` and true after it. -/
theorem flag_timeline (env : Env) (flag ready : Scene → Bool) (A : Action)
    (hA : ∀ el, A ≠ Action.removeConfetti el ∧ A ≠ Action.removeSparkle el)
    (hflag : ∀ tm rest s,
      flag (turn env tm rest s) = (flag s || (decide (tm.action = A) && ready s)))
    (hready : ∀ tm rest s, ready (turn env tm rest s) = ready s)
    (hnow : ∀ (s : Scene) (u : ℚ), flag { s with now := u } = flag s)
    (s : Scene) (T : ℚ) (hr : ready s = true) (hf : flag s = false)
    (hdue : ∀ x ∈ s.timers, x.action = A → x.due = T)
    (hex : ∃ x ∈ s.timers, x.action = A) (t : ℚ) :
    (t < T → flag (advance env t s) = false) ∧ (T < t → flag (advance env t s) = true) := by
  have hsp : ∀ a u x, x ∈ spawned env a u → x.action ≠ A := by
    intro a u x hx hxa
    rcases spawned_action env a u x hx with ⟨_, el, he⟩ | ⟨_, el, he⟩
    · exact (hA el).1 (hxa ▸ he)
    · exact (hA el).2 (hxa ▸ he)
  constructor
  · intro ht
    have h := advanceFuel_invariant env t
      (fun u => flag u = false ∧ ∀ x ∈ u.timers, x.action = A → x.due = T)
      (fun u tm rest hu hp hle => by
        have hne : tm.action ≠ A := by
          intro ha
          have := hu.2 tm (popEarliest_mem hp) ha
          rw [this] at hle
          exact absurd ht (not_lt.2 hle)
        refine ⟨?_, ?_⟩
        · rw [hflag, hu.1]
          simp [hne]
        · intro x hx hxa
          rw [turn_timers] at hx
          rcases List.mem_append.1 hx with hx | hx
          · exact hu.2 x (popEarliest_rest_subset hp x hx) hxa
          · exact absurd hxa (hsp _ _ x hx))
      (timersWeight s.timers) s ⟨hf, hdue⟩
    simp only [advance, hnow]
    exact h.1
  · intro ht
    have h := advanceFuel_invariant env t
      (fun u => ready u = true ∧ (flag u = true ∨ ∃ x ∈ u.timers, x.action = A ∧ x.due = T))
      (fun u tm rest hu hp _ => by
        refine ⟨by rw [hready]; exact hu.1, ?_⟩
        rcases hu.2 with hfl | ⟨x, hx, hxa, hxd⟩
        · left
          rw [hflag, hfl]
          rfl
        · rcases popEarliest_mem_cases hp hx with rfl | hx
          · left
            rw [hflag, hu.1]
            simp [hxa]
          · right
            refine ⟨x, ?_, hxa, hxd⟩
            rw [turn_timers]
            exact List.mem_append_left _ hx)
      (timersWeight s.timers) s
      ⟨hr, Or.inr (by
        obtain ⟨x, hx, hxa⟩ := hex
        exact ⟨x, hx, hxa, hdue x hx hxa⟩)⟩
    simp only [advance, hnow]
    rcases h.2 with hfl | ⟨x, hx, _, hxd⟩
    · exact hfl
    · have := advanceFuel_noDue env t _ s (le_refl _) x hx
      rw [hxd] at this
      exact absurd ht (not_lt.2 (le_of_lt this))

theorem turn_knifeVisible (env : Env) (tm : Timer) (rest : List Timer) (s : Scene) :
    knifeVisible (turn env tm rest s)
      = (knifeVisible s || (decide (tm.action = Action.knifeShow) && s.knife.isSome)) := by
  have h := fire_knifeVisible env tm.action { s with timers := rest, now := max s.now tm.due }
  simp only [turn]
  split <;> simpa [knifeVisible] using h

theorem turn_cakeSplit (env : Env) (tm : Timer) (rest : List Timer) (s : Scene) :
    cakeSplit (turn env tm rest s)
      = (cakeSplit s || (decide (tm.action = Action.cakeSplit) &&
          (s.cakeOriginal.isSome && s.cakeLeft.isSome && s.cakeRight.isSome))) := by
  have h := fire_cakeSplit env tm.action { s with timers := rest, now := max s.now tm.due }
  simp only [turn]
  split <;> simpa [cakeSplit, Bool.and_assoc] using h

theorem turn_knife_isSome (env : Env) (tm : Timer) (rest : List Timer) (s : Scene) :
    (turn env tm rest s).knife.isSome = s.knife.isSome := by
  have h := fire_knife env tm.action { s with timers := rest, now := max s.now tm.due }
  simp only [turn]
  split <;> simp only [h] <;> cases tm.action <;> cases s.knife <;> rfl

theorem turn_cake_isSome (env : Env) (tm : Timer) (rest : List Timer) (s : Scene) :
    ((turn env tm rest s).cakeOriginal.isSome && (turn env tm rest s).cakeLeft.isSome
        && (turn env tm rest s).cakeRight.isSome)
      = (s.cakeOriginal.isSome && s.cakeLeft.isSome && s.cakeRight.isSome) := by
  have h1 := fire_cakeOriginal env tm.action { s with timers := rest, now := max s.now tm.due }
  have h2 := fire_cakeLeft env tm.action { s with timers := rest, now := max s.now tm.due }
  have h3 := fire_cakeRight env tm.action { s with timers := rest, now := max s.now tm.due }
  simp only [turn]
  split <;> simp only [h1, h2, h3] <;> cases tm.action <;> cases s.cakeOriginal <;>
    cases s.cakeLeft <;> cases s.cakeRight <;> rfl

/-! ## The cutting sequence -/

/-- The seven delays of the sequence are whole milliseconds: the host keeps them as they are. -/
theorem timing_delays :
    timerDelay TIMING.KNIFE_SHOW = 300 ∧ timerDelay TIMING.KNIFE_MOVE = 600 ∧
    timerDelay TIMING.SLICE_LINE = 1500 ∧ timerDelay TIMING.CAKE_SPLIT = 1900 ∧
    timerDelay TIMING.CONFETTI = 2200 ∧ timerDelay TIMING.SPARKLES = 2500 ∧
    timerDelay TIMING.MESSAGE = 3100 := by
  have h1 := timerDelay_natCast 300 (by norm_num)
  have h2 := timerDelay_natCast 600 (by norm_num)
  have h3 := timerDelay_natCast 1500 (by norm_num)
  have h4 := timerDelay_natCast 1900 (by norm_num)
  have h5 := timerDelay_natCast 2200 (by norm_num)
  have h6 := timerDelay_natCast 2500 (by norm_num)
  have h7 := timerDelay_natCast 3100 (by norm_num)
  simp only [Nat.cast_ofNat] at h1 h2 h3 h4 h5 h6 h7
  exact ⟨h1, h2, h3, h4, h5, h6, h7⟩

theorem runCakeCuttingSequence_some (s : Scene) (b : Button) (hb : s.cutButton = some b) :
    runCakeCuttingSequence s = Outcome.ok { s with
      cutButton := some { b with disabled := true, content := "Cutting..." }
      timers := s.timers ++ sequenceTimers s.now } := by
  obtain ⟨h1, h2, h3, h4, h5, h6, h7⟩ := timing_delays
  simp [runCakeCuttingSequence, hb, setTimeout, sequenceTimers, h1, h2, h3, h4, h5, h6, h7]

/-- C1: called at time `t0` on an idle page where the knife is not shown and the cake is not
split, `runCakeCuttingSequence` registers exactly seven timers, each due at `t0` plus its own
offset, in increasing order of due time: knife visible at 300, knife moving at 600, slice line
visible at 1500, cake split with flame fade at 1900, `createConfetti(60)` at 2200,
`createSparkles(40)` at 2500, message visible at 3100.  At every time before `t0 + 300` the
knife is not visible and at every time after it is; at every time before `t0 + 1900` the cake
is not split and at every time after it is. -/
theorem run_timeline (env : Env) (s : Scene) (b : Button) (k co cl cr : Element)
    (hb : s.cutButton = some b) (hk : s.knife = some k) (hco : s.cakeOriginal = some co)
    (hcl : s.cakeLeft = some cl) (hcr : s.cakeRight = some cr) (hidle : s.timers = [])
    (hkv : knifeVisible s = false) (hcs : cakeSplit s = false) :
    (runCakeCuttingSequence s).error = none ∧
    (runCakeCuttingSequence s).scene.timers =
      [⟨s.now + 300, Action.knifeShow⟩, ⟨s.now + 600, Action.knifeMove⟩,
       ⟨s.now + 1500, Action.sliceLine⟩, ⟨s.now + 1900, Action.cakeSplit⟩,
       ⟨s.now + 2200, Action.confettiBatch⟩, ⟨s.now + 2500, Action.sparkleBatch⟩,
       ⟨s.now + 3100, Action.message⟩] ∧
    (runCakeCuttingSequence s).scene.timers.Pairwise (fun x y => x.due < y.due) ∧
    (∀ u, u.knife.isSome → knifeVisible (fire env Action.knifeShow u).scene = true) ∧
    (∀ u, u.knife.isSome → knifeMoving (fire env Action.knifeMove u).scene = true) ∧
    (∀ u, u.cuttingLine.isSome → lineVisible (fire env Action.sliceLine u).scene = true) ∧
    (∀ u, u.cakeOriginal.isSome → u.cakeLeft.isSome → u.cakeRight.isSome →
      cakeSplit (fire env Action.cakeSplit u).scene = true ∧
      (fire env Action.cakeSplit u).scene.flames = u.flames.map Flame.fade) ∧
    (∀ u, fire env Action.confettiBatch u = createConfetti env 60 u) ∧
    (∀ u, fire env Action.sparkleBatch u = createSparkles env 40 u) ∧
    (∀ u, u.birthdayMessage.isSome → messageVisible (fire env Action.message u).scene = true) ∧
    (∀ t, (t < s.now + 300 →
        knifeVisible (advance env t (runCakeCuttingSequence s).scene) = false) ∧
      (s.now + 300 < t →
        knifeVisible (advance env t (runCakeCuttingSequence s).scene) = true)) ∧
    (∀ t, (t < s.now + 1900 →
        cakeSplit (advance env t (runCakeCuttingSequence s).scene) = false) ∧
      (s.now + 1900 < t →
        cakeSplit (advance env t (runCakeCuttingSequence s).scene) = true)) := by
  have hrun := runCakeCuttingSequence_some s b hb
  have htm : (runCakeCuttingSequence s).scene.timers = sequenceTimers s.now := by
    rw [hrun]
    simp [Outcome.ok, hidle]
  refine ⟨by rw [hrun]; rfl, htm, ?_, ?_, ?_, ?_, ?_, fun _ => rfl, fun _ => rfl, ?_, ?_, ?_⟩
  · rw [htm]
    simp [sequenceTimers]
    norm_num
  · intro u hu
    rw [fire_knifeVisible]
    simp [hu]
  · intro u hu
    rw [fire_knifeMoving]
    simp [hu]
  · intro u hu
    rw [fire_lineVisible]
    simp [hu]
  · intro u h1 h2 h3
    rw [fire_cakeSplit, fire_flames]
    simp [h1, h2, h3]
  · intro u hu
    rw [fire_messageVisible]
    simp [hu]
  · intro t
    refine flag_timeline env knifeVisible (fun u => u.knife.isSome) Action.knifeShow
      (fun _ => ⟨by simp, by simp⟩) (turn_knifeVisible env) (turn_knife_isSome env)
      (fun _ _ => rfl) _ (s.now + 300) ?_ ?_ ?_ ?_ t
    · rw [hrun]; simp [Outcome.ok, hk]
    · rw [hrun]; simpa [Outcome.ok, knifeVisible] using hkv
    · rw [htm]
      intro x hx hxa
      simp only [sequenceTimers, List.mem_cons, List.mem_singleton, List.not_mem_nil,
        or_false] at hx
      rcases hx with rfl | rfl | rfl | rfl | rfl | rfl | rfl <;> simp_all
    · rw [htm]
      exact ⟨⟨s.now + 300, Action.knifeShow⟩, by simp [sequenceTimers], rfl⟩
  · intro t
    refine flag_timeline env cakeSplit
      (fun u => u.cakeOriginal.isSome && u.cakeLeft.isSome && u.cakeRight.isSome)
      Action.cakeSplit (fun _ => ⟨by simp, by simp⟩) (turn_cakeSplit env)
      (turn_cake_isSome env) (fun _ _ => rfl) _ (s.now + 1900) ?_ ?_ ?_ ?_ t
    · rw [hrun]; simp [Outcome.ok, hco, hcl, hcr]
    · rw [hrun]; simpa [Outcome.ok, cakeSplit] using hcs
    · rw [htm]
      intro x hx hxa
      simp only [sequenceTimers, List.mem_cons, List.mem_singleton, List.not_mem_nil,
        or_false] at hx
      rcases hx with rfl | rfl | rfl | rfl | rfl | rfl | rfl <;> simp_all
    · rw [htm]
      exact ⟨⟨s.now + 1900, Action.cakeSplit⟩, by simp [sequenceTimers], rfl⟩

theorem run_timeline_witness :
    knifeVisible loadedScene = false ∧ cakeSplit loadedScene = false ∧
    knifeVisible (advance sampleEnv 299 (runCakeCuttingSequence loadedScene).scene) = false ∧
    knifeVisible (advance sampleEnv 301 (runCakeCuttingSequence loadedScene).scene) = true ∧
    cakeSplit (advance sampleEnv 1899 (runCakeCuttingSequence loadedScene).scene) = false ∧
    cakeSplit (advance sampleEnv 1901 (runCakeCuttingSequence loadedScene).scene) = true :=
  have h := run_timeline sampleEnv loadedScene ⟨false, "Cut the Cake"⟩ ⟨["knife"]⟩
    ⟨["cake"]⟩ ⟨["cake-half"]⟩ ⟨["cake-half"]⟩ rfl rfl rfl rfl rfl rfl (by decide) (by decide)
  have h0 : loadedScene.now = 0 := rfl
  ⟨by decide, by decide,
    (h.2.2.2.2.2.2.2.2.2.2.1 299).1 (by rw [h0]; norm_num),
    (h.2.2.2.2.2.2.2.2.2.2.1 301).2 (by rw [h0]; norm_num),
    (h.2.2.2.2.2.2.2.2.2.2.2 1899).1 (by rw [h0]; norm_num),
    (h.2.2.2.2.2.2.2.2.2.2.2 1901).2 (by rw [h0]; norm_num)⟩

/-- C6: after `runCakeCuttingSequence` the trigger is disabled; no timer callback, generator
or `initFlames` changes the button, so it is disabled at every later time, whichever timers
have fired; a click at any such time starts nothing (the scene, pending timers included, is
unchanged); a completed `resetCakeScene` is what enables the trigger again. -/
theorem trigger_stays_disabled (env : Env) (s : Scene) (b : Button)
    (hb : s.cutButton = some b) :
    (runCakeCuttingSequence s).error = none ∧
    triggerDisabled (runCakeCuttingSequence s).scene = true ∧
    (∀ a u, (fire env a u).scene.cutButton = u.cutButton) ∧
    (∀ count u, (createConfetti env count u).scene.cutButton = u.cutButton ∧
      (createSparkles env count u).scene.cutButton = u.cutButton ∧
      (initFlames u).cutButton = u.cutButton) ∧
    (∀ t, triggerDisabled (advance env t (runCakeCuttingSequence s).scene) = true) ∧
    (∀ t, clickCutButton (advance env t (runCakeCuttingSequence s).scene)
      = Outcome.ok (advance env t (runCakeCuttingSequence s).scene)) ∧
    (∀ u, (resetCakeScene u).error = none →
      triggerDisabled (resetCakeScene u).scene = false) := by
  have hrun := runCakeCuttingSequence_some s b hb
  have hbtn : ∀ t, (advance env t (runCakeCuttingSequence s).scene).cutButton
      = some { b with disabled := true, content := "Cutting..." } := by
    intro t
    rw [advance_cutButton, hrun]
    rfl
  refine ⟨by rw [hrun]; rfl, by rw [hrun]; rfl, fun a u => fire_cutButton env a u,
    ?_, ?_, ?_, ?_⟩
  · intro count u
    refine ⟨?_, ?_, rfl⟩
    · cases h : u.confettiContainer with
      | none => rw [createConfetti_none env count u h]; rfl
      | some c => rw [createConfetti_some env count u c h]; rfl
    · cases h : u.sparkleContainer with
      | none => rw [createSparkles_none env count u h]; rfl
      | some c =>
        cases hk : u.cakeOriginal with
        | none => rw [createSparkles_noCake env count u c h hk]; rfl
        | some cake => rw [createSparkles_some env count u c cake h hk]; rfl
  · intro t
    simp [triggerDisabled, hbtn t]
  · intro t
    simp [clickCutButton, hbtn t]
  · intro u h
    obtain ⟨h1, h2, h3, h4, h5, h6, h7, h8, h9⟩ := resetCakeScene_present u h
    obtain ⟨co, h1⟩ := Option.isSome_iff_exists.1 h1
    obtain ⟨cl, h2⟩ := Option.isSome_iff_exists.1 h2
    obtain ⟨cr, h3⟩ := Option.isSome_iff_exists.1 h3
    obtain ⟨line, h4⟩ := Option.isSome_iff_exists.1 h4
    obtain ⟨k, h5⟩ := Option.isSome_iff_exists.1 h5
    obtain ⟨msg, h6⟩ := Option.isSome_iff_exists.1 h6
    obtain ⟨cc, h7⟩ := Option.isSome_iff_exists.1 h7
    obtain ⟨sc, h8⟩ := Option.isSome_iff_exists.1 h8
    obtain ⟨b2, h9⟩ := Option.isSome_iff_exists.1 h9
    rw [resetCakeScene_some u co cl cr line k msg cc sc b2 h1 h2 h3 h4 h5 h6 h7 h8 h9]
    simp [Outcome.ok, triggerDisabled]

theorem trigger_stays_disabled_witness :
    loadedScene.cutButton = some ⟨false, "Cut the Cake"⟩ ∧
    triggerDisabled loadedScene = false ∧
    triggerDisabled (runCakeCuttingSequence loadedScene).scene = true ∧
    triggerDisabled (advance sampleEnv 5000 (runCakeCuttingSequence loadedScene).scene) = true :=
  ⟨rfl, by decide,
    (trigger_stays_disabled sampleEnv loadedScene ⟨false, "Cut the Cake"⟩ rfl).2.1,
    (trigger_stays_disabled sampleEnv loadedScene ⟨false, "Cut the Cake"⟩ rfl).2.2.2.2.1 5000⟩

/-! ## Particles over time -/

theorem fire_confettiChildren (env : Env) (a : Action) (s : Scene) :
    confettiChildren (fire env a s).scene =
      match a with
      | Action.confettiBatch =>
        if s.confettiContainer.isSome then confettiOf env s.nextId s.randomCalls 60 else []
      | Action.removeConfetti el => (confettiChildren s).filter (fun p => p.id != el)
      | _ => confettiChildren s := by
  cases a with
  | confettiBatch =>
    cases h : s.confettiContainer with
    | none => simp [fire, createConfetti_none env 60 s h, Outcome.throw, confettiChildren, h]
    | some c => simp [fire, createConfetti_some env 60 s c h, Outcome.ok, confettiChildren]
  | sparkleBatch =>
    cases h : s.sparkleContainer with
    | none => simp [fire, createSparkles_none env 40 s h, Outcome.throw]
    | some c =>
      cases hk : s.cakeOriginal with
      | none => simp [fire, createSparkles_noCake env 40 s c h hk, Outcome.throw, confettiChildren]
      | some cake =>
        simp [fire, createSparkles_some env 40 s c cake h hk, Outcome.ok, confettiChildren]
  | removeConfetti el =>
    simp only [fire, removeConfettiCallback, confettiChildren]
    cases h : s.confettiContainer with
    | none => simp [Outcome.ok, h]
    | some children =>
      by_cases hany : children.any (fun p => p.id == el) = true
      · simp [hany, Outcome.ok]
      · simp only [hany, Outcome.ok, h, Option.getD_some]
        rw [filter_id_ne_of_absent]
        · simp [h]
        · intro p hp hpe
          exact hany (List.any_eq_true.2 ⟨p, hp, by simp [hpe]⟩)
  | removeSparkle el =>
    simp only [fire, removeSparkleCallback, confettiChildren]
    split
    · rfl
    · split <;> rfl
  | cakeSplit =>
    simp only [fire, cakeSplitCallback]
    repeat (first | rfl | split)
  | _ =>
    simp only [fire]
    split <;> rfl

theorem fire_sparkleChildren (env : Env) (a : Action) (s : Scene) :
    sparkleChildren (fire env a s).scene =
      match a with
      | Action.sparkleBatch =>
        match s.sparkleContainer, s.cakeOriginal with
        | some _, some cake =>
          sparklesOf env (centerX env cake) (centerY env cake) 40 s.nextId s.randomCalls 40
        | _, _ => []
      | Action.removeSparkle el => (sparkleChildren s).filter (fun p => p.id != el)
      | _ => sparkleChildren s := by
  cases a with
  | sparkleBatch =>
    cases h : s.sparkleContainer with
    | none => simp [fire, createSparkles_none env 40 s h, Outcome.throw, sparkleChildren, h]
    | some c =>
      cases hk : s.cakeOriginal with
      | none => simp [fire, createSparkles_noCake env 40 s c h hk, Outcome.throw, sparkleChildren]
      | some cake =>
        simp [fire, createSparkles_some env 40 s c cake h hk, Outcome.ok, sparkleChildren]
  | confettiBatch =>
    cases h : s.confettiContainer with
    | none => simp [fire, createConfetti_none env 60 s h, Outcome.throw]
    | some c => simp [fire, createConfetti_some env 60 s c h, Outcome.ok, sparkleChildren]
  | removeSparkle el =>
    simp only [fire, removeSparkleCallback, sparkleChildren]
    cases h : s.sparkleContainer with
    | none => simp [Outcome.ok, h]
    | some children =>
      by_cases hany : children.any (fun p => p.id == el) = true
      · simp [hany, Outcome.ok]
      · simp only [hany, Outcome.ok, h, Option.getD_some]
        rw [filter_id_ne_of_absent]
        · simp [h]
        · intro p hp hpe
          exact hany (List.any_eq_true.2 ⟨p, hp, by simp [hpe]⟩)
  | removeConfetti el =>
    simp only [fire, removeConfettiCallback, sparkleChildren]
    split
    · rfl
    · split <;> rfl
  | cakeSplit =>
    simp only [fire, cakeSplitCallback]
    repeat (first | rfl | split)
  | _ =>
    simp only [fire]
    split <;> rfl

theorem turn_confettiChildren (env : Env) (tm : Timer) (rest : List Timer) (s : Scene) :
    confettiChildren (turn env tm rest s) =
      match tm.action with
      | Action.confettiBatch =>
        if s.confettiContainer.isSome then confettiOf env s.nextId s.randomCalls 60 else []
      | Action.removeConfetti el => (confettiChildren s).filter (fun p => p.id != el)
      | _ => confettiChildren s := by
  have h := fire_confettiChildren env tm.action
    { s with timers := rest, now := max s.now tm.due }
  simp only [turn]
  split <;> simpa [confettiChildren] using h

theorem turn_sparkleChildren (env : Env) (tm : Timer) (rest : List Timer) (s : Scene) :
    sparkleChildren (turn env tm rest s) =
      match tm.action with
      | Action.sparkleBatch =>
        match s.sparkleContainer, s.cakeOriginal with
        | some _, some cake =>
          sparklesOf env (centerX env cake) (centerY env cake) 40 s.nextId s.randomCalls 40
        | _, _ => []
      | Action.removeSparkle el => (sparkleChildren s).filter (fun p => p.id != el)
      | _ => sparkleChildren s := by
  have h := fire_sparkleChildren env tm.action
    { s with timers := rest, now := max s.now tm.due }
  simp only [turn]
  split <;> simpa [sparkleChildren] using h

/-- A child of a container whose batch callback `B` is not pending stays until its removal
callback `cb p.id`, due at `T`, fires, and is gone afterwards. -/
theorem lifetime_generic (env : Env) (children : Scene → List Particle) (B : Action)
    (cb : Nat → Action)
    (hB : ∀ el, B ≠ Action.removeConfetti el ∧ B ≠ Action.removeSparkle el)
    (h_other : ∀ tm rest s, tm.action ≠ B → (∀ el, tm.action ≠ cb el) →
      children (turn env tm rest s) = children s)
    (h_remove : ∀ el tm rest s, tm.action = cb el →
      children (turn env tm rest s) = (children s).filter (fun p => p.id != el))
    (h_spawn : ∀ a u x el, x ∈ spawned env a u → x.action = cb el → a = B)
    (hnow : ∀ (s : Scene) (u : ℚ), children { s with now := u } = children s)
    (s : Scene) (p : Particle) (T : ℚ) (hp : p ∈ children s)
    (hnoB : ∀ x ∈ s.timers, x.action ≠ B)
    (hdue : ∀ x ∈ s.timers, x.action = cb p.id → x.due = T)
    (hex : ∃ x ∈ s.timers, x.action = cb p.id) (t : ℚ) :
    (t < T → p ∈ children (advance env t s)) ∧ (T ≤ t → p ∉ children (advance env t s)) := by
  have hspB : ∀ a u x, x ∈ spawned env a u → x.action ≠ B := by
    intro a u x hx hxa
    rcases spawned_action env a u x hx with ⟨_, el, he⟩ | ⟨_, el, he⟩
    · exact (hB el).1 (hxa ▸ he)
    · exact (hB el).2 (hxa ▸ he)
  have hnoB_turn : ∀ (u : Scene) (tm : Timer) (rest : List Timer),
      (∀ x ∈ u.timers, x.action ≠ B) → popEarliest u.timers = some (tm, rest) →
      ∀ x ∈ (turn env tm rest u).timers, x.action ≠ B := by
    intro u tm rest hu hpop x hx
    rw [turn_timers] at hx
    rcases List.mem_append.1 hx with hx | hx
    · exact hu x (popEarliest_rest_subset hpop x hx)
    · exact hspB _ _ x hx
  constructor
  · intro ht
    have h := advanceFuel_invariant env t
      (fun u => p ∈ children u ∧ (∀ x ∈ u.timers, x.action ≠ B) ∧
        ∀ x ∈ u.timers, x.action = cb p.id → x.due = T)
      (fun u tm rest hu hpop hle => by
        have hneB : tm.action ≠ B := hu.2.1 tm (popEarliest_mem hpop)
        have hnep : tm.action ≠ cb p.id := by
          intro ha
          have := hu.2.2 tm (popEarliest_mem hpop) ha
          rw [this] at hle
          exact absurd ht (not_lt.2 hle)
        refine ⟨?_, hnoB_turn u tm rest hu.2.1 hpop, ?_⟩
        · by_cases hcb : ∃ el, tm.action = cb el
          · obtain ⟨el, hel⟩ := hcb
            rw [h_remove el tm rest u hel, List.mem_filter]
            refine ⟨hu.1, ?_⟩
            have : p.id ≠ el := fun he => hnep (he ▸ hel)
            simpa using this
          · rw [h_other tm rest u hneB (fun el hel => hcb ⟨el, hel⟩)]
            exact hu.1
        · intro x hx hxa
          rw [turn_timers] at hx
          rcases List.mem_append.1 hx with hx | hx
          · exact hu.2.2 x (popEarliest_rest_subset hpop x hx) hxa
          · exact absurd (h_spawn _ _ x p.id hx hxa) hneB)
      (timersWeight s.timers) s ⟨hp, hnoB, hdue⟩
    simp only [advance, hnow]
    exact h.1
  · intro ht
    have h := advanceFuel_invariant env t
      (fun u => (∀ x ∈ u.timers, x.action ≠ B) ∧
        ((∀ q ∈ children u, q.id ≠ p.id) ∨ ∃ x ∈ u.timers, x.action = cb p.id ∧ x.due = T))
      (fun u tm rest hu hpop _ => by
        have hneB : tm.action ≠ B := hu.1 tm (popEarliest_mem hpop)
        have hsub : ∀ q ∈ children (turn env tm rest u), q ∈ children u := by
          intro q hq
          by_cases hcb : ∃ el, tm.action = cb el
          · obtain ⟨el, hel⟩ := hcb
            rw [h_remove el tm rest u hel] at hq
            exact (List.mem_filter.1 hq).1
          · rw [h_other tm rest u hneB (fun el hel => hcb ⟨el, hel⟩)] at hq
            exact hq
        refine ⟨hnoB_turn u tm rest hu.1 hpop, ?_⟩
        rcases hu.2 with hgone | ⟨x, hx, hxa, hxd⟩
        · exact Or.inl (fun q hq => hgone q (hsub q hq))
        · rcases popEarliest_mem_cases hpop hx with rfl | hx
          · left
            intro q hq
            rw [h_remove p.id x rest u hxa] at hq
            simpa using (List.mem_filter.1 hq).2
          · right
            refine ⟨x, ?_, hxa, hxd⟩
            rw [turn_timers]
            exact List.mem_append_left _ hx)
      (timersWeight s.timers) s
      ⟨hnoB, Or.inr (by
        obtain ⟨x, hx, hxa⟩ := hex
        exact ⟨x, hx, hxa, hdue x hx hxa⟩)⟩
    simp only [advance, hnow]
    rcases h.2 with hgone | ⟨x, hx, _, hxd⟩
    · exact fun hmem => hgone p hmem rfl
    · have := advanceFuel_noDue env t _ s (le_refl _) x hx
      rw [hxd] at this
      exact absurd ht (not_le.2 this)

theorem confettiOf_eq_of_id {env : Env} {id0 r0 n : Nat} {p q : Particle}
    (hp : p ∈ confettiOf env id0 r0 n) (hq : q ∈ confettiOf env id0 r0 n)
    (h : q.id = p.id) : q = p := by
  obtain ⟨i, _, rfl⟩ := mem_confettiOf.1 hp
  obtain ⟨j, _, rfl⟩ := mem_confettiOf.1 hq
  simp only [newConfetti_id] at h
  have : j = i := by omega
  rw [this]

theorem sparklesOf_eq_of_id {env : Env} {cx cy : ℚ} {count id0 r0 n : Nat} {p q : Particle}
    (hp : p ∈ sparklesOf env cx cy count id0 r0 n)
    (hq : q ∈ sparklesOf env cx cy count id0 r0 n) (h : q.id = p.id) : q = p := by
  obtain ⟨i, _, rfl⟩ := mem_sparklesOf.1 hp
  obtain ⟨j, _, rfl⟩ := mem_sparklesOf.1 hq
  simp only [newSparkle_id] at h
  have : j = i := by omega
  rw [this]

theorem confetti_lifetime_turns (env : Env) :
    (∀ tm rest s, tm.action ≠ Action.confettiBatch →
      (∀ el, tm.action ≠ Action.removeConfetti el) →
      confettiChildren (turn env tm rest s) = confettiChildren s) ∧
    (∀ el tm rest s, tm.action = Action.removeConfetti el →
      confettiChildren (turn env tm rest s)
        = (confettiChildren s).filter (fun p => p.id != el)) ∧
    (∀ a u x el, x ∈ spawned env a u → x.action = Action.removeConfetti el →
      a = Action.confettiBatch) := by
  refine ⟨?_, ?_, ?_⟩
  · intro tm rest s h1 h2
    rw [turn_confettiChildren]
    cases h : tm.action <;> simp_all
  · intro el tm rest s h
    rw [turn_confettiChildren, h]
  · intro a u x el hx hxa
    rcases spawned_action env a u x hx with ⟨h, _⟩ | ⟨_, el2, he⟩
    · exact h
    · rw [he] at hxa
      cases hxa

theorem sparkle_lifetime_turns (env : Env) :
    (∀ tm rest s, tm.action ≠ Action.sparkleBatch →
      (∀ el, tm.action ≠ Action.removeSparkle el) →
      sparkleChildren (turn env tm rest s) = sparkleChildren s) ∧
    (∀ el tm rest s, tm.action = Action.removeSparkle el →
      sparkleChildren (turn env tm rest s)
        = (sparkleChildren s).filter (fun p => p.id != el)) ∧
    (∀ a u x el, x ∈ spawned env a u → x.action = Action.removeSparkle el →
      a = Action.sparkleBatch) := by
  refine ⟨?_, ?_, ?_⟩
  · intro tm rest s h1 h2
    rw [turn_sparkleChildren]
    cases h : tm.action <;> simp_all
  · intro el tm rest s h
    rw [turn_sparkleChildren, h]
  · intro a u x el hx hxa
    rcases spawned_action env a u x hx with ⟨_, el2, he⟩ | ⟨h, _⟩
    · rw [he] at hxa
      cases hxa
    · exact h

theorem confetti_lifetime (env : Env) (count : Nat) (s : Scene) (c : List Particle)
    (hc : s.confettiContainer = some c)
    (hpend : ∀ x ∈ s.timers, x.action ≠ Action.confettiBatch ∧
      ∀ el, x.action = Action.removeConfetti el → el < s.nextId) :
    (createConfetti env count s).scene.timers = s.timers ++
      (confettiChildren (createConfetti env count s).scene).map (fun p =>
        (⟨s.now + timerDelay (fl (fl (p.animationDuration + p.animationDelay) * 1000)),
          Action.removeConfetti p.id⟩ : Timer)) ∧
    ((confettiChildren (createConfetti env count s).scene).map (fun p => p.id)).Nodup ∧
    ∀ p ∈ confettiChildren (createConfetti env count s).scene, ∀ t,
      (t < s.now + timerDelay (fl (fl (p.animationDuration + p.animationDelay) * 1000)) →
        p ∈ confettiChildren (advance env t (createConfetti env count s).scene)) ∧
      (s.now + timerDelay (fl (fl (p.animationDuration + p.animationDelay) * 1000)) ≤ t →
        p ∉ confettiChildren (advance env t (createConfetti env count s).scene)) := by
  have e1 := createConfetti_some env count s c hc
  have hch : confettiChildren (createConfetti env count s).scene = confettiOf env s.nextId s.randomCalls count := by
    rw [e1]; rfl
  have htm : (createConfetti env count s).scene.timers = s.timers ++
      (confettiOf env s.nextId s.randomCalls count).map (fun p =>
        (⟨s.now + timerDelay (fl (fl (p.animationDuration + p.animationDelay) * 1000)),
          Action.removeConfetti p.id⟩ : Timer)) := by
    rw [e1]; rfl
  rw [hch]
  refine ⟨htm, ?_, ?_⟩
  · rw [confettiOf_ids]
    exact nodup_range_shift _ _
  · intro p hp t
    obtain ⟨h1, h2, h3⟩ := confetti_lifetime_turns env
    refine lifetime_generic env confettiChildren Action.confettiBatch Action.removeConfetti
      (fun _ => ⟨by simp, by simp⟩) h1 h2 h3 (fun _ _ => rfl) _ p _ ?_ ?_ ?_ ?_ t
    · rw [hch]; exact hp
    · rw [htm]
      intro x hx
      rcases List.mem_append.1 hx with hx | hx
      · exact (hpend x hx).1
      · obtain ⟨q, _, rfl⟩ := List.mem_map.1 hx
        simp
    · rw [htm]
      intro x hx hxa
      rcases List.mem_append.1 hx with hx | hx
      · have h4 := (hpend x hx).2 p.id hxa
        have h5 := confettiOf_id_range hp
        omega
      · obtain ⟨q, hq, rfl⟩ := List.mem_map.1 hx
        simp only [Action.removeConfetti.injEq] at hxa
        rw [confettiOf_eq_of_id hp hq hxa]
    · rw [htm]
      exact ⟨_, List.mem_append_right _ (List.mem_map.2 ⟨p, hp, rfl⟩), rfl⟩

/-- The host truncates the `timeout` argument of a confetti removal to whole milliseconds. -/
theorem confetti_truncation (env : Env) (count : Nat) (s : Scene) (c : List Particle)
    (hc : s.confettiContainer = some c)
    (hr : ∀ k, 0 ≤ env.random k ∧ env.random k < 1) :
    ∀ p ∈ confettiChildren (createConfetti env count s).scene,
      timerDelay (fl (fl (p.animationDuration + p.animationDelay) * 1000))
        = (⌊fl (fl (p.animationDuration + p.animationDelay) * 1000)⌋ : ℚ) ∧
      timerDelay (fl (fl (p.animationDuration + p.animationDelay) * 1000))
        ≤ fl (fl (p.animationDuration + p.animationDelay) * 1000) ∧
      fl (fl (p.animationDuration + p.animationDelay) * 1000) - 1
        < timerDelay (fl (fl (p.animationDuration + p.animationDelay) * 1000)) ∧
      2000 ≤ timerDelay (fl (fl (p.animationDuration + p.animationDelay) * 1000)) ∧
      timerDelay (fl (fl (p.animationDuration + p.animationDelay) * 1000)) ≤ 4000 := by
  intro p hp
  have e1 := createConfetti_some env count s c hc
  have hch : confettiChildren (createConfetti env count s).scene = confettiOf env s.nextId s.randomCalls count := by
    rw [e1]; rfl
  rw [hch] at hp
  obtain ⟨i, _, rfl⟩ := mem_confettiOf.1 hp
  have h := confetti_timer env (s.nextId + i) (s.randomCalls + 5 * i) hr
  exact ⟨h.1, h.2.2.2.1, h.2.2.2.2, h.2.1, h.2.2.1⟩

theorem sparkle_lifetime (env : Env) (count : Nat) (s : Scene) (c : List Particle) (cake : Element)
    (hc : s.sparkleContainer = some c) (hk : s.cakeOriginal = some cake)
    (hpend : ∀ x ∈ s.timers, x.action ≠ Action.sparkleBatch ∧
      ∀ el, x.action = Action.removeSparkle el → el < s.nextId) :
    (createSparkles env count s).scene.timers = s.timers ++
      (sparkleChildren (createSparkles env count s).scene).map (fun p =>
        (⟨s.now + timerDelay (fl (fl (p.animationDuration + p.animationDelay) * 1000)),
          Action.removeSparkle p.id⟩ : Timer)) ∧
    ((sparkleChildren (createSparkles env count s).scene).map (fun p => p.id)).Nodup ∧
    ∀ p ∈ sparkleChildren (createSparkles env count s).scene, ∀ t,
      (t < s.now + timerDelay (fl (fl (p.animationDuration + p.animationDelay) * 1000)) →
        p ∈ sparkleChildren (advance env t (createSparkles env count s).scene)) ∧
      (s.now + timerDelay (fl (fl (p.animationDuration + p.animationDelay) * 1000)) ≤ t →
        p ∉ sparkleChildren (advance env t (createSparkles env count s).scene)) := by
  have e1 := createSparkles_some env count s c cake hc hk
  have hch : sparkleChildren (createSparkles env count s).scene = sparklesOf env (centerX env cake) (centerY env cake) count s.nextId s.randomCalls count := by
    rw [e1]; rfl
  have htm : (createSparkles env count s).scene.timers = s.timers ++
      (sparklesOf env (centerX env cake) (centerY env cake) count s.nextId s.randomCalls count).map (fun p =>
        (⟨s.now + timerDelay (fl (fl (p.animationDuration + p.animationDelay) * 1000)),
          Action.removeSparkle p.id⟩ : Timer)) := by
    rw [e1]; rfl
  rw [hch]
  refine ⟨htm, ?_, ?_⟩
  · rw [sparklesOf_ids]
    exact nodup_range_shift _ _
  · intro p hp t
    obtain ⟨h1, h2, h3⟩ := sparkle_lifetime_turns env
    refine lifetime_generic env sparkleChildren Action.sparkleBatch Action.removeSparkle
      (fun _ => ⟨by simp, by simp⟩) h1 h2 h3 (fun _ _ => rfl) _ p _ ?_ ?_ ?_ ?_ t
    · rw [hch]; exact hp
    · rw [htm]
      intro x hx
      rcases List.mem_append.1 hx with hx | hx
      · exact (hpend x hx).1
      · obtain ⟨q, _, rfl⟩ := List.mem_map.1 hx
        simp
    · rw [htm]
      intro x hx hxa
      rcases List.mem_append.1 hx with hx | hx
      · have h4 := (hpend x hx).2 p.id hxa
        have h5 := sparklesOf_id_range hp
        omega
      · obtain ⟨q, hq, rfl⟩ := List.mem_map.1 hx
        simp only [Action.removeSparkle.injEq] at hxa
        rw [sparklesOf_eq_of_id hp hq hxa]
    · rw [htm]
      exact ⟨_, List.mem_append_right _ (List.mem_map.2 ⟨p, hp, rfl⟩), rfl⟩

/-- The host truncates the `timeout` argument of a sparkle removal to whole milliseconds. -/
theorem sparkle_truncation (env : Env) (count : Nat) (s : Scene) (c : List Particle) (cake : Element)
    (hc : s.sparkleContainer = some c) (hk : s.cakeOriginal = some cake)
    (hr : ∀ k, 0 ≤ env.random k ∧ env.random k < 1) :
    ∀ p ∈ sparkleChildren (createSparkles env count s).scene,
      timerDelay (fl (fl (p.animationDuration + p.animationDelay) * 1000))
        = (⌊fl (fl (p.animationDuration + p.animationDelay) * 1000)⌋ : ℚ) ∧
      timerDelay (fl (fl (p.animationDuration + p.animationDelay) * 1000))
        ≤ fl (fl (p.animationDuration + p.animationDelay) * 1000) ∧
      fl (fl (p.animationDuration + p.animationDelay) * 1000) - 1
        < timerDelay (fl (fl (p.animationDuration + p.animationDelay) * 1000)) ∧
      1000 ≤ timerDelay (fl (fl (p.animationDuration + p.animationDelay) * 1000)) ∧
      timerDelay (fl (fl (p.animationDuration + p.animationDelay) * 1000)) ≤ 3000 := by
  intro p hp
  have e1 := createSparkles_some env count s c cake hc hk
  have hch : sparkleChildren (createSparkles env count s).scene = sparklesOf env (centerX env cake) (centerY env cake) count s.nextId s.randomCalls count := by
    rw [e1]; rfl
  rw [hch] at hp
  obtain ⟨i, _, rfl⟩ := mem_sparklesOf.1 hp
  have h := sparkle_timer env (centerX env cake) (centerY env cake) count i (s.nextId + i) (s.randomCalls + 3 * i) hr
  exact ⟨h.1, h.2.2.2.1, h.2.2.2.2, h.2.1, h.2.2.1⟩

/-- C5 as stated fails.  With the draws 0, 1/8, 2/8, ... the first particle of
`createConfetti(3)` has delay 0.125 s and duration 2.5625 s, so `(d + u) * 1000` is 2687.5; the
host truncates the `timeout` argument to 2687 ms, and at 2687.25 ms after creation, before
`d + u` has elapsed, the particle is no longer in the container. -/
theorem confetti_removed_before_lifetime :
    (∀ x ∈ loadedScene.timers, x.action ≠ Action.confettiBatch ∧
      ∀ el, x.action = Action.removeConfetti el → el < loadedScene.nextId) ∧
    ∃ p ∈ confettiChildren (createConfetti eighthsEnv 3 loadedScene).scene,
      p.animationDelay = 1 / 8 ∧ p.animationDuration = 41 / 16 ∧
      (2687 + 1 / 4 : ℚ) < loadedScene.now + (p.animationDelay + p.animationDuration) * 1000 ∧
      p ∉ confettiChildren
        (advance eighthsEnv (2687 + 1 / 4) (createConfetti eighthsEnv 3 loadedScene).scene) := by
  have hpend : ∀ x ∈ loadedScene.timers, x.action ≠ Action.confettiBatch ∧
      ∀ el, x.action = Action.removeConfetti el → el < loadedScene.nextId :=
    fun x hx => absurd hx (List.not_mem_nil x)
  have hnow : loadedScene.now = 0 := rfl
  have hdelay : (newConfetti eighthsEnv 0 0).animationDelay = 1 / 8 := by
    have := fl_dyadic 1 (-3) (by norm_num) (by norm_num)
    norm_num [newConfetti, eighthsEnv] at this ⊢
    exact this
  have hdur : (newConfetti eighthsEnv 0 0).animationDuration = 41 / 16 := by
    have h1 := fl_dyadic 9 (-4) (by norm_num) (by norm_num)
    have h2 := fl_dyadic 41 (-4) (by norm_num) (by norm_num)
    norm_num at h1 h2
    norm_num [newConfetti, eighthsEnv, h1, h2]
  have hmem : newConfetti eighthsEnv 0 0
      ∈ confettiChildren (createConfetti eighthsEnv 3 loadedScene).scene := by
    rw [createConfetti_some eighthsEnv 3 loadedScene [] rfl]
    simp only [Outcome.ok, confettiChildren, Option.getD_some]
    exact mem_confettiOf.2 ⟨0, by norm_num, rfl⟩
  have harg : fl (fl ((newConfetti eighthsEnv 0 0).animationDuration
      + (newConfetti eighthsEnv 0 0).animationDelay) * 1000) = 5375 / 2 := by
    have h1 := fl_dyadic 43 (-4) (by norm_num) (by norm_num)
    have h2 := fl_dyadic 5375 (-1) (by norm_num) (by norm_num)
    norm_num at h1 h2
    rw [hdelay, hdur]
    norm_num [h1, h2]
  have hT : timerDelay (5375 / 2) = 2687 := by
    rw [timerDelay_of_range (by norm_num) (by norm_num)]
    have : ⌊(5375 / 2 : ℚ)⌋ = 2687 := Int.floor_eq_iff.2 ⟨by norm_num, by norm_num⟩
    rw [this]
    norm_num
  refine ⟨hpend, newConfetti eighthsEnv 0 0, hmem, hdelay, hdur, ?_, ?_⟩
  · rw [hnow, hdelay, hdur]
    norm_num
  · refine ((confetti_lifetime eighthsEnv 3 loadedScene [] rfl hpend).2.2 _ hmem
      (2687 + 1 / 4)).2 ?_
    rw [hnow, harg, hT]
    norm_num

/-- C5 amended: every particle created by a generator gets exactly one removal timer,
registered at creation.  Its `timeout` argument is `(u + d) * 1000` in double arithmetic (`d`
the delay, `u` the duration of the particle, in seconds); the host truncates it to a whole
number `T` of milliseconds, less than one millisecond below the argument.  When no batch of the
same kind is pending, the particle is a child of its container at every time before
`creation + T` and at no time from `creation + T` on. -/
theorem particle_lifetime (env : Env) (count : Nat) (s : Scene) :
    (∀ c, s.confettiContainer = some c →
      (∀ x ∈ s.timers, x.action ≠ Action.confettiBatch ∧
        ∀ el, x.action = Action.removeConfetti el → el < s.nextId) →
      (createConfetti env count s).scene.timers = s.timers ++
        (confettiChildren (createConfetti env count s).scene).map (fun p =>
          (⟨s.now + timerDelay (fl (fl (p.animationDuration + p.animationDelay) * 1000)),
            Action.removeConfetti p.id⟩ : Timer)) ∧
      ((confettiChildren (createConfetti env count s).scene).map (fun p => p.id)).Nodup ∧
      ((∀ k, 0 ≤ env.random k ∧ env.random k < 1) →
        ∀ p ∈ confettiChildren (createConfetti env count s).scene,
          timerDelay (fl (fl (p.animationDuration + p.animationDelay) * 1000))
            = (⌊fl (fl (p.animationDuration + p.animationDelay) * 1000)⌋ : ℚ) ∧
          timerDelay (fl (fl (p.animationDuration + p.animationDelay) * 1000))
            ≤ fl (fl (p.animationDuration + p.animationDelay) * 1000) ∧
          fl (fl (p.animationDuration + p.animationDelay) * 1000) - 1
            < timerDelay (fl (fl (p.animationDuration + p.animationDelay) * 1000))) ∧
      ∀ p ∈ confettiChildren (createConfetti env count s).scene, ∀ t,
        (t < s.now + timerDelay (fl (fl (p.animationDuration + p.animationDelay) * 1000)) →
          p ∈ confettiChildren (advance env t (createConfetti env count s).scene)) ∧
        (s.now + timerDelay (fl (fl (p.animationDuration + p.animationDelay) * 1000)) ≤ t →
          p ∉ confettiChildren (advance env t (createConfetti env count s).scene))) ∧
    (∀ c cake, s.sparkleContainer = some c → s.cakeOriginal = some cake →
      (∀ x ∈ s.timers, x.action ≠ Action.sparkleBatch ∧
        ∀ el, x.action = Action.removeSparkle el → el < s.nextId) →
      (createSparkles env count s).scene.timers = s.timers ++
        (sparkleChildren (createSparkles env count s).scene).map (fun p =>
          (⟨s.now + timerDelay (fl (fl (p.animationDuration + p.animationDelay) * 1000)),
            Action.removeSparkle p.id⟩ : Timer)) ∧
      ((sparkleChildren (createSparkles env count s).scene).map (fun p => p.id)).Nodup ∧
      ((∀ k, 0 ≤ env.random k ∧ env.random k < 1) →
        ∀ p ∈ sparkleChildren (createSparkles env count s).scene,
          timerDelay (fl (fl (p.animationDuration + p.animationDelay) * 1000))
            = (⌊fl (fl (p.animationDuration + p.animationDelay) * 1000)⌋ : ℚ) ∧
          timerDelay (fl (fl (p.animationDuration + p.animationDelay) * 1000))
            ≤ fl (fl (p.animationDuration + p.animationDelay) * 1000) ∧
          fl (fl (p.animationDuration + p.animationDelay) * 1000) - 1
            < timerDelay (fl (fl (p.animationDuration + p.animationDelay) * 1000))) ∧
      ∀ p ∈ sparkleChildren (createSparkles env count s).scene, ∀ t,
        (t < s.now + timerDelay (fl (fl (p.animationDuration + p.animationDelay) * 1000)) →
          p ∈ sparkleChildren (advance env t (createSparkles env count s).scene)) ∧
        (s.now + timerDelay (fl (fl (p.animationDuration + p.animationDelay) * 1000)) ≤ t →
          p ∉ sparkleChildren (advance env t (createSparkles env count s).scene))) := by
  constructor
  · intro c hc hpend
    have h := confetti_lifetime env count s c hc hpend
    exact ⟨h.1, h.2.1, fun hr p hp =>
      ⟨(confetti_truncation env count s c hc hr p hp).1,
        (confetti_truncation env count s c hc hr p hp).2.1,
        (confetti_truncation env count s c hc hr p hp).2.2.1⟩, h.2.2⟩
  · intro c cake hc hk hpend
    have h := sparkle_lifetime env count s c cake hc hk hpend
    exact ⟨h.1, h.2.1, fun hr p hp =>
      ⟨(sparkle_truncation env count s c cake hc hk hr p hp).1,
        (sparkle_truncation env count s c cake hc hk hr p hp).2.1,
        (sparkle_truncation env count s c cake hc hk hr p hp).2.2.1⟩, h.2.2⟩

theorem particle_lifetime_witness :
    loadedScene.confettiContainer = some [] ∧
    (∀ x ∈ loadedScene.timers, x.action ≠ Action.confettiBatch ∧
      ∀ el, x.action = Action.removeConfetti el → el < loadedScene.nextId) ∧
    (∀ p ∈ confettiChildren (createConfetti sampleEnv 60 loadedScene).scene, ∀ t,
      (t < loadedScene.now
          + timerDelay (fl (fl (p.animationDuration + p.animationDelay) * 1000)) →
        p ∈ confettiChildren (advance sampleEnv t (createConfetti sampleEnv 60 loadedScene).scene)) ∧
      (loadedScene.now
          + timerDelay (fl (fl (p.animationDuration + p.animationDelay) * 1000)) ≤ t →
        p ∉ confettiChildren
          (advance sampleEnv t (createConfetti sampleEnv 60 loadedScene).scene))) :=
  have hpend : ∀ x ∈ loadedScene.timers, x.action ≠ Action.confettiBatch ∧
      ∀ el, x.action = Action.removeConfetti el → el < loadedScene.nextId :=
    fun x hx => absurd hx (List.not_mem_nil x)
  ⟨rfl, hpend, ((particle_lifetime sampleEnv 60 loadedScene).1 [] rfl hpend).2.2.2⟩

/-! ## The confetti batch outlives the creation of the sparkle batch -/

theorem fire_confettiContainer_isSome (env : Env) (a : Action) (s : Scene) :
    (fire env a s).scene.confettiContainer.isSome = s.confettiContainer.isSome := by
  cases a <;>
    simp only [fire, cakeSplitCallback, removeConfettiCallback, removeSparkleCallback,
      createConfetti, createSparkles, confetti_loop, sparkle_loop] <;>
    repeat (first | rfl | split | simp_all [Outcome.ok, Outcome.throw])

theorem fire_sparkleContainer_isSome (env : Env) (a : Action) (s : Scene) :
    (fire env a s).scene.sparkleContainer.isSome = s.sparkleContainer.isSome := by
  cases a <;>
    simp only [fire, cakeSplitCallback, removeConfettiCallback, removeSparkleCallback,
      createConfetti, createSparkles, confetti_loop, sparkle_loop] <;>
    repeat (first | rfl | split | simp_all [Outcome.ok, Outcome.throw])

theorem fire_cakeOriginal_isSome (env : Env) (a : Action) (s : Scene) :
    (fire env a s).scene.cakeOriginal.isSome = s.cakeOriginal.isSome := by
  rw [fire_cakeOriginal]
  cases a <;> cases s.cakeOriginal <;> rfl

theorem fire_randomCalls (env : Env) (a : Action) (s : Scene) :
    (fire env a s).scene.randomCalls =
      match a with
      | Action.confettiBatch =>
        if s.confettiContainer.isSome then s.randomCalls + 5 * 60 else s.randomCalls
      | Action.sparkleBatch =>
        if s.sparkleContainer.isSome ∧ s.cakeOriginal.isSome then s.randomCalls + 3 * 40
        else s.randomCalls
      | _ => s.randomCalls := by
  cases a <;>
    simp only [fire, cakeSplitCallback, removeConfettiCallback, removeSparkleCallback,
      createConfetti, createSparkles, confetti_loop, sparkle_loop] <;>
    repeat (first | rfl | split | simp_all [Outcome.ok, Outcome.throw])

theorem popEarliest_head (x : Timer) (xs : List Timer) (h : ∀ y ∈ xs, x.due ≤ y.due) :
    popEarliest (x :: xs) = some (x, xs) := by
  simp only [popEarliest]
  split
  · rename_i hn
    rw [popEarliest_eq_none.1 hn]
  · rename_i y rest hy
    have := h y (popEarliest_mem hy)
    rw [if_neg (not_lt.2 this)]

theorem advanceFuel_step (env : Env) (t : ℚ) (fuel : Nat) (u : Scene) (x : Timer)
    (xs : List Timer) (hu : u.timers = x :: xs) (hmin : ∀ y ∈ xs, x.due ≤ y.due)
    (hd : x.due ≤ t) :
    advanceFuel env t (fuel + 1) u = advanceFuel env t fuel (turn env x xs u) := by
  simp only [advanceFuel, hu, popEarliest_head x xs hmin, if_pos hd]

/-- While no batch `B` is pending and no removal `cb` is due, the children do not change. -/
theorem frozen_generic (env : Env) (children : Scene → List Particle) (B : Action)
    (cb : Nat → Action)
    (hB : ∀ el, B ≠ Action.removeConfetti el ∧ B ≠ Action.removeSparkle el)
    (h_other : ∀ tm rest s, tm.action ≠ B → (∀ el, tm.action ≠ cb el) →
      children (turn env tm rest s) = children s)
    (h_spawn : ∀ a u x el, x ∈ spawned env a u → x.action = cb el → a = B)
    (t : ℚ) (fuel : Nat) (u : Scene)
    (hnoB : ∀ x ∈ u.timers, x.action ≠ B)
    (hlate : ∀ x ∈ u.timers, ∀ el, x.action = cb el → t < x.due) :
    children (advanceFuel env t fuel u) = children u := by
  have h := advanceFuel_invariant env t
    (fun v => children v = children u ∧ (∀ x ∈ v.timers, x.action ≠ B) ∧
      ∀ x ∈ v.timers, ∀ el, x.action = cb el → t < x.due)
    (fun v tm rest hv hpop hle => by
      have hneB : tm.action ≠ B := hv.2.1 tm (popEarliest_mem hpop)
      have hncb : ∀ el, tm.action ≠ cb el := fun el hel =>
        absurd (hv.2.2 tm (popEarliest_mem hpop) el hel) (not_lt.2 hle)
      refine ⟨?_, ?_, ?_⟩
      · rw [h_other tm rest v hneB hncb]
        exact hv.1
      · intro x hx
        rw [turn_timers] at hx
        rcases List.mem_append.1 hx with hx | hx
        · exact hv.2.1 x (popEarliest_rest_subset hpop x hx)
        · intro hxa
          rcases spawned_action env _ _ x hx with ⟨_, el, he⟩ | ⟨_, el, he⟩
          · exact (hB el).1 (hxa ▸ he)
          · exact (hB el).2 (hxa ▸ he)
      · intro x hx el hxa
        rw [turn_timers] at hx
        rcases List.mem_append.1 hx with hx | hx
        · exact hv.2.2 x (popEarliest_rest_subset hpop x hx) el hxa
        · exact absurd (h_spawn _ _ x el hx hxa) hneB)
    fuel u ⟨rfl, hnoB, hlate⟩
  exact h.1

theorem spawned_quiet (env : Env) (a : Action) (u : Scene)
    (h1 : a ≠ Action.confettiBatch) (h2 : a ≠ Action.sparkleBatch) : spawned env a u = [] := by
  cases a <;> simp_all [spawned]

theorem turn_eq (env : Env) (tm : Timer) (rest : List Timer) (s : Scene) :
    ∃ errs, turn env tm rest s =
      { (fire env tm.action { s with timers := rest, now := max s.now tm.due }).scene with
        uncaught := errs } := by
  simp only [turn]
  split
  · exact ⟨_, rfl⟩
  · exact ⟨_, rfl⟩

theorem turn_present (env : Env) (tm : Timer) (rest : List Timer) (s : Scene) :
    (turn env tm rest s).confettiContainer.isSome = s.confettiContainer.isSome ∧
    (turn env tm rest s).sparkleContainer.isSome = s.sparkleContainer.isSome ∧
    (turn env tm rest s).cakeOriginal.isSome = s.cakeOriginal.isSome := by
  obtain ⟨errs, he⟩ := turn_eq env tm rest s
  rw [he]
  exact ⟨fire_confettiContainer_isSome env _ _, fire_sparkleContainer_isSome env _ _,
    fire_cakeOriginal_isSome env _ _⟩

theorem turn_now (env : Env) (tm : Timer) (rest : List Timer) (s : Scene) :
    (turn env tm rest s).now = max s.now tm.due := by
  obtain ⟨errs, he⟩ := turn_eq env tm rest s
  rw [he]
  exact fire_now env _ _

theorem turn_prepared (env : Env) (tm : Timer) (rest : List Timer) (s0 u : Scene)
    (h1 : tm.action ≠ Action.confettiBatch) (h2 : tm.action ≠ Action.sparkleBatch)
    (hu : Prepared s0 u) : Prepared s0 (turn env tm rest u) := by
  obtain ⟨p1, p2, p3⟩ := turn_present env tm rest u
  obtain ⟨errs, he⟩ := turn_eq env tm rest u
  refine ⟨p1.trans hu.1, p2.trans hu.2.1, p3.trans hu.2.2.1, ?_, ?_⟩
  · rw [he]
    show (fire env tm.action _).scene.nextId = s0.nextId
    rw [fire_nextId, ← hu.2.2.2.1]
    cases h : tm.action <;> simp_all
  · rw [he]
    show (fire env tm.action _).scene.randomCalls = s0.randomCalls
    rw [fire_randomCalls, ← hu.2.2.2.2]
    cases h : tm.action <;> simp_all

theorem turn_quiet_timers (env : Env) (tm : Timer) (rest : List Timer) (u : Scene)
    (h1 : tm.action ≠ Action.confettiBatch) (h2 : tm.action ≠ Action.sparkleBatch) :
    (turn env tm rest u).timers = rest := by
  rw [turn_timers, spawned_quiet env _ _ h1 h2, List.append_nil]

theorem sequenceTimers_weight (t0 : ℚ) : timersWeight (sequenceTimers t0) = 107 := by
  simp [timersWeight, sequenceTimers, Action.weight]

/-- The first five turns of a run started on an idle page, up to the confetti batch. -/
theorem run_reaches_confetti (env : Env) (s : Scene) (b : Button) (c1 c2 : List Particle)
    (cake : Element) (hb : s.cutButton = some b) (hc1 : s.confettiContainer = some c1)
    (hc2 : s.sparkleContainer = some c2) (hk : s.cakeOriginal = some cake)
    (hidle : s.timers = []) (t : ℚ) (ht : s.now + 2200 ≤ t) :
    ∃ u now1, advanceFuel env t 107 (runCakeCuttingSequence s).scene = advanceFuel env t 102 u ∧
      confettiChildren u = confettiOf env s.nextId s.randomCalls 60 ∧
      u.sparkleContainer.isSome = true ∧ u.cakeOriginal.isSome = true ∧
      s.now + 2200 ≤ now1 ∧
      u.timers = ⟨s.now + 2500, Action.sparkleBatch⟩ :: ⟨s.now + 3100, Action.message⟩ ::
        (confettiOf env s.nextId s.randomCalls 60).map
          (removalTimer now1 Action.removeConfetti) := by
  have hrun := runCakeCuttingSequence_some s b hb
  have hT0 : (runCakeCuttingSequence s).scene.timers = sequenceTimers s.now := by
    rw [hrun]; simp [Outcome.ok, hidle]
  have hP0 : Prepared s (runCakeCuttingSequence s).scene := by
    rw [hrun]; simp [Prepared, Outcome.ok, hc1, hc2, hk]
  have e1 := advanceFuel_step env t 106 _ _ _ hT0
    (by intro y hy; simp at hy; rcases hy with rfl | rfl | rfl | rfl | rfl | rfl <;> norm_num)
    (show s.now + 300 ≤ t by linarith)
  have hT1 := turn_quiet_timers env ⟨s.now + 300, Action.knifeShow⟩
    [⟨s.now + 600, Action.knifeMove⟩, ⟨s.now + 1500, Action.sliceLine⟩,
      ⟨s.now + 1900, Action.cakeSplit⟩, ⟨s.now + 2200, Action.confettiBatch⟩,
      ⟨s.now + 2500, Action.sparkleBatch⟩, ⟨s.now + 3100, Action.message⟩]
    (runCakeCuttingSequence s).scene (by simp) (by simp)
  have hP1 := turn_prepared env ⟨s.now + 300, Action.knifeShow⟩
    [⟨s.now + 600, Action.knifeMove⟩, ⟨s.now + 1500, Action.sliceLine⟩,
      ⟨s.now + 1900, Action.cakeSplit⟩, ⟨s.now + 2200, Action.confettiBatch⟩,
      ⟨s.now + 2500, Action.sparkleBatch⟩, ⟨s.now + 3100, Action.message⟩]
    s _ (by simp) (by simp) hP0
  have e2 := advanceFuel_step env t 105 _ _ _ hT1
    (by intro y hy; simp at hy; rcases hy with rfl | rfl | rfl | rfl | rfl <;> norm_num)
    (show s.now + 600 ≤ t by linarith)
  have hT2 := turn_quiet_timers env ⟨s.now + 600, Action.knifeMove⟩
    [⟨s.now + 1500, Action.sliceLine⟩,
      ⟨s.now + 1900, Action.cakeSplit⟩, ⟨s.now + 2200, Action.confettiBatch⟩,
      ⟨s.now + 2500, Action.sparkleBatch⟩, ⟨s.now + 3100, Action.message⟩]
    (turn env ⟨s.now + 300, Action.knifeShow⟩
      [⟨s.now + 600, Action.knifeMove⟩, ⟨s.now + 1500, Action.sliceLine⟩,
        ⟨s.now + 1900, Action.cakeSplit⟩, ⟨s.now + 2200, Action.confettiBatch⟩,
        ⟨s.now + 2500, Action.sparkleBatch⟩, ⟨s.now + 3100, Action.message⟩]
      (runCakeCuttingSequence s).scene) (by simp) (by simp)
  have hP2 := turn_prepared env ⟨s.now + 600, Action.knifeMove⟩
    [⟨s.now + 1500, Action.sliceLine⟩,
      ⟨s.now + 1900, Action.cakeSplit⟩, ⟨s.now + 2200, Action.confettiBatch⟩,
      ⟨s.now + 2500, Action.sparkleBatch⟩, ⟨s.now + 3100, Action.message⟩]
    s _ (by simp) (by simp) hP1
  have e3 := advanceFuel_step env t 104 _ _ _ hT2
    (by intro y hy; simp at hy; rcases hy with rfl | rfl | rfl | rfl <;> norm_num)
    (show s.now + 1500 ≤ t by linarith)
  generalize turn env ⟨s.now + 600, Action.knifeMove⟩ _ _ = S2 at hT2 hP2 e2 e3
  have hT3 := turn_quiet_timers env ⟨s.now + 1500, Action.sliceLine⟩
    [⟨s.now + 1900, Action.cakeSplit⟩, ⟨s.now + 2200, Action.confettiBatch⟩,
      ⟨s.now + 2500, Action.sparkleBatch⟩, ⟨s.now + 3100, Action.message⟩]
    S2 (by simp) (by simp)
  have hP3 := turn_prepared env ⟨s.now + 1500, Action.sliceLine⟩
    [⟨s.now + 1900, Action.cakeSplit⟩, ⟨s.now + 2200, Action.confettiBatch⟩,
      ⟨s.now + 2500, Action.sparkleBatch⟩, ⟨s.now + 3100, Action.message⟩]
    s S2 (by simp) (by simp) hP2
  have e4 := advanceFuel_step env t 103 _ _ _ hT3
    (by intro y hy; simp at hy; rcases hy with rfl | rfl | rfl <;> norm_num)
    (show s.now + 1900 ≤ t by linarith)
  generalize turn env ⟨s.now + 1500, Action.sliceLine⟩ _ S2 = S3 at hT3 hP3 e3 e4
  have hT4 := turn_quiet_timers env ⟨s.now + 1900, Action.cakeSplit⟩
    [⟨s.now + 2200, Action.confettiBatch⟩,
      ⟨s.now + 2500, Action.sparkleBatch⟩, ⟨s.now + 3100, Action.message⟩]
    S3 (by simp) (by simp)
  have hP4 := turn_prepared env ⟨s.now + 1900, Action.cakeSplit⟩
    [⟨s.now + 2200, Action.confettiBatch⟩,
      ⟨s.now + 2500, Action.sparkleBatch⟩, ⟨s.now + 3100, Action.message⟩]
    s S3 (by simp) (by simp) hP3
  have e5 := advanceFuel_step env t 102 _ _ _ hT4
    (by intro y hy; simp at hy; rcases hy with rfl | rfl <;> norm_num)
    (show s.now + 2200 ≤ t by linarith)
  generalize turn env ⟨s.now + 1900, Action.cakeSplit⟩ _ S3 = S4 at hT4 hP4 e4 e5
  obtain ⟨c4, hc4⟩ := Option.isSome_iff_exists.1 hP4.1
  refine ⟨turn env ⟨s.now + 2200, Action.confettiBatch⟩
    [⟨s.now + 2500, Action.sparkleBatch⟩, ⟨s.now + 3100, Action.message⟩] S4,
    max S4.now (s.now + 2200), ?_, ?_, ?_, ?_, le_max_right _ _, ?_⟩
  · rw [e1, e2, e3, e4, e5]
  · rw [turn_confettiChildren]
    simp [hP4.1, hP4.2.2.2.1, hP4.2.2.2.2]
  · rw [(turn_present env _ _ S4).2.1]
    exact hP4.2.1
  · rw [(turn_present env _ _ S4).2.2]
    exact hP4.2.2.1
  · rw [turn_timers]
    simp [spawned, hc4, hP4.2.2.2.1, hP4.2.2.2.2]

theorem advance_confettiChildren (env : Env) (t : ℚ) (s : Scene) :
    confettiChildren (advance env t s)
      = confettiChildren (advanceFuel env t (timersWeight s.timers) s) := rfl

theorem advance_sparkleChildren (env : Env) (t : ℚ) (s : Scene) :
    sparkleChildren (advance env t s)
      = sparkleChildren (advanceFuel env t (timersWeight s.timers) s) := rfl

/-- From the confetti batch until two seconds later the confetti container holds the batch. -/
theorem run_confetti_kept (env : Env) (s : Scene) (b : Button) (c1 c2 : List Particle)
    (cake : Element) (hb : s.cutButton = some b) (hc1 : s.confettiContainer = some c1)
    (hc2 : s.sparkleContainer = some c2) (hk : s.cakeOriginal = some cake)
    (hidle : s.timers = []) (hr : ∀ k, 0 ≤ env.random k ∧ env.random k < 1)
    (t : ℚ) (ht : s.now + 2200 ≤ t) (ht2 : t < s.now + 4200) :
    confettiChildren (advance env t (runCakeCuttingSequence s).scene)
      = confettiOf env s.nextId s.randomCalls 60 := by
  obtain ⟨u, now1, e, hch, _, _, hnow1, htm⟩ :=
    run_reaches_confetti env s b c1 c2 cake hb hc1 hc2 hk hidle t ht
  have hw : timersWeight (runCakeCuttingSequence s).scene.timers = 107 := by
    rw [runCakeCuttingSequence_some s b hb]
    simp only [Outcome.ok, hidle, List.nil_append]
    exact sequenceTimers_weight s.now
  obtain ⟨h1, _, h3⟩ := confetti_lifetime_turns env
  rw [advance_confettiChildren, hw, e, ← hch]
  refine frozen_generic env confettiChildren Action.confettiBatch Action.removeConfetti
    (fun _ => ⟨by simp, by simp⟩) h1 h3 t 102 u ?_ ?_
  · rw [htm]
    intro x hx
    simp only [List.mem_cons, List.mem_map] at hx
    rcases hx with rfl | rfl | ⟨p, _, rfl⟩ <;> simp [removalTimer]
  · rw [htm]
    intro x hx el hxa
    simp only [List.mem_cons, List.mem_map] at hx
    rcases hx with rfl | rfl | ⟨p, hp, rfl⟩
    · simp at hxa
    · simp at hxa
    · obtain ⟨i, _, rfl⟩ := mem_confettiOf.1 hp
      have hb2 := confetti_timer env (s.nextId + i) (s.randomCalls + 5 * i) hr
      simp only [removalTimer]
      linarith [hb2.2.1]

/-- Between the sparkle batch and one second later the sparkle container holds forty nodes. -/
theorem run_sparkles_created (env : Env) (s : Scene) (b : Button) (c1 c2 : List Particle)
    (cake : Element) (hb : s.cutButton = some b) (hc1 : s.confettiContainer = some c1)
    (hc2 : s.sparkleContainer = some c2) (hk : s.cakeOriginal = some cake)
    (hidle : s.timers = []) (hr : ∀ k, 0 ≤ env.random k ∧ env.random k < 1)
    (t : ℚ) (ht : s.now + 2500 ≤ t) (ht2 : t < s.now + 3500) :
    (sparkleChildren (advance env t (runCakeCuttingSequence s).scene)).length = 40 := by
  obtain ⟨u, now1, e, _, hsc, hck, hnow1, htm⟩ :=
    run_reaches_confetti env s b c1 c2 cake hb hc1 hc2 hk hidle t (by linarith)
  have hw : timersWeight (runCakeCuttingSequence s).scene.timers = 107 := by
    rw [runCakeCuttingSequence_some s b hb]
    simp only [Outcome.ok, hidle, List.nil_append]
    exact sequenceTimers_weight s.now
  obtain ⟨sc, hsc⟩ := Option.isSome_iff_exists.1 hsc
  obtain ⟨ck, hck⟩ := Option.isSome_iff_exists.1 hck
  have hcdue : ∀ y ∈ (confettiOf env s.nextId s.randomCalls 60).map
      (removalTimer now1 Action.removeConfetti), s.now + 4200 ≤ y.due := by
    intro y hy
    obtain ⟨p, hp, rfl⟩ := List.mem_map.1 hy
    obtain ⟨i, _, rfl⟩ := mem_confettiOf.1 hp
    have hb2 := confetti_timer env (s.nextId + i) (s.randomCalls + 5 * i) hr
    simp only [removalTimer]
    linarith [hb2.2.1]
  have e6 := advanceFuel_step env t 101 u _ _ htm
    (by
      intro y hy
      rcases List.mem_cons.1 hy with rfl | hy
      · show s.now + 2500 ≤ s.now + 3100
        linarith
      · have := hcdue y hy
        show s.now + 2500 ≤ y.due
        linarith)
    (show s.now + 2500 ≤ t from ht)
  obtain ⟨h1, _, h3⟩ := sparkle_lifetime_turns env
  rw [advance_sparkleChildren, hw, e, e6]
  rw [frozen_generic env sparkleChildren Action.sparkleBatch Action.removeSparkle
    (fun _ => ⟨by simp, by simp⟩) h1 h3 t 101 _ ?_ ?_]
  · rw [turn_sparkleChildren]
    simp [hsc, hck, length_sparklesOf]
  · rw [turn_timers]
    intro x hx
    simp only [spawned, hsc, hck, List.mem_append, List.mem_cons, List.mem_map] at hx
    rcases hx with (rfl | ⟨p, _, rfl⟩) | ⟨p, _, rfl⟩ <;> simp [removalTimer]
  · rw [turn_timers]
    intro x hx el hxa
    simp only [spawned, hsc, hck, List.mem_append, List.mem_cons, List.mem_map] at hx
    rcases hx with (rfl | ⟨p, _, rfl⟩) | ⟨p, hp, rfl⟩
    · simp at hxa
    · simp [removalTimer] at hxa
    · obtain ⟨i, _, rfl⟩ := mem_sparklesOf.1 hp
      have hb2 := sparkle_timer env (centerX env ck) (centerY env ck) 40 i
        (u.nextId + i) (u.randomCalls + 3 * i) hr
      have hmax : s.now + 2500 ≤ max u.now (s.now + 2500) := le_max_right _ _
      simp only [removalTimer]
      linarith [hb2.2.1]

/-- C10: `createSparkles` leaves the confetti container as it is and `createConfetti` leaves
the sparkle container as it is, for every count and scene.  In a run started at time `t0` on an
idle page, with draws in `[0,1)`, the sixty confetti nodes in the container at `t0 + 2200` are
exactly the nodes in it at every time up to `t0 + 4200`, in particular at `t0 + 2500`, when the
sparkle container holds its forty nodes. -/
theorem generators_independent (env : Env) (s : Scene) :
    (∀ count, (createSparkles env count s).scene.confettiContainer = s.confettiContainer) ∧
    (∀ count, (createConfetti env count s).scene.sparkleContainer = s.sparkleContainer) ∧
    (∀ b c1 c2 cake, s.cutButton = some b → s.confettiContainer = some c1 →
      s.sparkleContainer = some c2 → s.cakeOriginal = some cake → s.timers = [] →
      (∀ k, 0 ≤ env.random k ∧ env.random k < 1) →
      (confettiChildren
        (advance env (s.now + 2200) (runCakeCuttingSequence s).scene)).length = 60 ∧
      (sparkleChildren
        (advance env (s.now + 2500) (runCakeCuttingSequence s).scene)).length = 40 ∧
      confettiChildren (advance env (s.now + 2500) (runCakeCuttingSequence s).scene)
        = confettiChildren (advance env (s.now + 2200) (runCakeCuttingSequence s).scene) ∧
      ∀ t, s.now + 2200 ≤ t → t < s.now + 4200 →
        confettiChildren (advance env t (runCakeCuttingSequence s).scene)
          = confettiChildren
              (advance env (s.now + 2200) (runCakeCuttingSequence s).scene)) := by
  refine ⟨?_, ?_, ?_⟩
  · intro count
    cases h : s.sparkleContainer with
    | none => rw [createSparkles_none env count s h]; rfl
    | some c =>
      cases hk : s.cakeOriginal with
      | none => rw [createSparkles_noCake env count s c h hk]; rfl
      | some cake => rw [createSparkles_some env count s c cake h hk]; rfl
  · intro count
    cases h : s.confettiContainer with
    | none => rw [createConfetti_none env count s h]; rfl
    | some c => rw [createConfetti_some env count s c h]; rfl
  · intro b c1 c2 cake hb hc1 hc2 hk hidle hr
    have hkept := run_confetti_kept env s b c1 c2 cake hb hc1 hc2 hk hidle hr
    have h0 := hkept (s.now + 2200) (le_refl _) (by linarith)
    have h1 := hkept (s.now + 2500) (by linarith) (by linarith)
    refine ⟨?_, ?_, ?_, ?_⟩
    · rw [h0, length_confettiOf]
    · exact run_sparkles_created env s b c1 c2 cake hb hc1 hc2 hk hidle hr (s.now + 2500)
        (le_refl _) (by linarith)
    · rw [h0, h1]
    · intro t ht ht2
      rw [h0, hkept t ht ht2]

theorem generators_independent_witness :
    loadedScene.timers = [] ∧ (∀ k, 0 ≤ sampleEnv.random k ∧ sampleEnv.random k < 1) ∧
    (confettiChildren (advance sampleEnv (loadedScene.now + 2200)
      (runCakeCuttingSequence loadedScene).scene)).length = 60 ∧
    (sparkleChildren (advance sampleEnv (loadedScene.now + 2500)
      (runCakeCuttingSequence loadedScene).scene)).length = 40 ∧
    confettiChildren (advance sampleEnv (loadedScene.now + 2500)
        (runCakeCuttingSequence loadedScene).scene)
      = confettiChildren (advance sampleEnv (loadedScene.now + 2200)
          (runCakeCuttingSequence loadedScene).scene) :=
  have h := (generators_independent sampleEnv loadedScene).2.2 ⟨false, "Cut the Cake"⟩ [] []
    ⟨["cake"]⟩ rfl rfl rfl rfl rfl (fun _ => by norm_num [sampleEnv])
  ⟨rfl, fun _ => by norm_num [sampleEnv], h.1, h.2.1, h.2.2.1⟩

/-! ## Removal of a detached node -/

theorem removeConfetti_detached (env : Env) (el : Nat) (s : Scene)
    (h : ∀ p ∈ confettiChildren s, p.id ≠ el) :
    fire env (Action.removeConfetti el) s = Outcome.ok s := by
  simp only [fire, removeConfettiCallback]
  cases hc : s.confettiContainer with
  | none => rfl
  | some children =>
    have hno : children.any (fun p => p.id == el) = false := by
      rw [List.any_eq_false]
      intro p hp
      have := h p (by simp [confettiChildren, hc, hp])
      simpa using this
    simp [hno]

theorem removeSparkle_detached (env : Env) (el : Nat) (s : Scene)
    (h : ∀ p ∈ sparkleChildren s, p.id ≠ el) :
    fire env (Action.removeSparkle el) s = Outcome.ok s := by
  simp only [fire, removeSparkleCallback]
  cases hc : s.sparkleContainer with
  | none => rfl
  | some children =>
    have hno : children.any (fun p => p.id == el) = false := by
      rw [List.any_eq_false]
      intro p hp
      have := h p (by simp [sparkleChildren, hc, hp])
      simpa using this
    simp [hno]

/-- C9: the removal callback of a node that is no longer a child of its container completes
without error and leaves the whole scene, hence both containers, as it is.  This is the case
of every node of a batch that a later call of the same generator has replaced, and of every
node once `resetCakeScene` has completed. -/
theorem removal_of_detached_noop (env : Env) (s : Scene) :
    (∀ el, (∀ p ∈ confettiChildren s, p.id ≠ el) →
      fire env (Action.removeConfetti el) s = Outcome.ok s) ∧
    (∀ el, (∀ p ∈ sparkleChildren s, p.id ≠ el) →
      fire env (Action.removeSparkle el) s = Outcome.ok s) ∧
    (∀ m n c, s.confettiContainer = some c →
      ∀ p ∈ confettiChildren (createConfetti env m s).scene,
        fire env (Action.removeConfetti p.id)
            (createConfetti env n (createConfetti env m s).scene).scene
          = Outcome.ok (createConfetti env n (createConfetti env m s).scene).scene) ∧
    (∀ m n c cake, s.sparkleContainer = some c → s.cakeOriginal = some cake →
      ∀ p ∈ sparkleChildren (createSparkles env m s).scene,
        fire env (Action.removeSparkle p.id)
            (createSparkles env n (createSparkles env m s).scene).scene
          = Outcome.ok (createSparkles env n (createSparkles env m s).scene).scene) ∧
    ((resetCakeScene s).error = none → ∀ el,
      fire env (Action.removeConfetti el) (resetCakeScene s).scene
        = Outcome.ok (resetCakeScene s).scene ∧
      fire env (Action.removeSparkle el) (resetCakeScene s).scene
        = Outcome.ok (resetCakeScene s).scene) := by
  refine ⟨fun el h => removeConfetti_detached env el s h,
    fun el h => removeSparkle_detached env el s h, ?_, ?_, ?_⟩
  · intro m n c hc p hp
    exact removeConfetti_detached env p.id _
      (fun q hq => ((confetti_twice env m n s c hc).2.2.2.2 p hp).2 q hq)
  · intro m n c cake hc hk p hp
    exact removeSparkle_detached env p.id _
      (fun q hq => ((sparkles_twice env m n s c cake hc hk).2.2.2.2 p hp).2 q hq)
  · intro h el
    obtain ⟨h1, h2, h3, h4, h5, h6, h7, h8, h9⟩ := resetCakeScene_present s h
    obtain ⟨co, h1⟩ := Option.isSome_iff_exists.1 h1
    obtain ⟨cl, h2⟩ := Option.isSome_iff_exists.1 h2
    obtain ⟨cr, h3⟩ := Option.isSome_iff_exists.1 h3
    obtain ⟨line, h4⟩ := Option.isSome_iff_exists.1 h4
    obtain ⟨k, h5⟩ := Option.isSome_iff_exists.1 h5
    obtain ⟨msg, h6⟩ := Option.isSome_iff_exists.1 h6
    obtain ⟨cc, h7⟩ := Option.isSome_iff_exists.1 h7
    obtain ⟨sc, h8⟩ := Option.isSome_iff_exists.1 h8
    obtain ⟨b, h9⟩ := Option.isSome_iff_exists.1 h9
    rw [resetCakeScene_some s co cl cr line k msg cc sc b h1 h2 h3 h4 h5 h6 h7 h8 h9]
    exact ⟨removeConfetti_detached env el _ (fun p hp => by simp [confettiChildren, Outcome.ok] at hp),
      removeSparkle_detached env el _ (fun p hp => by simp [sparkleChildren, Outcome.ok] at hp)⟩

theorem removal_of_detached_noop_witness :
    loadedScene.confettiContainer = some [] ∧
    (confettiChildren (createConfetti sampleEnv 5 loadedScene).scene).map (fun p => p.id)
      = [0, 1, 2, 3, 4] ∧
    ∀ p ∈ confettiChildren (createConfetti sampleEnv 5 loadedScene).scene,
      fire sampleEnv (Action.removeConfetti p.id)
          (createConfetti sampleEnv 3 (createConfetti sampleEnv 5 loadedScene).scene).scene
        = Outcome.ok
          (createConfetti sampleEnv 3 (createConfetti sampleEnv 5 loadedScene).scene).scene :=
  ⟨rfl, by decide, (removal_of_detached_noop sampleEnv loadedScene).2.2.1 5 3 [] rfl⟩

end CakeCutting
